import Mathlib

/-!
HyperRogue: non-Euclidean reverb (`rogueviz/reverb.cpp`).

A shallow embedding of the reverb mixer and of the audio device callback, and
the properties of them that the specification states.

Conventions of the embedding.

* `int` values are `Int`; the one narrowing conversion of the source
  (`long long` to `int` in the computation of `curt`) is explicit, `toInt32`.
* `ld` (`long double`) and `double` values are exact rationals: rounding is
  outside the model.  The one operation of the source that yields an infinity
  or NaN from numbers, the division by the spreading factor of lines 131-132,
  is modelled with them (`Ld`, `attLd`, `gainLd`): a positive base over a zero
  spreading factor is infinite and capped to 5, a zero base over zero is NaN.
  The buffers hold numbers only, and the mixer reads an attenuation that is
  not a number as 0.
* The globals of the translation unit are the fields of `State`; the globals
  of the host program that the functions read (`ticks`, `sc_ticks`,
  `inHighQual`, `sphere`, `cwt.at`, `celldistance`, `sin_auto`, `M_PI`) are the
  fields of `Host`.
* A floating point value outside the range of the integer type it is converted
  to has no defined conversion in the source; the model keeps its truncation.
* `std::vector` is `List`.  An access outside the vector, a `resize` to a
  negative size and `%` by zero have no defined result in the source: the
  functions return `none` there.
* `std::map<cell*, cellinfo>` is an association list in iteration order; a
  cell is identified by a natural number.
-/

namespace rogueviz
namespace embed

/-- The sample rate, `int freq = 44100`. -/
def freq : Int := 44100

/-- The struct `sample`: one stereo frame of signed 16 bit amplitudes. -/
structure sample where
  left : Int
  right : Int
deriving DecidableEq, Repr

/-- The `operator []` of `sample`: channel 0 is `left`, channel 1 is `right`. -/
def sample.get (x : sample) (ch : Nat) : Int :=
  if ch = 0 then x.left else x.right

/-- Assignment through `operator []` of `sample`. -/
def sample.set (x : sample) (ch : Nat) (v : Int) : sample :=
  if ch = 0 then { x with left := v } else { x with right := v }

/-- Read of an `array<ld, 2>`. -/
def get2 (x : ℚ × ℚ) (ch : Nat) : ℚ :=
  if ch = 0 then x.1 else x.2

/-- Write of an `array<ld, 2>`. -/
def set2 (x : ℚ × ℚ) (ch : Nat) (v : ℚ) : ℚ × ℚ :=
  if ch = 0 then (v, x.2) else (x.1, v)

/-- The struct `cellinfo`. -/
structure cellinfo where
  lastframe : Int
  curframe : Int
  lastdist : ℚ × ℚ
  curdist : ℚ × ℚ
deriving DecidableEq, Repr

/-- The globals of `reverb.cpp` (`in` is a keyword here, the field is `in_`). -/
structure State where
  in_ : Bool
  started : Bool
  orig : List sample
  current_sample : Int
  prevt : Int
  curt : Int
  maxsnd : ℚ
  absorption : ℚ
  speed_of_sound : ℚ
  iad : ℚ
  to_play : List sample
  frameid : Int
  infos : List (Nat × cellinfo)
  sndbuffer : List (ℚ × ℚ)
  maxvol : Int
deriving DecidableEq, Repr

/-- The globals as their initialisers leave them, but for the track, which is `orig`. -/
def State.init (orig : List sample) : State :=
  { in_ := false, started := false,
    orig := orig, current_sample := 0, prevt := 0, curt := 0, maxsnd := 1,
    absorption := 1 / 10, speed_of_sound := 1 / 4, iad := 1 / 20,
    to_play := [], frameid := 10, infos := [], sndbuffer := [], maxvol := 1 }

/-- What the functions read from the host program.  `cwt_at` is `cwt.at`, the cell of the
listener, and `celldistance c` stands for `celldistance(c, cwt.at)`, the distance of cell
`c` to it. -/
structure Host where
  inHighQual : Bool
  ticks : Int
  sc_ticks : Int
  sphere : Bool
  cwt_at : Nat
  celldistance : Nat → Int
  sin_auto : ℚ → ℚ
  M_PI : ℚ

/-- Conversion of a `long long` to `int`: reduction modulo `2^32` to the signed range. -/
def toInt32 (x : Int) : Int :=
  (x + 2147483648) % 4294967296 - 2147483648

/-- Conversion of a floating point value to an integer type: truncation toward zero. -/
def truncToInt (x : ℚ) : Int :=
  if 0 ≤ x then Rat.floor x else -Rat.floor (-x)

/-- Modelled from the spec: `ilerp` is declared in the host program, outside this
file; the spec gives the fractional position as `(i - prevT)/(currT - prevT)`. -/
def ilerp (a0 a1 x : ℚ) : ℚ :=
  (x - a0) / (a1 - a0)

/-- Modelled from the spec: `lerp` is declared in the host program, outside this
file; the spec says it interpolates linearly between its first two arguments. -/
def lerp (a0 a1 x : ℚ) : ℚ :=
  a0 + (a1 - a0) * x

/-- Read `v[i]` with an `int` index. -/
def vget {α : Type} (v : List α) (i : Int) : Option α :=
  if i < 0 then none else v[i.toNat]?

/-- Write `v[i] = x` with an `int` index. -/
def vset {α : Type} (v : List α) (i : Int) (x : α) : Option (List α) :=
  if 0 ≤ i ∧ i.toNat < v.length then some (v.set i.toNat x) else none

/-- The call `v.resize(n, fill)` with an `int` size: a negative size converts to a
huge unsigned one and the call throws. -/
def resize {α : Type} (v : List α) (n : Int) (fill : α) : Option (List α) :=
  if n < 0 then none
  else some (v.take n.toNat ++ List.replicate (n.toNat - v.length) fill)

/-- The loop `for(int i = lo; i < lo + n; i++) st = body(st, i)`. -/
def forLoop {σ : Type} (body : σ → Int → Option σ) : Nat → Int → σ → Option σ
  | 0, _, st => some st
  | n + 1, i, st =>
    match body st i with
    | none => none
    | some st1 => forLoop body n (i + 1) st1

/-- The cap of lines 133-134: `if(att > 5) att = 5`. -/
def cap5 (x : ℚ) : ℚ :=
  if x > 5 then 5 else x

/-- The base of the attenuation of image `s`, `pow(1-absorption, dist + 3 * s)`. -/
def attBase (absorption : ℚ) (dist s : Int) : ℚ :=
  (1 - absorption) ^ (dist + 3 * s)

/-- A value of type `ld`: a number, an infinity or NaN. -/
inductive Ld where
  | num (q : ℚ)
  | posInf
  | negInf
  | nan
deriving DecidableEq, Repr

/-- The quotient `x / y` of two numbers in floating point arithmetic: a quotient by zero is
an infinity with the sign of `x`, and NaN when `x` is zero (the zero divisor is `+0`, the
spreading factor of a distance that is not negative). -/
def ldDiv (x y : ℚ) : Ld :=
  if y = 0 then (if 0 < x then Ld.posInf else if x < 0 then Ld.negInf else Ld.nan)
  else Ld.num (x / y)

/-- The cap of lines 133-134 on a value of type `ld`: the test `att > 5` holds for positive
infinity and fails for negative infinity and for NaN, which stay as they are. -/
def capLd : Ld → Ld
  | Ld.num q => Ld.num (cap5 q)
  | Ld.posInf => Ld.num 5
  | Ld.negInf => Ld.negInf
  | Ld.nan => Ld.nan

/-- One attenuation endpoint, lines 131-134: `base / sin_auto(d)`, capped at 5. -/
def attLd (h : Host) (base d : ℚ) : Ld :=
  capLd (ldDiv base (h.sin_auto d))

/-- The number that a value of type `ld` is; 0 stands for a value that is not a number. -/
def Ld.toRat : Ld → ℚ
  | Ld.num q => q
  | _ => 0

/-- One attenuation endpoint as the mixer reads it: the number that `attLd` is. -/
def att (h : Host) (base d : ℚ) : ℚ :=
  (attLd h base d).toRat

/-- The negation of a value of type `ld`. -/
def Ld.neg : Ld → Ld
  | Ld.num q => Ld.num (-q)
  | Ld.posInf => Ld.negInf
  | Ld.negInf => Ld.posInf
  | Ld.nan => Ld.nan

/-- The sum of two values of type `ld`: NaN when one of them is, or when they are the two
infinities. -/
def Ld.add : Ld → Ld → Ld
  | Ld.num a, Ld.num b => Ld.num (a + b)
  | Ld.nan, _ => Ld.nan
  | _, Ld.nan => Ld.nan
  | Ld.posInf, Ld.negInf => Ld.nan
  | Ld.negInf, Ld.posInf => Ld.nan
  | Ld.posInf, _ => Ld.posInf
  | _, Ld.posInf => Ld.posInf
  | Ld.negInf, _ => Ld.negInf
  | _, Ld.negInf => Ld.negInf

/-- The product of a value of type `ld` and a number: an infinity times zero is NaN. -/
def Ld.mulNum : Ld → ℚ → Ld
  | Ld.num a, x => Ld.num (a * x)
  | Ld.nan, _ => Ld.nan
  | Ld.posInf, x => if x = 0 then Ld.nan else if 0 < x then Ld.posInf else Ld.negInf
  | Ld.negInf, x => if x = 0 then Ld.nan else if 0 < x then Ld.negInf else Ld.posInf

/-- Modelled from the spec: `lerp`, as above, on values of type `ld`. -/
def lerpLd (a0 a1 : Ld) (x : ℚ) : Ld :=
  Ld.add a0 (Ld.mulNum (Ld.add a1 (Ld.neg a0)) x)

/-- The test `v <= 5` on a value of type `ld`: it fails for NaN. -/
def Ld.le5 : Ld → Bool
  | Ld.num q => decide (q ≤ 5)
  | Ld.posInf => false
  | Ld.negInf => true
  | Ld.nan => false

/-- The interpolated distance of line 140. -/
def delayDist (h : Host) (p : cellinfo) (s : Int) (ch : Nat) (a : ℚ) : ℚ :=
  lerp (get2 p.lastdist ch) (get2 p.curdist ch) a + h.M_PI * s

/-- The source read index of lines 141-143. -/
def readIndex (orig : List sample) (speed_of_sound : ℚ) (i : Int) (d : ℚ) : Option Int :=
  let tim := truncToInt ((i : ℚ) - d * (freq : ℚ) * speed_of_sound)
  if (orig.length : Int) = 0 then none
  else
    let tim := Int.tmod tim (orig.length : Int)
    some (if tim < 0 then tim + (orig.length : Int) else tim)

/-- The gain of line 144, `lerp(att0[ch], att1[ch], a)`, as the mixer reads it. -/
def gain (h : Host) (base : ℚ) (p : cellinfo) (ch : Nat) (a : ℚ) : ℚ :=
  lerp (att h base (get2 p.lastdist ch)) (att h base (get2 p.curdist ch)) a

/-- The gain of line 144, `lerp(att0[ch], att1[ch], a)`, as a value of type `ld`. -/
def gainLd (h : Host) (base : ℚ) (p : cellinfo) (ch : Nat) (a : ℚ) : Ld :=
  lerpLd (attLd h base (get2 p.lastdist ch)) (attLd h base (get2 p.curdist ch)) a

/-- The body of the sample loop, lines 139-144, for one channel and one sample index. -/
def mixSample (h : Host) (st : State) (p : cellinfo) (s : Int) (base : ℚ) (ch : Nat)
    (buf : List (ℚ × ℚ)) (i : Int) : Option (List (ℚ × ℚ)) :=
  let a := ilerp (st.prevt : ℚ) (st.curt : ℚ) (i : ℚ)
  let d := delayDist h p s ch a
  match readIndex st.orig st.speed_of_sound i d with
  | none => none
  | some tim =>
    match vget st.orig tim, vget buf i with
    | some o, some v => vset buf i (set2 v ch (get2 v ch + (o.get ch : ℚ) * gain h base p ch a))
    | _, _ => none

/-- The loop over the two channels of line 137, around the sample loop. -/
def mixChannels (h : Host) (st : State) (p : cellinfo) (s : Int) (base : ℚ)
    (buf : List (ℚ × ℚ)) : Option (List (ℚ × ℚ)) :=
  match forLoop (mixSample h st p s base 0) (st.curt - st.prevt).toNat st.prevt buf with
  | none => none
  | some buf1 => forLoop (mixSample h st p s base 1) (st.curt - st.prevt).toNat st.prevt buf1

/-- The body of the loop over the images, lines 120-147: the contribution of image `s`,
then the update of `lastframe` and `lastdist`. -/
def mixImage (h : Host) (st : State) (dist : Int) (pb : cellinfo × List (ℚ × ℚ)) (s : Int) :
    Option (cellinfo × List (ℚ × ℚ)) :=
  match mixChannels h st pb.1 s (attBase st.absorption dist s) pb.2 with
  | none => none
  | some buf => some ({ pb.1 with lastframe := pb.1.curframe, lastdist := pb.1.curdist }, buf)

/-- The reset of line 111-112: no interpolation across a gap in visibility. -/
def gapReset (p : cellinfo) : cellinfo :=
  if p.lastframe ≠ p.curframe - 1 then { p with lastdist := p.curdist } else p

/-- The body of the loop over the tracked cells, lines 109-148. -/
def mixCell (h : Host) (st : State) (c : Nat) (p : cellinfo) (buf : List (ℚ × ℚ)) :
    Option (cellinfo × List (ℚ × ℚ)) :=
  if p.curframe ≠ st.frameid then some (p, buf)
  else
    let p1 := gapReset p
    let dist := h.celldistance c
    if dist > (if h.sphere then 3 else 2) ∧ h.inHighQual = false then some (p1, buf)
    else forLoop (mixImage h st dist) (if h.sphere then 10 else 1) 0 (p1, buf)

/-- The loop over the tracked cells, line 108. -/
def mixCells (h : Host) (st : State) :
    List (Nat × cellinfo) → List (ℚ × ℚ) → Option (List (Nat × cellinfo) × List (ℚ × ℚ))
  | [], buf => some ([], buf)
  | (c, p) :: rest, buf =>
    match mixCell h st c p buf with
    | none => none
    | some (p1, buf1) =>
      match mixCells h st rest buf1 with
      | none => none
      | some (rest1, buf2) => some ((c, p1) :: rest1, buf2)

/-- The body of the loop of lines 151-152, both channels of one sample index. -/
def maxStep (buf : List (ℚ × ℚ)) (m : ℚ) (i : Int) : Option ℚ :=
  match vget buf i with
  | none => none
  | some v => some ([0, 1].foldl (fun m ch => if get2 v ch > m then get2 v ch else m) m)

/-- The value of line 159 before it is stored as a 16 bit integer. -/
def pcm (x maxsnd : ℚ) : ℚ :=
  x / maxsnd * 30000

/-- The body of the loop of lines 158-159.  The stored value is the truncation of `pcm`;
a value outside the 16 bit range has no defined conversion in the source and is kept
as it is here. -/
def playStep (buf : List (ℚ × ℚ)) (maxsnd : ℚ) (tp : List sample) (i : Int) :
    Option (List sample) :=
  match vget buf i, vget tp i with
  | some v, some t =>
    vset tp i ([0, 1].foldl (fun t ch => t.set ch (truncToInt (pcm (get2 v ch) maxsnd))) t)
  | _, _ => none

/-- The new value of `curt`, line 102. -/
def nextCurt (h : Host) : Int :=
  toInt32 (Int.tdiv ((if h.inHighQual then h.ticks else h.sc_ticks) * freq) 1000)

/-- The new value of `prevt`, lines 99 and 103. -/
def nextPrevt (h : Host) (st : State) : Int :=
  if st.curt > nextCurt h then nextCurt h else st.curt

/-- The state after lines 99-103: `prevt` and `curt` updated, nothing else. -/
def tick (h : Host) (st : State) : State :=
  { st with prevt := nextPrevt h st, curt := nextCurt h }

/-- The function `reverb_queue`. -/
def reverb_queue (h : Host) (st0 : State) : Option State :=
  let st := tick h st0
  if st.curt - st.prevt > freq then some st
  else
    match resize st.sndbuffer st.curt (0, 0) with
    | none => none
    | some buf0 =>
      match mixCells h st st.infos buf0 with
      | none => none
      | some (infos, buf) =>
        match forLoop (maxStep buf) (st.curt - st.prevt).toNat st.prevt st.maxsnd with
        | none => none
        | some maxsnd =>
          match resize st.to_play st.curt ⟨0, 0⟩ with
          | none => none
          | some tp0 =>
            match forLoop (playStep buf maxsnd) (st.curt - st.prevt).toNat st.prevt tp0 with
            | none => none
            | some tp =>
              some { st with sndbuffer := buf, infos := infos, maxsnd := maxsnd,
                             frameid := st.frameid + 1, to_play := tp }

/-- The device callback `myAudio`: the new state and the new contents of the stream.
The stream is seen as the source sees it, an array of `sample`. -/
def myAudio (h : Host) (st : State) (stream : List sample) (len : Int) :
    Option (State × List sample) :=
  if (st.to_play.length : Int) < st.current_sample + len then some (st, stream)
  else if h.inHighQual then some (st, stream)
  else
    forLoop
      (fun (acc : State × List sample) i =>
        match vget acc.1.to_play acc.1.current_sample with
        | none => none
        | some x =>
          match vset acc.2 i x with
          | none => none
          | some out => some ({ acc.1 with current_sample := acc.1.current_sample + 1 }, out))
      (Int.tdiv len 4).toNat 0 (st, stream)

/-- The vector `v` with `f j` applied to every slot `j` with `lo ≤ j < hi`: what a loop
that rewrites the slots of that range one by one computes. -/
def updRange {α : Type} (f : Int → α → α) (lo hi : Int) (v : List α) : List α :=
  v.mapIdx (fun j x => if lo ≤ (j : Int) ∧ (j : Int) < hi then f j x else x)

/-- The value that line 144 adds to `sndbuffer[i][ch]` for image `s` of a cell: the source
sample at the delayed read index times the gain (0 where the read is undefined). -/
def mixTerm (h : Host) (st : State) (p : cellinfo) (s : Int) (base : ℚ) (ch : Nat) (i : Int) : ℚ :=
  let a := ilerp (st.prevt : ℚ) (st.curt : ℚ) (i : ℚ)
  match readIndex st.orig st.speed_of_sound i (delayDist h p s ch a) with
  | none => 0
  | some tim =>
    match vget st.orig tim with
    | none => 0
    | some o => (o.get ch : ℚ) * gain h base p ch a

/-- The update of one slot by one image of a cell: both channels. -/
def addImage (h : Host) (st : State) (p : cellinfo) (s : Int) (base : ℚ) (i : Int)
    (v : ℚ × ℚ) : ℚ × ℚ :=
  (v.1 + mixTerm h st p s base 0 i, v.2 + mixTerm h st p s base 1 i)

/-- The vector `w` has the length of `v` and the same slots outside `[lo, hi)`. -/
def SameOutside {α : Type} (lo hi : Int) (v w : List α) : Prop :=
  w.length = v.length ∧ ∀ j : Nat, ((j : Int) < lo ∨ hi ≤ (j : Int)) → w[j]? = v[j]?

/-- What the mixing loops need in order to be defined: an empty range, or a track that is
not empty and a range inside the buffer. -/
def MixReady (st : State) (len : Nat) : Prop :=
  st.curt ≤ st.prevt ∨ (st.orig ≠ [] ∧ 0 ≤ st.prevt ∧ st.curt ≤ len)

/-- The condition of lines 110 and 116 under which a tracked cell contributes to the mix:
recorded in the current frame and, unless high-quality mode is on, at topological distance at
most 2 (3 on the sphere). -/
def Heard (h : Host) (st : State) (c : Nat) (p : cellinfo) : Prop :=
  p.curframe = st.frameid ∧
    (h.inHighQual = true ∨ h.celldistance c ≤ (if h.sphere then 3 else 2))

/-! ## The visibility callback, the export and the command line -/

/-- The function `start_audio`: whatever the audio device answers, `started` is set. -/
def start_audio (st : State) : State :=
  { st with started := true }

/-- The loop of lines 178-181, which looks for the loudest sample between the read positions
`id` and `nextt`.  `fuel` bounds the iterations: from a position inside the track every
other one is reached in fewer steps than the track has samples, so with `fuel` the length of
the track the result is `none` exactly when the source reads outside the track or loops for
ever. -/
def birdLoop (orig : List sample) (nextt : Int) : Nat → Int → Int → Option Int
  | 0, id, tot => if id = nextt then some tot else none
  | fuel + 1, id, tot =>
    if id = nextt then some tot
    else
      match vget orig id with
      | none => none
      | some o =>
        birdLoop orig nextt fuel (if id + 1 = (orig.length : Int) then 0 else id + 1)
          (max tot (max |o.get 0| |o.get 1|))

/-- Lines 173-181 of `draw_bird`, for the cell of the listener: the loudest sample between the
position of the last mix step and the current one.  What is drawn from it is left to the
host. -/
def birdVolume (h : Host) (st : State) : Option Int :=
  if (st.orig.length : Int) = 0 then none
  else
    birdLoop st.orig (Int.tmod (nextCurt h) (st.orig.length : Int)) st.orig.length
      (Int.tmod st.curt (st.orig.length : Int)) 0

/-- A value-initialised `cellinfo`, what `infos[c]` creates for a new cell. -/
def cellinfo.fresh : cellinfo :=
  { lastframe := 0, curframe := 0, lastdist := (0, 0), curdist := (0, 0) }

/-- The access `infos[c]` followed by an update of the entry: the entry of `c` is created
when `c` has none, in the order of the keys. -/
def infosUpdate (c : Nat) (f : cellinfo → cellinfo) :
    List (Nat × cellinfo) → List (Nat × cellinfo)
  | [] => [(c, f cellinfo.fresh)]
  | (k, p) :: rest =>
    if c = k then (k, f p) :: rest
    else if c < k then (c, f cellinfo.fresh) :: (k, p) :: rest
    else (k, p) :: infosUpdate c f rest

/-- The function `draw_bird` for the cell `c`.  `earDist x` stands for
`hdist0(xpush(x) * tC0(V))`, with `V` the matrix of the call. -/
def draw_bird (h : Host) (st0 : State) (c : Nat) (earDist : ℚ → ℚ) : Option State :=
  if st0.in_ = false then some st0
  else
    let st := if st0.started = false then start_audio st0 else st0
    match (if c = h.cwt_at then birdVolume h st else some 0) with
    | none => none
    | some _ =>
      some { st with
        infos := infosUpdate c
          (fun ci => { ci with curframe := st.frameid,
                               curdist := (earDist (-st.iad), earDist st.iad) })
          st.infos }

/-- The function `save_raw_audio`: the new state and what is written to the file, if a file
is written. -/
def save_raw_audio (st : State) : Option (State × Option (List sample)) :=
  if st.in_ = false then some (st, none)
  else
    match forLoop (playStep st.sndbuffer st.maxsnd) (st.curt - 0).toNat 0 st.to_play with
    | none => none
    | some tp => some ({ st with to_play := tp }, some tp)

/-- The test of line 264, `fname.substr(isize(fname) - 4) == ".raw"`: for a name of fewer than
four characters the position is negative, converts to a huge unsigned one, and `substr`
throws. -/
def endsWithRaw (fname : List Char) : Option Bool :=
  if (fname.length : Int) - 4 < 0 then none
  else some (decide (fname.drop (fname.length - 4) = ['.', 'r', 'a', 'w']))

/-- The two ways of loading the track. -/
inductive LoadPath where
  | raw
  | decoded
deriving DecidableEq, Repr

/-- The way of loading that the handler takes for a file name. -/
def selectedPath (fname : List Char) : Option LoadPath :=
  match endsWithRaw fname with
  | none => none
  | some true => some LoadPath.raw
  | some false => some LoadPath.decoded

/-- What the file system and the decoding library answer for a file name: the samples of
the file, or nothing when the file cannot be opened or decoded. -/
structure Files where
  raw : List Char → Option (List sample)
  decoded : List Char → Option (List sample)

/-- The loop of lines 292-295. -/
def loadMaxvol (maxvol : Int) (orig : List sample) : Int :=
  orig.foldl (fun m o => max (max m |o.get 0|) |o.get 1|) maxvol

/-- The handler of the command line arguments, lines 256-312: the return code and the new
state.  `isReverb` is `argis("-reverb")` and `fname` the argument that follows.  The start of
the game and the settings of the host that follow a successful load are left to the host. -/
def argHandler (files : Files) (st : State) (isReverb : Bool) (fname : List Char) :
    Option (Int × State) :=
  if isReverb = false then some (1, st)
  else
    match selectedPath fname with
    | none => none
    | some path =>
      match (match path with
             | LoadPath.raw => files.raw fname
             | LoadPath.decoded => files.decoded fname) with
      | none => some (1, st)
      | some data =>
        some (0, { st with orig := data, maxvol := loadMaxvol st.maxvol data, in_ := true })

/-! ## Sequences of calls -/

/-- A call of one of the two frame hooks. -/
inductive Event where
  | draw (h : Host) (c : Nat) (earDist : ℚ → ℚ)
  | mix (h : Host)

/-- The state after one call. -/
def step (st : State) : Event → Option State
  | Event.draw h c earDist => draw_bird h st c earDist
  | Event.mix h => reverb_queue h st

/-- The state after a sequence of calls. -/
def run : State → List Event → Option State
  | st, [] => some st
  | st, e :: es =>
    match step st e with
    | none => none
    | some st1 => run st1 es

/-- The values of the session when it starts: the frame counter is 10, no cell is tracked,
no sample has been mixed.  The track and the parameters are free. -/
def IsStart (st : State) : Prop :=
  st.frameid = 10 ∧ st.infos = [] ∧ st.prevt = 0 ∧ st.curt = 0 ∧ st.sndbuffer = [] ∧
    st.to_play = [] ∧ st.current_sample = 0

/-- The frame numbers of a session: the counter is at least 10, and every tracked cell was
last recorded in a frame from 10 to the current one and last mixed in such a frame or never
(`lastframe = 0`). -/
def FrameInv (st : State) : Prop :=
  10 ≤ st.frameid ∧
    ∀ cp ∈ st.infos, 10 ≤ cp.2.curframe ∧ cp.2.curframe ≤ st.frameid ∧
      (cp.2.lastframe = 0 ∨ 10 ≤ cp.2.lastframe)

/-- The entry of cell `c` in `infos`, if it has one. -/
def infosFind : List (Nat × cellinfo) → Nat → Option cellinfo
  | [], _ => none
  | (k, p) :: rest, c => if c = k then some p else infosFind rest c

/-- What a mix step may do to the frame numbers of a cell: `curframe` stays, and `lastframe`
stays or becomes `curframe`. -/
def CellStep (p p1 : cellinfo) : Prop :=
  p1.curframe = p.curframe ∧ (p1.lastframe = p.lastframe ∨ p1.lastframe = p.curframe)

/-- The same cells in the same order, each related by `CellStep`. -/
def InfosStep (l l1 : List (Nat × cellinfo)) : Prop :=
  List.Forall₂ (fun a b => a.1 = b.1 ∧ CellStep a.2 b.2) l l1

/-- From `st` to `st1` the frame counter has not decreased, and every cell tracked in `st` is
tracked in `st1` with a `curframe` that has not decreased. -/
def FramesGrow (st st1 : State) : Prop :=
  st.frameid ≤ st1.frameid ∧
    ∀ c p, infosFind st.infos c = some p →
      ∃ p1, infosFind st1.infos c = some p1 ∧ p.curframe ≤ p1.curframe

/-! ## Concrete inputs -/

/-- A host in Euclidean geometry (`sin_auto` is the identity) at `t` milliseconds, every
cell at topological distance `dist` of the listener (cell 0 is the cell of the listener when
`dist` is 0). -/
def euclidHost (t dist : Int) : Host :=
  { inHighQual := false, ticks := t, sc_ticks := t, sphere := false,
    cwt_at := if dist = 0 then 0 else 1,
    celldistance := fun _ => dist, sin_auto := fun x => x,
    M_PI := 884279719003555 / 281474976710656 }

/-- The initial state with the track `orig`, no absorption, and one tracked cell that
`draw_bird` recorded in the current frame at the binaural distances `d`. -/
def oneCellState (orig : List sample) (d : ℚ × ℚ) : State :=
  { State.init orig with
    in_ := true, started := true, maxvol := loadMaxvol 1 orig,
    absorption := 0,
    infos := [(0, { lastframe := 0, curframe := 10, lastdist := (0, 0), curdist := d })] }

/-- A one sample track whose right channel is negative and louder than the left one. -/
def negTrack : List sample := [⟨100, -200⟩]

/-- The state that the first frame, at 1 millisecond, leaves from `oneCellState`: 44 samples
are mixed (`getD` only unwraps the result, which is defined). -/
def afterFirstFrame : State :=
  (reverb_queue (euclidHost 1 1) (oneCellState negTrack (1, 1))).getD (State.init [])

/-- The state that a first frame at 2000 milliseconds leaves from the initial state: the
frame is skipped, `curt` is 88200 and both buffers are still empty. -/
def afterSkippedFrame : State :=
  { State.init negTrack with prevt := 0, curt := 88200 }

/-- The value of a cell after an image has been mixed, lines 146-147. -/
def settled (p : cellinfo) : cellinfo :=
  { p with lastframe := p.curframe, lastdist := p.curdist }

/-- The cell as image `k` of the loop over the images reads it: every image after image 0
comes after lines 146-147. -/
def imageCell (p : cellinfo) (k : Nat) : cellinfo :=
  if k = 0 then p else settled p

/-- The sum over the images `s0, ..., s0 + n - 1` of what line 144 adds to
`sndbuffer[i][ch]` for a cell at topological distance `dist`. -/
def imageSum (h : Host) (st : State) (p : cellinfo) (dist : Int) (ch : Nat) (i : Int)
    (s0 : Int) (n : Nat) : ℚ :=
  ((List.range n).map
    (fun (k : Nat) =>
      mixTerm h st p (s0 + (k : Int)) (attBase st.absorption dist (s0 + (k : Int))) ch i)).sum

/-- The track of the end-to-end scenario of the specification. -/
def specTrack : List sample := [⟨100, -100⟩, ⟨200, -200⟩, ⟨0, 0⟩, ⟨0, 0⟩]

/-- The end-to-end scenario: `specTrack`, no absorption, `speed_of_sound = 0`, and one
cell, recorded in the current frame at the binaural distances `d`. -/
def passthroughState (d : ℚ × ℚ) : State :=
  { oneCellState specTrack d with speed_of_sound := 0 }

/-- A host on the sphere at `t` milliseconds, every cell at topological distance 0 of the
listener.  On the sphere `sin_auto` is the sine, which has no rational values: this host
has the polynomial `x - x^3/6` in its place, which is 0 at 0 and differs from the sine by at
most `x^5/120` for `x ≥ 0`.  The numbers computed with this host are those of the polynomial,
not of the sine. -/
def sphereHost (t : Int) : Host :=
  { inHighQual := false, ticks := t, sc_ticks := t, sphere := true, cwt_at := 0,
    celldistance := fun _ => 0, sin_auto := fun x => x - x ^ 3 / 6,
    M_PI := 884279719003555 / 281474976710656 }

/-- A cell seen at the binaural distances `(1/100, 1/100)` in the last frame and in the
current one. -/
def stillCell : cellinfo :=
  { lastframe := 9, curframe := 10, lastdist := (1 / 100, 1 / 100), curdist := (1 / 100, 1 / 100) }

/-- The initial state on the sphere with absorption `1/2` and one tracked cell, recorded in
the current frame at the binaural distances `(1, 1)`. -/
def sphereState : State :=
  { oneCellState negTrack (1, 1) with absorption := 1 / 2 }

/-- A state in which the playback buffer holds four samples, none of them consumed. -/
def fourQueued : State :=
  { State.init negTrack with
    to_play := [⟨1, 1⟩, ⟨2, 2⟩, ⟨3, 3⟩, ⟨4, 4⟩], curt := 4 }

/-- The state after the handler of `-reverb` has loaded the track `orig` into the initial
state. -/
def loadedState (orig : List sample) : State :=
  { State.init orig with in_ := true, maxvol := loadMaxvol 1 orig }

/-- A file system without any file. -/
def noFiles : Files :=
  { raw := fun _ => none, decoded := fun _ => none }

/-- The binaural distance of a cell whose centre is the listener, in Euclidean geometry:
the ear at offset `x` is at distance `|x|`. -/
def ownCellEar (x : ℚ) : ℚ := |x|

/-- A cell recorded at the binaural distances `(1, 1)` in frame 10, mixed in that frame, and
recorded at `(1/2, 1/2)` in frame 11. -/
def movingCell : cellinfo :=
  { lastframe := 10, curframe := 11, lastdist := (1, 1), curdist := (1 / 2, 1 / 2) }

/-- A session on the sphere with absorption `1/2` and the track `negTrack`: the cell of the
listener is recorded at the binaural distances `(1, 1)` and mixed in the frame at 0
milliseconds, which has no samples, then recorded at `(1/2, 1/2)`.  This is the state before
the second mix step (`getD` only unwraps the result, which is defined). -/
def movingState : State :=
  (run { loadedState negTrack with absorption := 1 / 2 }
    [Event.draw (sphereHost 0) 0 (fun _ => 1), Event.mix (sphereHost 0),
     Event.draw (sphereHost 1) 0 (fun _ => 1 / 2)]).getD (State.init [])

/-- A state on the sphere with two tracked cells, both recorded in the current frame: cell 0
at the binaural distances `(1/2, 1/2)` and cell 1 at `(1, 1)`. -/
def twoCellState : State :=
  { sphereState with
    infos := [(0, { lastframe := 0, curframe := 10, lastdist := (0, 0), curdist := (1 / 2, 1 / 2) })] ++
      (1, { lastframe := 0, curframe := 10, lastdist := (0, 0), curdist := (1, 1) }) :: [] }

/-- A session on the sphere with full absorption (`absorption = 1`) and the two ears at one
point (`iad = 0`), the listener at the centre of its cell: `draw_bird` records the cell of the
listener at the binaural distances `(0, 0)`.  This is the state before the first mix step
(`getD` only unwraps the result, which is defined). -/
def fullAbsorptionState : State :=
  (run { loadedState negTrack with absorption := 1, iad := 0 }
    [Event.draw (sphereHost 1) 0 (fun x => |x|)]).getD (State.init [])

/-- The cell that `fullAbsorptionState` tracks. -/
def centreCell : cellinfo :=
  { lastframe := 0, curframe := 10, lastdist := (0, 0), curdist := (0, 0) }

end embed
end rogueviz

/-!
HyperRogue: VR support (`vr.cpp`).

The session state of the VR subsystem and the functions that assign it.  Rendering and
tracking themselves are calls into the host and the VR runtime; the model records which of
them are made and which values `state` takes, in order.
-/

namespace hr
namespace vrhr

/-- The enum `eCompScreen`. -/
inductive eCompScreen where
  | none
  | reference
  | single
  | eyes
deriving DecidableEq, Repr

/-- The globals `enabled`, `failed` and `state` of `vr.cpp`, and the log of the values that
have been assigned to `state`. -/
structure VRState where
  enabled : Bool
  failed : Bool
  state : Int
  assigned : List Int
deriving DecidableEq, Repr

/-- The globals as their initialisers leave them. -/
def VRState.init : VRState :=
  { enabled := false, failed := false, state := 0, assigned := [] }

/-- What `vr_control` and `start_vr` read from the host and the VR runtime: `vid.usingGL`,
whether `VR_Init` reports no error, and whether `VRCompositor()` is available. -/
structure VRHost where
  usingGL : Bool
  initOk : Bool
  compositorOk : Bool

/-- The functions of `vr.cpp` that `vr_control` calls. -/
inductive Call where
  | start_vr
  | track_all
  | shutdown_vr
deriving DecidableEq, Repr

/-- The assignment `state = v`. -/
def setState (v : Int) (s : VRState) : VRState :=
  { s with state := v, assigned := s.assigned ++ [v] }

/-- The function `draw_eyes`, as far as `state` goes: line 679. -/
def draw_eyes (s : VRState) : VRState :=
  setState 1 s

/-- The function `render`, as far as `state` goes, for the value `GDIM` of the macro `GDIM`
and the value `cscr` of the global `cscr`. -/
def render (GDIM : Int) (cscr : eCompScreen) (s0 : VRState) : VRState :=
  let s := setState 2 s0
  if GDIM = 2 then setState 3 s
  else
    let s := if cscr = eCompScreen.eyes then draw_eyes s else s
    let s := if cscr = eCompScreen.single then setState 3 s else s
    let s := if cscr = eCompScreen.reference then setState 3 s else s
    setState 1 s

/-- The function `start_vr`, as far as `failed` and `state` go; `none` when the compositor
is not available and the process exits. -/
def start_vr (env : VRHost) (s : VRState) : Option VRState :=
  if env.initOk = false then some { s with failed := true }
  else if env.compositorOk = false then none
  else some (setState 1 s)

/-- The function `shutdown_vr`, as far as `state` goes. -/
def shutdown_vr (s : VRState) : VRState :=
  setState 0 s

/-- The function `vr_control`: the new state and the calls made, in order; `none` when
`start_vr` exits the process.  `track_all` assigns none of `enabled`, `failed`, `state`. -/
def vr_control (env : VRHost) (s : VRState) : Option (VRState × List Call) :=
  if s.enabled = false ∨ env.usingGL = false then
    if s.state ≠ 0 then some (shutdown_vr s, [Call.shutdown_vr]) else some (s, [])
  else
    match (if s.enabled = true ∧ env.usingGL = true ∧ s.state = 0 ∧ s.failed = false
           then (start_vr env s).map (fun s1 => (s1, [Call.start_vr]))
           else some (s, [])) with
    | none => none
    | some (s1, calls) =>
      if s1.state = 1 then some (s1, calls ++ [Call.track_all]) else some (s1, calls)

/-- A sequence of calls of `vr_control`, each after the user has set `enabled` to the given
value: the final state and all the calls made. -/
def vr_controls : VRState → List (VRHost × Bool) → Option (VRState × List Call)
  | s, [] => some (s, [])
  | s, (env, en) :: rest =>
    match vr_control env { s with enabled := en } with
    | none => none
    | some (s1, calls) =>
      match vr_controls s1 rest with
      | none => none
      | some (s2, calls2) => some (s2, calls ++ calls2)

end vrhr
end hr

/-!
HyperRogue: VR controller actions (`vr.cpp`, lines 407-550).

The tables `dads` and `sads` and the function `track_actions`.  The predicates `when` read the
global `cmode` and the constant `sm::NORMAL`, which is declared outside `vr.cpp`: both are
arguments here.  The calls into the VR runtime are recorded, not performed.
-/

namespace hr
namespace vrhr

/-- The C++ expression `a && b` on two `int` operands. -/
def logicalAnd (a b : Int) : Bool :=
  decide (a ≠ 0) && decide (b ≠ 0)

/-- The C++ expression `a & b` on two `int` operands, converted to `bool`. -/
def bitAnd (a b : Int) : Bool :=
  decide (Int.land a b ≠ 0)

/-- The struct `digital_action_data`, without `handle` and `act`; `when` takes the values of
`sm::NORMAL` and of `cmode`. -/
structure digital_action_data where
  action_name : String
  last : Bool
  curr : Bool
  when : Int → Int → Bool

/-- The struct `set_data`, without `handle`; `when` takes the values of `sm::NORMAL` and of
`cmode`. -/
structure set_data where
  set_name : String
  prio : Int
  when : Int → Int → Bool

/-- The constructor of `digital_action_data` (line 412), which leaves `last` and `curr` as
they are: `l` and `c` stand for their values. -/
def digital_action_data.mk0 (l c : Bool) (s : String) (w : Int → Int → Bool) :
    digital_action_data :=
  { action_name := s, last := l, curr := c, when := w }

/-- The vector `dads` (lines 432-468), each `when` as written there. -/
def dads (l c : Bool) : List digital_action_data :=
  [ digital_action_data.mk0 l c "/actions/menu/in/SelectLeft"
      (fun NORMAL cmode => !(logicalAnd cmode NORMAL)),
    digital_action_data.mk0 l c "/actions/menu/in/SelectRight"
      (fun NORMAL cmode => !(logicalAnd cmode NORMAL)),
    digital_action_data.mk0 l c "/actions/menu/in/Exit"
      (fun NORMAL cmode => !(logicalAnd cmode NORMAL)),
    digital_action_data.mk0 l c "/actions/game/in/MoveLeft"
      (fun NORMAL cmode => logicalAnd cmode NORMAL),
    digital_action_data.mk0 l c "/actions/game/in/MoveRight"
      (fun NORMAL cmode => logicalAnd cmode NORMAL),
    digital_action_data.mk0 l c "/actions/game/in/Drop"
      (fun NORMAL cmode => logicalAnd cmode NORMAL),
    digital_action_data.mk0 l c "/actions/game/in/Skip turn"
      (fun NORMAL cmode => logicalAnd cmode NORMAL),
    digital_action_data.mk0 l c "/actions/game/in/EnterMenu"
      (fun NORMAL cmode => logicalAnd cmode NORMAL),
    digital_action_data.mk0 l c "/actions/general/in/SetReference"
      (fun _ _ => true) ]

/-- The vector `sads` (lines 481-485), each `when` as written there. -/
def sads : List set_data :=
  [ { set_name := "/actions/menu", prio := 20, when := fun NORMAL cmode => !(bitAnd cmode NORMAL) },
    { set_name := "/actions/game", prio := 20, when := fun NORMAL cmode => bitAnd cmode NORMAL },
    { set_name := "/actions/general", prio := 10, when := fun _ _ => true } ]

/-- The action set an action belongs to: the entry of `sads` whose name, followed by a slash,
starts the name of the action (the layout of the action manifest). -/
def setOf (dad : digital_action_data) : Option set_data :=
  sads.find? (fun sad => (sad.set_name ++ "/").toList.isPrefixOf dad.action_name.toList)

/-- What one call of `track_actions` does with the digital actions and the action sets: the
sets handed to `UpdateActionState` (name and priority), the table `dads` after the call, and
the callbacks `act(last, curr)` made, in order. -/
structure Tracked where
  sets : List (String × Int)
  dads : List digital_action_data
  acts : List (String × Bool × Bool)

/-- The first loop of `track_actions` (lines 522-529): the active action sets. -/
def activeSets (NORMAL cmode : Int) : List (String × Int) :=
  (sads.filter (fun sad => sad.when NORMAL cmode)).map (fun sad => (sad.set_name, sad.prio))

/-- One round of the loop over `dads` (lines 534-541); `bState` is the button state that
`GetDigitalActionData` reports for the action. -/
def pollDad (NORMAL cmode : Int) (bState : String → Bool) (dad : digital_action_data) :
    digital_action_data × List (String × Bool × Bool) :=
  if !(dad.when NORMAL cmode) then (dad, [])
  else
    let d1 := { dad with last := dad.curr }
    let d2 := { d1 with curr := bState d1.action_name }
    (d2, [(d2.action_name, d2.last, d2.curr)])

/-- The function `track_actions`, as far as the action sets and the digital actions go. -/
def track_actions (NORMAL cmode : Int) (bState : String → Bool)
    (ds : List digital_action_data) : Tracked :=
  let rs := ds.map (pollDad NORMAL cmode bState)
  { sets := activeSets NORMAL cmode,
    dads := rs.map Prod.fst,
    acts := (rs.map Prod.snd).flatten }

/-- The names of the digital actions that a call of `track_actions` polls. -/
def polled (NORMAL cmode : Int) (bState : String → Bool) (ds : List digital_action_data) :
    List String :=
  (track_actions NORMAL cmode bState ds).acts.map Prod.fst

/-- The value that `show_vr_settings` assigns to `cmode` (line 841), for the values of
`sm::SIDE` and `sm::MAYDARK`. -/
def settingsMode (SIDE MAYDARK : Int) : Int :=
  Int.lor SIDE MAYDARK

end vrhr
end hr

namespace rogueviz
namespace embed
/-! ## The attenuation -/

theorem cap5_le (x : ℚ) : cap5 x ≤ 5 := by
  unfold cap5
  split_ifs <;> linarith

theorem attLd_of_ne (h : Host) (base d : ℚ) (hs : h.sin_auto d ≠ 0) :
    attLd h base d = Ld.num (cap5 (base / h.sin_auto d)) := by
  simp [attLd, ldDiv, hs, capLd]

theorem attLd_of_zero (h : Host) (base d : ℚ) (hs : h.sin_auto d = 0) (hb : 0 < base) :
    attLd h base d = Ld.num 5 := by
  simp [attLd, ldDiv, hs, hb, capLd]

theorem attLd_nan (h : Host) (d : ℚ) (hs : h.sin_auto d = 0) : attLd h 0 d = Ld.nan := by
  simp [attLd, ldDiv, hs, capLd]

theorem att_of_ne (h : Host) (base d : ℚ) (hs : h.sin_auto d ≠ 0) :
    att h base d = cap5 (base / h.sin_auto d) := by
  rw [att, attLd_of_ne h base d hs]
  rfl

theorem att_of_zero (h : Host) (base d : ℚ) (hs : h.sin_auto d = 0) (hb : 0 < base) :
    att h base d = 5 := by
  rw [att, attLd_of_zero h base d hs hb]
  rfl

/-- With a positive base every attenuation is a number, whatever the spreading factor. -/
theorem attLd_of_pos (h : Host) (base d : ℚ) (hb : 0 < base) :
    attLd h base d = Ld.num (att h base d) := by
  by_cases hs : h.sin_auto d = 0
  · rw [attLd_of_zero h base d hs hb, att_of_zero h base d hs hb]
  · rw [attLd_of_ne h base d hs, att_of_ne h base d hs]

theorem att_le_five (h : Host) (base d : ℚ) : att h base d ≤ 5 := by
  by_cases hs : h.sin_auto d = 0
  · unfold att attLd ldDiv
    rw [if_pos hs]
    split_ifs <;> simp [capLd, Ld.toRat]
  · rw [att_of_ne h base d hs]
    exact cap5_le _

theorem lerpLd_num (x y a : ℚ) : lerpLd (Ld.num x) (Ld.num y) a = Ld.num (lerp x y a) := by
  simp only [lerpLd, Ld.neg, Ld.add, Ld.mulNum, lerp]
  congr 1
  ring

theorem lerpLd_nan_left (y : Ld) (a : ℚ) : lerpLd Ld.nan y a = Ld.nan := by
  cases y <;> rfl

theorem lerpLd_nan_right (x : Ld) (a : ℚ) : lerpLd x Ld.nan a = Ld.nan := by
  cases x <;> simp [lerpLd, Ld.neg, Ld.add, Ld.mulNum]

/-- When both attenuation endpoints are numbers, the gain is the number the mixer reads. -/
theorem gainLd_num (h : Host) (base : ℚ) (p : cellinfo) (ch : Nat) (a : ℚ) (x y : ℚ)
    (h0 : attLd h base (get2 p.lastdist ch) = Ld.num x)
    (h1 : attLd h base (get2 p.curdist ch) = Ld.num y) :
    gainLd h base p ch a = Ld.num (gain h base p ch a) ∧ gain h base p ch a = lerp x y a := by
  simp only [gainLd, gain, att, h0, h1, lerpLd_num, Ld.toRat, and_self]

theorem attBase_pos (a : ℚ) (dist s : Int) (ha : a < 1) : 0 < attBase a dist s := by
  unfold attBase
  exact zpow_pos (by linarith) _


/-! ## Loops -/

theorem forLoop_zero {σ : Type} (body : σ → Int → Option σ) (i : Int) (st : σ) :
    forLoop body 0 i st = some st := rfl

theorem forLoop_succ {σ : Type} (body : σ → Int → Option σ) (n : Nat) (i : Int) (st : σ) :
    forLoop body (n + 1) i st = (body st i).bind (fun st1 => forLoop body n (i + 1) st1) := by
  cases hb : body st i <;> simp [forLoop, hb]

/-- A relation that every iteration respects, and that is reflexive and transitive,
relates the state before a loop to the state after it. -/
theorem forLoop_rel {σ : Type} (body : σ → Int → Option σ) (R : σ → σ → Prop) (L H : Int)
    (hrefl : ∀ a, R a a) (htrans : ∀ a b c, R a b → R b c → R a c)
    (hbody : ∀ a i b, L ≤ i → i < H → body a i = some b → R a b) :
    ∀ (n : Nat) (i : Int) (a b : σ), L ≤ i → i + n ≤ H →
      forLoop body n i a = some b → R a b := by
  intro n
  induction n with
  | zero =>
    intro i a b _ _ hab
    simp [forLoop] at hab
    subst hab
    exact hrefl a
  | succ n ih =>
    intro i a b hL hH hab
    rw [forLoop_succ] at hab
    cases hb : body a i with
    | none => simp [hb] at hab
    | some c =>
      simp [hb] at hab
      exact htrans a c b (hbody a i c hL (by push_cast at hH; omega) hb)
        (ih (i + 1) c b (by omega) (by push_cast at hH; omega) hab)

/-- Total correctness of a loop from an invariant indexed by the loop counter. -/
theorem forLoop_inv {σ : Type} (body : σ → Int → Option σ) (P : Int → σ → Prop) :
    ∀ (n : Nat) (lo : Int) (a : σ),
      (∀ (x : σ) (i : Int), lo ≤ i → i < lo + n → P i x → ∃ y, body x i = some y ∧ P (i + 1) y) →
      P lo a → ∃ b, forLoop body n lo a = some b ∧ P (lo + n) b := by
  intro n
  induction n with
  | zero =>
    intro lo a _ h0
    exact ⟨a, rfl, by simpa using h0⟩
  | succ n ih =>
    intro lo a hstep h0
    obtain ⟨y, hy, hPy⟩ := hstep a lo (le_refl _) (by push_cast; omega) h0
    have hstep1 : ∀ (x : σ) (i : Int), lo + 1 ≤ i → i < lo + 1 + n → P i x →
        ∃ y, body x i = some y ∧ P (i + 1) y := by
      intro x i h1 h2 hP
      exact hstep x i (by omega) (by push_cast; omega) hP
    obtain ⟨b, hb, hPb⟩ := ih (lo + 1) y hstep1 hPy
    refine ⟨b, ?_, ?_⟩
    · rw [forLoop_succ, hy]; simpa using hb
    · have e : lo + ((n + 1 : Nat) : Int) = lo + 1 + n := by push_cast; ring
      rw [e]; exact hPb

/-! ## Vectors -/

theorem vget_of_lt {α : Type} (v : List α) (i : Int) (h0 : 0 ≤ i) (h1 : i.toNat < v.length) :
    vget v i = some (v.get ⟨i.toNat, h1⟩) := by
  unfold vget
  rw [if_neg (by omega)]
  simp [List.getElem?_eq_getElem h1]

theorem vget_isSome {α : Type} (v : List α) (i : Int) (h0 : 0 ≤ i) (h1 : i < v.length) :
    ∃ x, vget v i = some x ∧ v[i.toNat]? = some x := by
  have h2 : i.toNat < v.length := by omega
  exact ⟨v.get ⟨i.toNat, h2⟩, vget_of_lt v i h0 h2, by simp [List.getElem?_eq_getElem h2]⟩

theorem vget_of_getElem? {α : Type} (v : List α) (i : Int) (x : α) (h0 : 0 ≤ i)
    (h1 : v[i.toNat]? = some x) : vget v i = some x := by
  unfold vget
  rw [if_neg (by omega)]
  exact h1

theorem vset_of_lt {α : Type} (v : List α) (i : Int) (x : α) (h0 : 0 ≤ i) (h1 : i < v.length) :
    vset v i x = some (v.set i.toNat x) := by
  unfold vset
  rw [if_pos ⟨h0, by omega⟩]

theorem vset_length {α : Type} (v w : List α) (i : Int) (x : α) (h : vset v i x = some w) :
    w.length = v.length := by
  unfold vset at h
  split at h
  · simp at h; subst h; simp
  · simp at h

theorem resize_length {α : Type} (v w : List α) (n : Int) (x : α) (h : resize v n x = some w) :
    (w.length : Int) = n := by
  unfold resize at h
  split at h
  · simp at h
  · simp at h; subst h
    simp [List.length_take]
    omega

theorem resize_of_nonneg {α : Type} (v : List α) (n : Int) (x : α) (h : 0 ≤ n) :
    resize v n x = some (v.take n.toNat ++ List.replicate (n.toNat - v.length) x) := by
  unfold resize
  rw [if_neg (by omega)]

theorem resize_same {α : Type} (v : List α) (n : Int) (x : α) (h : (v.length : Int) = n) :
    resize v n x = some v := by
  have hn : n.toNat = v.length := by omega
  rw [resize_of_nonneg v n x (by omega), hn]
  simp

theorem updRange_length {α : Type} (f : Int → α → α) (lo hi : Int) (v : List α) :
    (updRange f lo hi v).length = v.length := by
  simp [updRange]

theorem updRange_getElem? {α : Type} (f : Int → α → α) (lo hi : Int) (v : List α) (j : Nat) :
    (updRange f lo hi v)[j]? =
      (v[j]?).map (fun x => if lo ≤ (j : Int) ∧ (j : Int) < hi then f j x else x) := by
  simp [updRange, List.getElem?_mapIdx]

theorem updRange_empty {α : Type} (f : Int → α → α) (lo hi : Int) (v : List α) (h : hi ≤ lo) :
    updRange f lo hi v = v := by
  apply List.ext_getElem?
  intro j
  rw [updRange_getElem?]
  have hno : ¬ (lo ≤ (j : Int) ∧ (j : Int) < hi) := by omega
  cases v[j]? <;> simp [hno]

/-- A loop whose body rewrites slot `i` of a vector from the old value of that slot
computes `updRange`. -/
theorem forLoop_updRange {α : Type} (body : List α → Int → Option (List α)) (f : Int → α → α)
    (L H : Int)
    (hbody : ∀ (v : List α) (i : Int) (x : α), L ≤ i → i < H → 0 ≤ i → v[i.toNat]? = some x →
      body v i = some (v.set i.toNat (f i x))) :
    ∀ (n : Nat) (lo : Int) (v : List α), L ≤ lo → lo + n ≤ H → 0 ≤ lo → lo + n ≤ v.length →
      forLoop body n lo v = some (updRange f lo (lo + n) v) := by
  intro n
  induction n with
  | zero =>
    intro lo v _ _ _ _
    rw [forLoop_zero, updRange_empty f lo _ v (by simp)]
  | succ n ih =>
    intro lo v hL hH h0 h1
    have hlt : lo.toNat < v.length := by push_cast at h1; omega
    have hx : v[lo.toNat]? = some (v.get ⟨lo.toNat, hlt⟩) := by
      simp [List.getElem?_eq_getElem hlt]
    rw [forLoop_succ, hbody v lo _ hL (by push_cast at hH; omega) h0 hx]
    simp only [Option.some_bind]
    rw [ih (lo + 1) _ (by omega) (by push_cast at hH ⊢; omega) (by omega)
      (by simp only [List.length_set]; push_cast at h1 ⊢; omega)]
    congr 1
    apply List.ext_getElem?
    intro j
    rw [updRange_getElem?, updRange_getElem?, List.getElem?_set]
    by_cases hj : lo.toNat = j
    · subst hj
      have e : ((lo.toNat : Nat) : Int) = lo := Int.toNat_of_nonneg h0
      simp only [if_pos, hlt, hx, Option.map_some', e]
      rw [if_neg (by omega), if_pos (by push_cast; omega)]
    · simp only [if_neg hj]
      cases hv : v[j]? with
      | none => simp
      | some y =>
        simp only [Option.map_some']
        have hne : (j : Int) ≠ lo := by
          intro hh; apply hj; omega
        by_cases hc : lo + 1 ≤ (j : Int) ∧ (j : Int) < lo + 1 + n
        · rw [if_pos hc, if_pos (by push_cast; omega)]
        · rw [if_neg hc, if_neg (by push_cast; omega)]

/-! ## The mixing loops -/

theorem neg_lt_tmod (a b : Int) (hb : 0 < b) : -b < a.tmod b := by
  obtain ⟨k, rfl⟩ := Int.eq_ofNat_of_zero_le hb.le
  cases a with
  | ofNat m =>
    have h0 : 0 ≤ Int.tmod (Int.ofNat m) (k : Int) := Int.tmod_nonneg (k : Int) (Int.ofNat_nonneg m)
    omega
  | negSucc m =>
    have e : Int.tmod (Int.negSucc m) (k : Int) = -((m.succ % k : Nat) : Int) := rfl
    rw [e]
    have hk : 0 < k := by omega
    have := Nat.mod_lt m.succ hk
    omega

/-- For a track that is not empty the read index is defined and inside the track. -/
theorem readIndex_bounds (orig : List sample) (sp : ℚ) (i : Int) (d : ℚ) (horig : orig ≠ []) :
    ∃ tim, readIndex orig sp i d = some tim ∧ 0 ≤ tim ∧ tim < orig.length := by
  have hlen : 0 < orig.length := List.length_pos.mpr horig
  have hne : ¬ ((orig.length : Int) = 0) := by omega
  have hpos : (0 : Int) < orig.length := by omega
  simp only [readIndex, if_neg hne]
  refine ⟨_, rfl, ?_, ?_⟩
  · split
    · have := neg_lt_tmod (truncToInt ((i : ℚ) - d * (freq : ℚ) * sp)) _ hpos
      omega
    · omega
  · split
    · omega
    · exact Int.tmod_lt_of_pos _ hpos

theorem getElem?_lt {α : Type} (v : List α) (j : Nat) (x : α) (h : v[j]? = some x) :
    j < v.length := by
  by_contra hc
  rw [List.getElem?_eq_none (by omega)] at h
  simp at h

/-- One iteration of the sample loop adds `mixTerm` to channel `ch` of slot `i`. -/
theorem mixSample_eq (h : Host) (st : State) (p : cellinfo) (s : Int) (base : ℚ) (ch : Nat)
    (horig : st.orig ≠ []) (buf : List (ℚ × ℚ)) (i : Int) (v : ℚ × ℚ) (h0 : 0 ≤ i)
    (hv : buf[i.toNat]? = some v) :
    mixSample h st p s base ch buf i =
      some (buf.set i.toNat (set2 v ch (get2 v ch + mixTerm h st p s base ch i))) := by
  obtain ⟨tim, htim, ht0, ht1⟩ := readIndex_bounds st.orig st.speed_of_sound i
    (delayDist h p s ch (ilerp (st.prevt : ℚ) (st.curt : ℚ) (i : ℚ))) horig
  obtain ⟨o, ho, _⟩ := vget_isSome st.orig tim ht0 ht1
  have hlt := getElem?_lt buf i.toNat v hv
  have hb := vget_of_getElem? buf i v h0 hv
  simp only [mixSample, mixTerm, htim, ho, hb]
  exact vset_of_lt buf i _ h0 (by omega)

theorem updRange_comp {α : Type} (f g : Int → α → α) (lo hi : Int) (v : List α) :
    updRange g lo hi (updRange f lo hi v) = updRange (fun j x => g j (f j x)) lo hi v := by
  apply List.ext_getElem?
  intro j
  simp only [updRange_getElem?]
  cases v[j]? with
  | none => simp
  | some x =>
    by_cases hc : lo ≤ (j : Int) ∧ (j : Int) < hi <;> simp [hc]

/-- The two channel loops of one image add `mixTerm` to both channels of every slot of
the range `[prevt, curt)`. -/
theorem mixChannels_eq (h : Host) (st : State) (p : cellinfo) (s : Int) (base : ℚ)
    (horig : st.orig ≠ []) (buf : List (ℚ × ℚ)) (h0 : 0 ≤ st.prevt)
    (h1 : st.curt ≤ buf.length) (h2 : st.prevt ≤ st.curt) :
    mixChannels h st p s base buf =
      some (updRange (addImage h st p s base) st.prevt st.curt buf) := by
  have e : st.prevt + ((st.curt - st.prevt).toNat : Int) = st.curt := by omega
  have r0 := forLoop_updRange (mixSample h st p s base 0)
    (fun i v => set2 v 0 (get2 v 0 + mixTerm h st p s base 0 i)) st.prevt st.curt
    (fun v i x _ _ hi hx => mixSample_eq h st p s base 0 horig v i x hi hx)
    (st.curt - st.prevt).toNat st.prevt buf (le_refl _) (by omega) h0 (by omega)
  have r1 := forLoop_updRange (mixSample h st p s base 1)
    (fun i v => set2 v 1 (get2 v 1 + mixTerm h st p s base 1 i)) st.prevt st.curt
    (fun v i x _ _ hi hx => mixSample_eq h st p s base 1 horig v i x hi hx)
    (st.curt - st.prevt).toNat st.prevt
    (updRange (fun i v => set2 v 0 (get2 v 0 + mixTerm h st p s base 0 i)) st.prevt
      (st.prevt + ((st.curt - st.prevt).toNat : Int)) buf) (le_refl _) (by omega) h0
    (by rw [updRange_length]; omega)
  unfold mixChannels
  rw [r0]
  simp only
  rw [r1, e, updRange_comp]
  rfl

/-- With an empty range `[prevt, curt)` the channel loops do nothing. -/
theorem mixChannels_empty (h : Host) (st : State) (p : cellinfo) (s : Int) (base : ℚ)
    (buf : List (ℚ × ℚ)) (h2 : st.curt ≤ st.prevt) :
    mixChannels h st p s base buf = some buf := by
  have e : (st.curt - st.prevt).toNat = 0 := by omega
  simp [mixChannels, e, forLoop]

theorem SameOutside.refl {α : Type} (lo hi : Int) (v : List α) : SameOutside lo hi v v :=
  ⟨rfl, fun _ _ => rfl⟩

theorem SameOutside.trans {α : Type} (lo hi : Int) (u v w : List α)
    (h1 : SameOutside lo hi u v) (h2 : SameOutside lo hi v w) : SameOutside lo hi u w :=
  ⟨h2.1.trans h1.1, fun j hj => (h2.2 j hj).trans (h1.2 j hj)⟩

theorem SameOutside_updRange {α : Type} (f : Int → α → α) (lo hi : Int) (v : List α) :
    SameOutside lo hi v (updRange f lo hi v) := by
  refine ⟨updRange_length f lo hi v, ?_⟩
  intro j hj
  rw [updRange_getElem?]
  have hno : ¬ (lo ≤ (j : Int) ∧ (j : Int) < hi) := by omega
  cases v[j]? <;> simp [hno]

theorem mixChannels_ok (h : Host) (st : State) (p : cellinfo) (s : Int) (base : ℚ)
    (buf : List (ℚ × ℚ)) (hr : MixReady st buf.length) :
    ∃ buf1, mixChannels h st p s base buf = some buf1 ∧ SameOutside st.prevt st.curt buf buf1 := by
  rcases le_or_lt st.curt st.prevt with hle | hlt
  · exact ⟨buf, mixChannels_empty h st p s base buf hle, SameOutside.refl _ _ _⟩
  · rcases hr with hr | ⟨ho, h0, h1⟩
    · omega
    · exact ⟨_, mixChannels_eq h st p s base ho buf h0 h1 hlt.le, SameOutside_updRange _ _ _ _⟩

theorem mixImage_ok (h : Host) (st : State) (dist : Int) (p : cellinfo) (buf : List (ℚ × ℚ))
    (s : Int) (hr : MixReady st buf.length) :
    ∃ buf1, mixImage h st dist (p, buf) s =
        some ({ p with lastframe := p.curframe, lastdist := p.curdist }, buf1) ∧
      SameOutside st.prevt st.curt buf buf1 := by
  obtain ⟨buf1, e, hs⟩ := mixChannels_ok h st p s (attBase st.absorption dist s) buf hr
  exact ⟨buf1, by simp [mixImage, e], hs⟩

theorem mixImages_ok (h : Host) (st : State) (dist : Int) (n : Nat) (p : cellinfo)
    (buf : List (ℚ × ℚ)) (hr : MixReady st buf.length) :
    ∃ pb, forLoop (mixImage h st dist) n 0 (p, buf) = some pb ∧
      SameOutside st.prevt st.curt buf pb.2 := by
  obtain ⟨pb, e, hP⟩ := forLoop_inv (mixImage h st dist)
    (fun _ pb => SameOutside st.prevt st.curt buf pb.2) n 0 (p, buf)
    (by
      intro x i _ _ hx
      have hr1 : MixReady st x.2.length := by rw [hx.1]; exact hr
      obtain ⟨b1, e1, hs1⟩ := mixImage_ok h st dist x.1 x.2 i hr1
      exact ⟨_, e1, SameOutside.trans _ _ _ _ _ hx hs1⟩)
    (SameOutside.refl _ _ _)
  exact ⟨pb, e, hP⟩

theorem mixCell_ok (h : Host) (st : State) (c : Nat) (p : cellinfo) (buf : List (ℚ × ℚ))
    (hr : MixReady st buf.length) :
    ∃ pb, mixCell h st c p buf = some pb ∧ SameOutside st.prevt st.curt buf pb.2 := by
  unfold mixCell
  by_cases hf : p.curframe ≠ st.frameid
  · rw [if_pos hf]
    exact ⟨_, rfl, SameOutside.refl _ _ _⟩
  · rw [if_neg hf]
    simp only
    by_cases hd : h.celldistance c > (if h.sphere then 3 else 2) ∧ h.inHighQual = false
    · rw [if_pos hd]
      exact ⟨_, rfl, SameOutside.refl _ _ _⟩
    · rw [if_neg hd]
      exact mixImages_ok h st _ _ _ buf hr

/-- The loop over the cells is defined, keeps the length of the buffer and writes only
inside `[prevt, curt)`. -/
theorem mixCells_ok (h : Host) (st : State) (infos : List (Nat × cellinfo)) :
    ∀ (buf : List (ℚ × ℚ)), MixReady st buf.length →
      ∃ r, mixCells h st infos buf = some r ∧ SameOutside st.prevt st.curt buf r.2 := by
  induction infos with
  | nil =>
    intro buf _
    exact ⟨_, rfl, SameOutside.refl _ _ _⟩
  | cons cp rest ih =>
    intro buf hr
    obtain ⟨c, p⟩ := cp
    obtain ⟨pb, e1, hs1⟩ := mixCell_ok h st c p buf hr
    obtain ⟨p1, b1⟩ := pb
    have hr1 : MixReady st b1.length := by
      have := hs1.1
      simp only at this
      rw [this]; exact hr
    obtain ⟨r, e2, hs2⟩ := ih b1 hr1
    obtain ⟨rest1, b2⟩ := r
    refine ⟨((c, p1) :: rest1, b2), ?_, SameOutside.trans _ _ _ _ _ hs1 hs2⟩
    simp [mixCells, e1, e2]

/-! ### The same facts for whatever the loops return -/

theorem vset_sameOutside {α : Type} (lo hi : Int) (v w : List α) (i : Int) (x : α)
    (h1 : lo ≤ i) (h2 : i < hi) (h : vset v i x = some w) : SameOutside lo hi v w := by
  unfold vset at h
  split at h
  · rename_i hc
    simp at h; subst h
    refine ⟨by simp, ?_⟩
    intro j hj
    rw [List.getElem?_set, if_neg (by omega)]
  · simp at h

theorem mixSample_sameOutside (h : Host) (st : State) (p : cellinfo) (s : Int) (base : ℚ)
    (ch : Nat) (lo hi : Int) (buf buf1 : List (ℚ × ℚ)) (i : Int) (h1 : lo ≤ i) (h2 : i < hi)
    (hrun : mixSample h st p s base ch buf i = some buf1) : SameOutside lo hi buf buf1 := by
  unfold mixSample at hrun
  simp only at hrun
  split at hrun
  · simp at hrun
  · split at hrun
    · exact vset_sameOutside lo hi _ _ i _ h1 h2 hrun
    · simp at hrun

theorem mixSamples_sameOutside (h : Host) (st : State) (p : cellinfo) (s : Int) (base : ℚ)
    (ch : Nat) (buf buf1 : List (ℚ × ℚ))
    (hrun : forLoop (mixSample h st p s base ch) (st.curt - st.prevt).toNat st.prevt buf
      = some buf1) : SameOutside st.prevt st.curt buf buf1 := by
  rcases le_or_lt st.curt st.prevt with hle | hlt
  · have e : (st.curt - st.prevt).toNat = 0 := by omega
    rw [e, forLoop_zero] at hrun
    cases hrun
    exact SameOutside.refl _ _ _
  · exact forLoop_rel (mixSample h st p s base ch) (SameOutside st.prevt st.curt)
      st.prevt st.curt (SameOutside.refl _ _) (SameOutside.trans _ _)
      (fun a i b h1 h2 hb => mixSample_sameOutside h st p s base ch _ _ a b i h1 h2 hb)
      _ st.prevt buf buf1 (le_refl _) (by omega) hrun

theorem mixChannels_sameOutside (h : Host) (st : State) (p : cellinfo) (s : Int) (base : ℚ)
    (buf buf1 : List (ℚ × ℚ)) (hrun : mixChannels h st p s base buf = some buf1) :
    SameOutside st.prevt st.curt buf buf1 := by
  unfold mixChannels at hrun
  split at hrun
  · simp at hrun
  · rename_i b0 e0
    exact SameOutside.trans _ _ _ _ _ (mixSamples_sameOutside h st p s base 0 buf b0 e0)
      (mixSamples_sameOutside h st p s base 1 b0 buf1 hrun)

theorem mixImage_sameOutside (h : Host) (st : State) (dist : Int)
    (pb pb1 : cellinfo × List (ℚ × ℚ)) (s : Int) (hrun : mixImage h st dist pb s = some pb1) :
    SameOutside st.prevt st.curt pb.2 pb1.2 := by
  unfold mixImage at hrun
  split at hrun
  · simp at hrun
  · rename_i b0 e0
    simp at hrun; subst hrun
    exact mixChannels_sameOutside h st _ s _ _ b0 e0

theorem mixCell_sameOutside (h : Host) (st : State) (c : Nat) (p : cellinfo)
    (buf : List (ℚ × ℚ)) (pb : cellinfo × List (ℚ × ℚ))
    (hrun : mixCell h st c p buf = some pb) : SameOutside st.prevt st.curt buf pb.2 := by
  unfold mixCell at hrun
  by_cases hf : p.curframe ≠ st.frameid
  · rw [if_pos hf] at hrun
    simp at hrun; subst hrun
    exact SameOutside.refl _ _ _
  · rw [if_neg hf] at hrun
    simp only at hrun
    by_cases hd : h.celldistance c > (if h.sphere then 3 else 2) ∧ h.inHighQual = false
    · rw [if_pos hd] at hrun
      simp at hrun; subst hrun
      exact SameOutside.refl _ _ _
    · rw [if_neg hd] at hrun
      exact forLoop_rel (mixImage h st (h.celldistance c))
        (fun a b => SameOutside st.prevt st.curt a.2 b.2) 0
        (((if h.sphere then 10 else 1 : Nat) : Int))
        (fun _ => SameOutside.refl _ _ _) (fun _ _ _ => SameOutside.trans _ _ _ _ _)
        (fun a i b _ _ hb => mixImage_sameOutside h st _ a b i hb)
        _ 0 (gapReset p, buf) pb (le_refl _) (by simp) hrun

/-- Whatever the loop over the cells returns has the length of the buffer it was given and
differs from it only inside `[prevt, curt)`. -/
theorem mixCells_sameOutside (h : Host) (st : State) (infos : List (Nat × cellinfo)) :
    ∀ (buf : List (ℚ × ℚ)) (r : List (Nat × cellinfo) × List (ℚ × ℚ)),
      mixCells h st infos buf = some r → SameOutside st.prevt st.curt buf r.2 := by
  induction infos with
  | nil =>
    intro buf r hrun
    simp [mixCells] at hrun; subst hrun
    exact SameOutside.refl _ _ _
  | cons cp rest ih =>
    intro buf r hrun
    obtain ⟨c, p⟩ := cp
    simp only [mixCells] at hrun
    split at hrun
    · simp at hrun
    · rename_i p1 b1 e1
      split at hrun
      · simp at hrun
      · rename_i rest1 b2 e2
        simp at hrun; subst hrun
        exact SameOutside.trans _ _ _ _ _ (mixCell_sameOutside h st c p buf _ e1) (ih b1 (rest1, b2) e2)

/-! ## The volume loop and the playback loop -/

theorem maxStep_le (buf : List (ℚ × ℚ)) (m m1 : ℚ) (i : Int) (hrun : maxStep buf m i = some m1) :
    m ≤ m1 := by
  unfold maxStep at hrun
  split at hrun
  · simp at hrun
  · rename_i v _
    simp only [List.foldl, Option.some.injEq] at hrun
    subst hrun
    split_ifs <;> linarith

theorem maxLoop_le (buf : List (ℚ × ℚ)) (n : Nat) (lo : Int) (m m1 : ℚ)
    (hrun : forLoop (maxStep buf) n lo m = some m1) : m ≤ m1 :=
  forLoop_rel (maxStep buf) (fun a b => a ≤ b) lo (lo + n) (fun a => le_refl a)
    (fun _ _ _ hab hbc => le_trans hab hbc) (fun a i b _ _ hb => maxStep_le buf a b i hb)
    n lo m m1 (le_refl _) (le_refl _) hrun

theorem maxLoop_ok (buf : List (ℚ × ℚ)) (n : Nat) (lo : Int) (m : ℚ)
    (h : n = 0 ∨ (0 ≤ lo ∧ lo + n ≤ buf.length)) :
    ∃ m1, forLoop (maxStep buf) n lo m = some m1 := by
  rcases h with h | ⟨h0, h1⟩
  · subst h; exact ⟨m, rfl⟩
  · obtain ⟨b, hb, _⟩ := forLoop_inv (maxStep buf) (fun _ _ => True) n lo m
      (by
        intro x i hi1 hi2 _
        obtain ⟨v, hv, _⟩ := vget_isSome buf i (by omega) (by omega)
        refine ⟨[0, 1].foldl (fun m ch => if get2 v ch > m then get2 v ch else m) x, ?_, trivial⟩
        simp only [maxStep, hv])
      trivial
    exact ⟨b, hb⟩

theorem playStep_sameOutside (buf : List (ℚ × ℚ)) (maxsnd : ℚ) (lo hi : Int)
    (tp tp1 : List sample) (i : Int) (h1 : lo ≤ i) (h2 : i < hi)
    (hrun : playStep buf maxsnd tp i = some tp1) : SameOutside lo hi tp tp1 := by
  unfold playStep at hrun
  split at hrun
  · exact vset_sameOutside lo hi _ _ i _ h1 h2 hrun
  · simp at hrun

theorem playLoop_sameOutside (buf : List (ℚ × ℚ)) (maxsnd : ℚ) (n : Nat) (lo : Int)
    (tp tp1 : List sample) (hrun : forLoop (playStep buf maxsnd) n lo tp = some tp1) :
    SameOutside lo (lo + n) tp tp1 :=
  forLoop_rel (playStep buf maxsnd) (SameOutside lo (lo + n)) lo (lo + n)
    (SameOutside.refl _ _) (SameOutside.trans _ _)
    (fun a i b h1 h2 hb => playStep_sameOutside buf maxsnd _ _ a b i h1 h2 hb)
    n lo tp tp1 (le_refl _) (le_refl _) hrun

theorem playLoop_ok (buf : List (ℚ × ℚ)) (maxsnd : ℚ) (n : Nat) (lo : Int) (tp : List sample)
    (h : n = 0 ∨ (0 ≤ lo ∧ lo + n ≤ buf.length ∧ lo + n ≤ tp.length)) :
    ∃ tp1, forLoop (playStep buf maxsnd) n lo tp = some tp1 := by
  rcases h with h | ⟨h0, h1, h2⟩
  · subst h; exact ⟨tp, rfl⟩
  · obtain ⟨b, hb, _⟩ := forLoop_inv (playStep buf maxsnd) (fun _ t => t.length = tp.length)
      n lo tp
      (by
        intro x i hi1 hi2 hx
        obtain ⟨v, hv, _⟩ := vget_isSome buf i (by omega) (by omega)
        obtain ⟨t, ht, _⟩ := vget_isSome x i (by omega) (by omega)
        have hs := vset_of_lt x i
          ([0, 1].foldl (fun t ch => t.set ch (truncToInt (pcm (get2 v ch) maxsnd))) t)
          (by omega) (by omega)
        exact ⟨_, by simp only [playStep, hv, ht]; exact hs, by simp [hx]⟩)
      rfl
    exact ⟨b, hb⟩

/-! ## The shape of `reverb_queue` -/

theorem nextPrevt_le (h : Host) (st : State) : nextPrevt h st ≤ nextCurt h := by
  unfold nextPrevt
  split <;> omega

theorem nextPrevt_le_curt (h : Host) (st : State) : nextPrevt h st ≤ st.curt := by
  unfold nextPrevt
  split <;> omega

/-- A frame with a gap of more than one second of samples only updates `prevt` and `curt`. -/
theorem reverb_queue_of_gap (h : Host) (st : State)
    (hgap : nextCurt h - nextPrevt h st > freq) : reverb_queue h st = some (tick h st) := by
  unfold reverb_queue
  simp only
  rw [if_pos (by simpa [tick] using hgap)]

/-- The steps of a frame that is not skipped. -/
theorem reverb_queue_steps (h : Host) (st st1 : State)
    (hgap : ¬ (nextCurt h - nextPrevt h st > freq)) (hrun : reverb_queue h st = some st1) :
    ∃ buf0 infos buf maxsnd tp0 tp,
      resize st.sndbuffer (nextCurt h) (0, 0) = some buf0 ∧
      mixCells h (tick h st) st.infos buf0 = some (infos, buf) ∧
      forLoop (maxStep buf) (nextCurt h - nextPrevt h st).toNat (nextPrevt h st) st.maxsnd
        = some maxsnd ∧
      resize st.to_play (nextCurt h) ⟨0, 0⟩ = some tp0 ∧
      forLoop (playStep buf maxsnd) (nextCurt h - nextPrevt h st).toNat (nextPrevt h st) tp0
        = some tp ∧
      st1 = { tick h st with sndbuffer := buf, infos := infos, maxsnd := maxsnd,
                             frameid := st.frameid + 1, to_play := tp } := by
  unfold reverb_queue at hrun
  simp only at hrun
  rw [if_neg (by simpa [tick] using hgap)] at hrun
  split at hrun
  · simp at hrun
  · rename_i buf0 e0
    split at hrun
    · simp at hrun
    · rename_i infos buf e1
      split at hrun
      · simp at hrun
      · rename_i maxsnd e2
        split at hrun
        · simp at hrun
        · rename_i tp0 e3
          split at hrun
          · simp at hrun
          · rename_i tp e4
            simp only [Option.some.injEq] at hrun
            exact ⟨buf0, infos, buf, maxsnd, tp0, tp, e0, e1, e2, e3, e4, hrun.symm⟩

/-- The result of a frame that is not skipped, from the results of its steps. -/
theorem reverb_queue_of_steps (h : Host) (st : State)
    (hgap : ¬ (nextCurt h - nextPrevt h st > freq))
    (buf0 : List (ℚ × ℚ)) (infos : List (Nat × cellinfo)) (buf : List (ℚ × ℚ)) (maxsnd : ℚ)
    (tp0 tp : List sample)
    (e0 : resize st.sndbuffer (nextCurt h) (0, 0) = some buf0)
    (e1 : mixCells h (tick h st) st.infos buf0 = some (infos, buf))
    (e2 : forLoop (maxStep buf) (nextCurt h - nextPrevt h st).toNat (nextPrevt h st) st.maxsnd
        = some maxsnd)
    (e3 : resize st.to_play (nextCurt h) ⟨0, 0⟩ = some tp0)
    (e4 : forLoop (playStep buf maxsnd) (nextCurt h - nextPrevt h st).toNat (nextPrevt h st) tp0
        = some tp) :
    reverb_queue h st =
      some { tick h st with sndbuffer := buf, infos := infos, maxsnd := maxsnd,
                            frameid := st.frameid + 1, to_play := tp } := by
  unfold reverb_queue
  simp only
  rw [if_neg (by simpa [tick] using hgap)]
  simp only [tick] at e1 ⊢
  rw [e0]
  simp only
  rw [e1]
  simp only
  rw [e2]
  simp only
  rw [e3]
  simp only
  rw [e4]

/-- A frame that is not skipped returns when the new `curt` is not negative, the old one is not
negative either or no time has passed, and the track is loaded or no cell is tracked. -/
theorem reverb_queue_ok (h : Host) (st : State)
    (hgap : ¬ (nextCurt h - nextPrevt h st > freq)) (hc : 0 ≤ nextCurt h)
    (hp : 0 ≤ st.curt ∨ nextCurt h ≤ st.curt) (ho : st.orig ≠ [] ∨ st.infos = []) :
    ∃ st1, reverb_queue h st = some st1 := by
  have hp0 : 0 ≤ nextPrevt h st := by
    unfold nextPrevt; split <;> omega
  have hple := nextPrevt_le h st
  obtain ⟨buf0, e0⟩ : ∃ b, resize st.sndbuffer (nextCurt h) ((0 : ℚ), (0 : ℚ)) = some b :=
    ⟨_, resize_of_nonneg _ _ _ hc⟩
  have l0 := resize_length _ _ _ _ e0
  have hmix : ∃ r, mixCells h (tick h st) st.infos buf0 = some r ∧
      SameOutside (nextPrevt h st) (nextCurt h) buf0 r.2 := by
    rcases ho with ho | ho
    · exact mixCells_ok h (tick h st) st.infos _ (Or.inr ⟨ho, hp0, by simp only [tick]; omega⟩)
    · rw [ho]; exact ⟨_, rfl, SameOutside.refl _ _ _⟩
  obtain ⟨⟨infos, buf⟩, e1, hs1⟩ := hmix
  have lb : (buf.length : Int) = nextCurt h := by
    have := hs1.1
    simp only at this
    rw [this]; exact l0
  obtain ⟨maxsnd, e2⟩ := maxLoop_ok buf (nextCurt h - nextPrevt h st).toNat (nextPrevt h st)
    st.maxsnd (Or.inr ⟨hp0, by omega⟩)
  obtain ⟨tp0, e3⟩ : ∃ b, resize st.to_play (nextCurt h) (⟨0, 0⟩ : sample) = some b :=
    ⟨_, resize_of_nonneg _ _ _ hc⟩
  have l3 := resize_length _ _ _ _ e3
  obtain ⟨tp, e4⟩ := playLoop_ok buf maxsnd (nextCurt h - nextPrevt h st).toNat (nextPrevt h st)
    tp0 (Or.inr ⟨hp0, by omega, by omega⟩)
  exact ⟨_, reverb_queue_of_steps h st hgap buf0 infos buf maxsnd tp0 tp e0 e1 e2 e3 e4⟩

/-- What a frame that is not skipped leaves behind: both buffers have length `curt`, and the
frame counter has advanced. -/
theorem reverb_queue_shape (h : Host) (st st1 : State)
    (hgap : ¬ (nextCurt h - nextPrevt h st > freq)) (hrun : reverb_queue h st = some st1) :
    (st1.sndbuffer.length : Int) = nextCurt h ∧ (st1.to_play.length : Int) = nextCurt h ∧
      st1.frameid = st.frameid + 1 ∧ st1.prevt = nextPrevt h st ∧ st1.curt = nextCurt h := by
  obtain ⟨buf0, infos, buf, maxsnd, tp0, tp, e0, e1, _, e3, e4, rfl⟩ :=
    reverb_queue_steps h st st1 hgap hrun
  have l0 := resize_length _ _ _ _ e0
  have l3 := resize_length _ _ _ _ e3
  have s1 := (mixCells_sameOutside h (tick h st) st.infos buf0 _ e1).1
  have s4 := (playLoop_sameOutside buf maxsnd _ _ tp0 tp e4).1
  simp only at s1
  refine ⟨?_, ?_, rfl, rfl, rfl⟩
  · show (buf.length : Int) = nextCurt h
    rw [s1]; exact l0
  · show (tp.length : Int) = nextCurt h
    rw [s4]; exact l3

theorem SameOutside_empty {α : Type} (lo hi : Int) (v w : List α) (h : hi ≤ lo)
    (hs : SameOutside lo hi v w) : w = v := by
  apply List.ext_getElem?
  intro j
  exact hs.2 j (by omega)

/-- When no time has passed the frame is defined, whatever the tracked cells, and the mixing
and volume loops change nothing. -/
theorem reverb_queue_no_elapsed_steps (h : Host) (st : State) (hsame : nextCurt h = st.curt)
    (hc : 0 ≤ st.curt) :
    ∃ infos buf0 tp0, resize st.sndbuffer st.curt (0, 0) = some buf0 ∧
      resize st.to_play st.curt ⟨0, 0⟩ = some tp0 ∧
      reverb_queue h st =
        some { tick h st with sndbuffer := buf0, infos := infos, maxsnd := st.maxsnd,
                              frameid := st.frameid + 1, to_play := tp0 } := by
  have hp : nextPrevt h st = st.curt := by
    unfold nextPrevt
    rw [if_neg (by omega)]
  have hn : ¬ (nextCurt h - nextPrevt h st > freq) := by
    have hf : freq = 44100 := rfl
    omega
  have hz : (nextCurt h - nextPrevt h st).toNat = 0 := by omega
  obtain ⟨buf0, e0⟩ : ∃ b, resize st.sndbuffer (nextCurt h) ((0 : ℚ), (0 : ℚ)) = some b :=
    ⟨_, resize_of_nonneg _ _ _ (by omega)⟩
  obtain ⟨tp0, e3⟩ : ∃ b, resize st.to_play (nextCurt h) (⟨0, 0⟩ : sample) = some b :=
    ⟨_, resize_of_nonneg _ _ _ (by omega)⟩
  obtain ⟨⟨infos, buf⟩, e1, hs1⟩ := mixCells_ok h (tick h st) st.infos buf0
    (Or.inl (by simp only [tick]; omega))
  have eb : buf = buf0 := SameOutside_empty _ _ _ _ (by simp only [tick]; omega) hs1
  subst eb
  have e2 : forLoop (maxStep buf) (nextCurt h - nextPrevt h st).toNat (nextPrevt h st) st.maxsnd
      = some st.maxsnd := by rw [hz]; rfl
  have e4 : forLoop (playStep buf st.maxsnd) (nextCurt h - nextPrevt h st).toNat
      (nextPrevt h st) tp0 = some tp0 := by rw [hz]; rfl
  refine ⟨infos, buf, tp0, by rw [← hsame]; exact e0, by rw [← hsame]; exact e3, ?_⟩
  exact reverb_queue_of_steps h st hn buf infos buf st.maxsnd tp0 tp0 e0 e1 e2 e3 e4

/-- The slots of a resized vector: the old ones below the new size, then the fill value. -/
theorem resize_getElem? {α : Type} (v w : List α) (n : Int) (x : α)
    (h : resize v n x = some w) (j : Nat) :
    w[j]? = if (j : Int) < n then (if j < v.length then v[j]? else some x) else none := by
  unfold resize at h
  split at h
  · simp at h
  · rename_i hn
    simp at h; subst h
    rw [List.getElem?_append, List.length_take]
    by_cases hj : (j : Int) < n
    · rw [if_pos hj]
      have hj2 : j < n.toNat := by omega
      by_cases hv : j < v.length
      · rw [if_pos (by omega), if_pos hv, List.getElem?_take, if_pos hj2]
      · rw [if_neg (by omega), if_neg hv, List.getElem?_replicate, if_pos (by omega)]
    · rw [if_neg hj, if_neg (by omega), List.getElem?_replicate, if_neg (by omega)]

/-! ## One cell, exactly -/

theorem mixImage_eq (h : Host) (st : State) (dist : Int) (p : cellinfo) (s : Int)
    (buf : List (ℚ × ℚ)) (horig : st.orig ≠ []) (h0 : 0 ≤ st.prevt)
    (h1 : st.curt ≤ buf.length) (h2 : st.prevt ≤ st.curt) :
    mixImage h st dist (p, buf) s =
      some (settled p,
        updRange (addImage h st p s (attBase st.absorption dist s)) st.prevt st.curt buf) := by
  simp only [mixImage, mixChannels_eq h st p s _ horig buf h0 h1 h2, settled]

/-- The term that an image adds reads only the two recorded distances of the cell. -/
theorem mixTerm_congr (h : Host) (st : State) (p q : cellinfo) (s : Int) (base : ℚ) (ch : Nat)
    (i : Int) (hl : p.lastdist = q.lastdist) (hc : p.curdist = q.curdist) :
    mixTerm h st p s base ch i = mixTerm h st q s base ch i := by
  simp only [mixTerm, delayDist, gain, hl, hc]

theorem imageSum_succ (h : Host) (st : State) (p : cellinfo) (dist : Int) (ch : Nat) (i : Int)
    (s0 : Int) (n : Nat) :
    imageSum h st p dist ch i s0 (n + 1) =
      mixTerm h st p s0 (attBase st.absorption dist s0) ch i +
        imageSum h st p dist ch i (s0 + 1) n := by
  simp only [imageSum, List.range_succ_eq_map, List.map_cons, List.sum_cons, List.map_map]
  congr 2
  · simp
  · simp
  · apply List.map_congr_left
    intro k _
    simp only [Function.comp, Nat.succ_eq_add_one]
    have e : s0 + ((k + 1 : Nat) : Int) = s0 + 1 + k := by push_cast; ring
    rw [e]

/-- The loop over the images for a cell whose `lastdist` equals its `curdist`: every slot of
`[prevt, curt)` gets the sum of the terms of the images added, channel by channel. -/
theorem mixImages_still (h : Host) (st : State) (dist : Int) (horig : st.orig ≠ [])
    (h0 : 0 ≤ st.prevt) (h2 : st.prevt ≤ st.curt) :
    ∀ (n : Nat) (s0 : Int) (p : cellinfo) (buf : List (ℚ × ℚ)), p.lastdist = p.curdist →
      st.curt ≤ buf.length →
      ∃ p1, forLoop (mixImage h st dist) n s0 (p, buf) =
        some (p1, updRange (fun i v => (v.1 + imageSum h st p dist 0 i s0 n,
                                        v.2 + imageSum h st p dist 1 i s0 n))
                    st.prevt st.curt buf) := by
  intro n
  induction n with
  | zero =>
    intro s0 p buf _ _
    refine ⟨p, ?_⟩
    rw [forLoop_zero]
    refine congrArg (fun b => some (p, b)) ?_
    apply List.ext_getElem?
    intro j
    rw [updRange_getElem?]
    cases buf[j]? <;> simp [imageSum]
  | succ n ih =>
    intro s0 p buf hstill h1
    rw [forLoop_succ, mixImage_eq h st dist p s0 buf horig h0 h1 h2]
    simp only [Option.some_bind]
    obtain ⟨p1, e⟩ := ih (s0 + 1) (settled p)
      (updRange (addImage h st p s0 (attBase st.absorption dist s0)) st.prevt st.curt buf) rfl
      (by rw [updRange_length]; exact h1)
    refine ⟨p1, ?_⟩
    rw [e, updRange_comp]
    refine congrArg (fun b => some (p1, b)) ?_
    apply List.ext_getElem?
    intro j
    rw [updRange_getElem?, updRange_getElem?]
    cases buf[j]? with
    | none => simp only [Option.map_none']
    | some v =>
      simp only [Option.map_some']
      by_cases hc : st.prevt ≤ (j : Int) ∧ (j : Int) < st.curt
      · rw [if_pos hc, if_pos hc]
        have ec : ∀ ch, imageSum h st (settled p) dist ch j (s0 + 1) n =
            imageSum h st p dist ch j (s0 + 1) n := by
          intro ch
          simp only [imageSum]
          refine congrArg List.sum ?_
          apply List.map_congr_left
          intro k _
          exact mixTerm_congr h st (settled p) p _ _ ch j hstill.symm rfl
        simp only [addImage, imageSum_succ, ec, add_assoc]
      · rw [if_neg hc, if_neg hc]

/-- A frame that is not skipped returns once the cell loop has returned, with the buffer and
the cells that the cell loop returned. -/
theorem reverb_queue_of_mix (h : Host) (st : State)
    (hgap : ¬ (nextCurt h - nextPrevt h st > freq)) (hp : 0 ≤ st.curt)
    (buf0 : List (ℚ × ℚ)) (infos : List (Nat × cellinfo)) (buf : List (ℚ × ℚ))
    (e0 : resize st.sndbuffer (nextCurt h) (0, 0) = some buf0)
    (e1 : mixCells h (tick h st) st.infos buf0 = some (infos, buf)) :
    ∃ st1, reverb_queue h st = some st1 ∧ st1.sndbuffer = buf ∧ st1.infos = infos := by
  have l0 := resize_length _ _ _ _ e0
  have hc : 0 ≤ nextCurt h := by omega
  have hp0 : 0 ≤ nextPrevt h st := by
    unfold nextPrevt; split <;> omega
  have hple := nextPrevt_le h st
  have hs1 := (mixCells_sameOutside h (tick h st) st.infos buf0 _ e1).1
  simp only at hs1
  obtain ⟨maxsnd, e2⟩ := maxLoop_ok buf (nextCurt h - nextPrevt h st).toNat (nextPrevt h st)
    st.maxsnd (Or.inr ⟨hp0, by omega⟩)
  obtain ⟨tp0, e3⟩ : ∃ b, resize st.to_play (nextCurt h) (⟨0, 0⟩ : sample) = some b :=
    ⟨_, resize_of_nonneg _ _ _ hc⟩
  have l3 := resize_length _ _ _ _ e3
  obtain ⟨tp, e4⟩ := playLoop_ok buf maxsnd (nextCurt h - nextPrevt h st).toNat (nextPrevt h st)
    tp0 (Or.inr ⟨hp0, by omega, by omega⟩)
  exact ⟨_, reverb_queue_of_steps h st hgap buf0 infos buf maxsnd tp0 tp e0 e1 e2 e3 e4, rfl, rfl⟩

theorem mixCells_single (h : Host) (st : State) (c : Nat) (p p1 : cellinfo)
    (buf buf1 : List (ℚ × ℚ)) (e : mixCell h st c p buf = some (p1, buf1)) :
    mixCells h st [(c, p)] buf = some ([(c, p1)], buf1) := by
  simp only [mixCells, e]

/-- A cell recorded in the current frame at topological distance 0 is mixed. -/
theorem mixCell_near (h : Host) (st : State) (c : Nat) (p : cellinfo) (buf : List (ℚ × ℚ))
    (hvis : p.curframe = st.frameid) (hdist : h.celldistance c = 0) :
    mixCell h st c p buf =
      forLoop (mixImage h st 0) (if h.sphere then 10 else 1) 0 (gapReset p, buf) := by
  have hp : ¬ (p.curframe ≠ st.frameid) := by simpa using hvis
  have hd : ¬ ((0 : Int) > (if h.sphere then 3 else 2) ∧ h.inHighQual = false) := by
    intro hh
    have := hh.1
    split at this <;> omega
  unfold mixCell
  simp only [if_neg hp, hdist]
  rw [if_neg hd]

/-- The slots of `[prevt, curt)` after a frame with one tracked cell, when the cell loop
rewrites each of them by `f` and the timeline was not longer than `curt` before the frame:
the new slots start from `(0, 0)`. -/
theorem reverb_queue_one_cell (h : Host) (st : State) (c : Nat) (p : cellinfo)
    (f : Int → ℚ × ℚ → ℚ × ℚ) (hone : st.infos = [(c, p)])
    (hgap : ¬ (nextCurt h - nextPrevt h st > freq)) (hc : 0 ≤ st.curt)
    (hcur : 0 ≤ nextCurt h) (hlen : (st.sndbuffer.length : Int) ≤ st.curt)
    (hcell : ∀ buf : List (ℚ × ℚ), (buf.length : Int) = nextCurt h →
      ∃ p1, mixCell h (tick h st) c p buf =
        some (p1, updRange f (nextPrevt h st) (nextCurt h) buf)) :
    ∃ st1, reverb_queue h st = some st1 ∧
      ∀ i : Nat, nextPrevt h st ≤ (i : Int) → (i : Int) < nextCurt h →
        st1.sndbuffer[i]? = some (f i (0, 0)) := by
  have hple := nextPrevt_le h st
  have hp0 : 0 ≤ nextPrevt h st := by
    unfold nextPrevt; split <;> omega
  obtain ⟨buf0, e0⟩ : ∃ b, resize st.sndbuffer (nextCurt h) ((0 : ℚ), (0 : ℚ)) = some b :=
    ⟨_, resize_of_nonneg _ _ _ (by omega)⟩
  have l0 := resize_length _ _ _ _ e0
  obtain ⟨p1, ecell⟩ := hcell buf0 l0
  have e1 : mixCells h (tick h st) st.infos buf0 =
      some ([(c, p1)], updRange f (nextPrevt h st) (nextCurt h) buf0) := by
    rw [hone]
    exact mixCells_single h (tick h st) c p p1 buf0 _ ecell
  obtain ⟨st1, hrun, hbuf, _⟩ := reverb_queue_of_mix h st hgap hc buf0 _ _ e0 e1
  refine ⟨st1, hrun, ?_⟩
  intro i hi1 hi2
  have hprev : nextPrevt h st = st.curt := by
    unfold nextPrevt at hi1 ⊢
    split
    · rename_i hlt
      rw [if_pos hlt] at hi1
      omega
    · rfl
  rw [hbuf, updRange_getElem?, resize_getElem? _ _ _ _ e0 i, if_pos hi2, if_neg (by omega)]
  simp only [Option.map_some']
  rw [if_pos ⟨hi1, hi2⟩]

theorem truncToInt_intCast (i : Int) (hi : 0 ≤ i) : truncToInt (i : ℚ) = i := by
  unfold truncToInt
  rw [if_pos (by exact_mod_cast hi)]
  show ⌊(i : ℚ)⌋ = i
  exact Int.floor_intCast i

/-- With `speed_of_sound = 0` the read index of sample `i` is `i` modulo the track length. -/
theorem readIndex_no_delay (orig : List sample) (i : Int) (d : ℚ) (horig : orig ≠ [])
    (hi : 0 ≤ i) : readIndex orig 0 i d = some (i % (orig.length : Int)) := by
  have hlen : 0 < orig.length := List.length_pos.mpr horig
  have hne : ¬ ((orig.length : Int) = 0) := by omega
  have e : (i : ℚ) - d * (freq : ℚ) * 0 = (i : ℚ) := by ring
  simp only [readIndex, if_neg hne, e, truncToInt_intCast i hi]
  rw [Int.tmod_eq_emod hi (by omega)]
  have : 0 ≤ i % (orig.length : Int) := Int.emod_nonneg _ hne
  rw [if_neg (by omega)]

/-- With `speed_of_sound = 0` the term that an image adds to slot `i` is the source sample
at `i` modulo the track length, times the gain. -/
theorem mixTerm_no_delay (h : Host) (st : State) (p : cellinfo) (s : Int) (base : ℚ) (ch : Nat)
    (i : Nat) (o : sample) (hsp : st.speed_of_sound = 0)
    (ho : st.orig[i % st.orig.length]? = some o) :
    mixTerm h st p s base ch (i : Int) =
      (o.get ch : ℚ) * gain h base p ch (ilerp (st.prevt : ℚ) (st.curt : ℚ) ((i : Int) : ℚ)) := by
  have horig : st.orig ≠ [] := by
    intro hnil
    rw [hnil] at ho
    simp at ho
  have hidx : ((i : Int) % (st.orig.length : Int)).toNat = i % st.orig.length := by
    rw [← Int.ofNat_emod, Int.toNat_ofNat]
  have hlen : 0 < st.orig.length := List.length_pos.mpr horig
  have hnn : 0 ≤ (i : Int) % (st.orig.length : Int) := Int.emod_nonneg _ (by omega)
  have hv : vget st.orig ((i : Int) % (st.orig.length : Int)) = some o :=
    vget_of_getElem? _ _ _ hnn (by rw [hidx]; exact ho)
  simp only [mixTerm, hsp, readIndex_no_delay st.orig (i : Int) _ horig (by omega), hv]

theorem attBase_zero (a : ℚ) : attBase a 0 0 = 1 := by
  simp [attBase]

/-! ## Frame numbers along a session -/

theorem CellStep_refl (p : cellinfo) : CellStep p p := ⟨rfl, Or.inl rfl⟩

theorem CellStep_trans (p q r : cellinfo) (h1 : CellStep p q) (h2 : CellStep q r) :
    CellStep p r := by
  obtain ⟨a1, b1⟩ := h1
  obtain ⟨a2, b2⟩ := h2
  refine ⟨a2.trans a1, ?_⟩
  rcases b2 with b2 | b2
  · rcases b1 with b1 | b1
    · exact Or.inl (b2.trans b1)
    · exact Or.inr (b2.trans b1)
  · exact Or.inr (b2.trans a1)

theorem gapReset_cellStep (p : cellinfo) : CellStep p (gapReset p) := by
  unfold gapReset
  split
  · exact ⟨rfl, Or.inl rfl⟩
  · exact CellStep_refl p

theorem mixImage_cellStep (h : Host) (st : State) (dist : Int)
    (pb pb1 : cellinfo × List (ℚ × ℚ)) (s : Int) (hrun : mixImage h st dist pb s = some pb1) :
    CellStep pb.1 pb1.1 := by
  unfold mixImage at hrun
  split at hrun
  · simp at hrun
  · simp at hrun; subst hrun
    exact ⟨rfl, Or.inr rfl⟩

theorem mixCell_cellStep (h : Host) (st : State) (c : Nat) (p : cellinfo)
    (buf : List (ℚ × ℚ)) (pb : cellinfo × List (ℚ × ℚ))
    (hrun : mixCell h st c p buf = some pb) : CellStep p pb.1 := by
  unfold mixCell at hrun
  by_cases hf : p.curframe ≠ st.frameid
  · rw [if_pos hf] at hrun
    simp at hrun; subst hrun
    exact CellStep_refl p
  · rw [if_neg hf] at hrun
    simp only at hrun
    by_cases hd : h.celldistance c > (if h.sphere then 3 else 2) ∧ h.inHighQual = false
    · rw [if_pos hd] at hrun
      simp at hrun; subst hrun
      exact gapReset_cellStep p
    · rw [if_neg hd] at hrun
      have hloop := forLoop_rel (mixImage h st (h.celldistance c))
        (fun a b => CellStep a.1 b.1) 0
        (((if h.sphere then 10 else 1 : Nat) : Int))
        (fun _ => CellStep_refl _) (fun _ _ _ => CellStep_trans _ _ _)
        (fun a i b _ _ hb => mixImage_cellStep h st _ a b i hb)
        _ 0 (gapReset p, buf) pb (le_refl _) (by simp) hrun
      exact CellStep_trans _ _ _ (gapReset_cellStep p) hloop

theorem mixCells_infosStep (h : Host) (st : State) (infos : List (Nat × cellinfo)) :
    ∀ (buf : List (ℚ × ℚ)) (r : List (Nat × cellinfo) × List (ℚ × ℚ)),
      mixCells h st infos buf = some r → InfosStep infos r.1 := by
  induction infos with
  | nil =>
    intro buf r hrun
    simp [mixCells] at hrun; subst hrun
    exact List.Forall₂.nil
  | cons cp rest ih =>
    intro buf r hrun
    obtain ⟨c, p⟩ := cp
    simp only [mixCells] at hrun
    split at hrun
    · simp at hrun
    · rename_i p1 b1 e1
      split at hrun
      · simp at hrun
      · rename_i rest1 b2 e2
        simp at hrun; subst hrun
        exact List.Forall₂.cons ⟨rfl, mixCell_cellStep h st c p buf _ e1⟩ (ih b1 (rest1, b2) e2)

theorem InfosStep_refl (l : List (Nat × cellinfo)) : InfosStep l l := by
  induction l with
  | nil => exact List.Forall₂.nil
  | cons a l ih => exact List.Forall₂.cons ⟨rfl, CellStep_refl _⟩ ih

/-- What a call of `reverb_queue` does to the frame numbers. -/
theorem reverb_queue_frames (h : Host) (st st1 : State) (hrun : reverb_queue h st = some st1) :
    (st1.frameid = st.frameid ∨ st1.frameid = st.frameid + 1) ∧ InfosStep st.infos st1.infos := by
  by_cases hgap : nextCurt h - nextPrevt h st > freq
  · rw [reverb_queue_of_gap h st hgap] at hrun
    cases hrun
    exact ⟨Or.inl rfl, InfosStep_refl _⟩
  · obtain ⟨buf0, infos, buf, maxsnd, tp0, tp, _, e1, _, _, _, rfl⟩ :=
      reverb_queue_steps h st st1 hgap hrun
    exact ⟨Or.inr rfl, mixCells_infosStep h (tick h st) st.infos buf0 _ e1⟩

theorem InfosStep_mem_right (l l1 : List (Nat × cellinfo)) (hs : InfosStep l l1) :
    ∀ b ∈ l1, ∃ a ∈ l, a.1 = b.1 ∧ CellStep a.2 b.2 := by
  induction hs with
  | nil => intro b hb; simp at hb
  | cons hab _ ih =>
    intro b hb
    rcases List.mem_cons.mp hb with rfl | hb
    · exact ⟨_, List.mem_cons_self _ _, hab⟩
    · obtain ⟨a, ha, hr⟩ := ih b hb
      exact ⟨a, List.mem_cons_of_mem _ ha, hr⟩

theorem InfosStep_find (l l1 : List (Nat × cellinfo)) (hs : InfosStep l l1) (c : Nat) :
    (∀ p, infosFind l c = some p → ∃ p1, infosFind l1 c = some p1 ∧ CellStep p p1) ∧
    (infosFind l c = none → infosFind l1 c = none) := by
  induction hs with
  | nil => exact ⟨fun p hp => by simp [infosFind] at hp, fun _ => rfl⟩
  | @cons a b l l1 hab _ ih =>
    obtain ⟨k, p0⟩ := a
    obtain ⟨k1, p1⟩ := b
    obtain ⟨hk, hst⟩ := hab
    simp only at hk hst
    subst hk
    simp only [infosFind]
    by_cases hc : c = k
    · simp only [if_pos hc]
      exact ⟨fun p hp => by cases hp; exact ⟨p1, rfl, hst⟩, fun hn => by simp at hn⟩
    · simp only [if_neg hc]
      exact ih

theorem infosFind_mem (l : List (Nat × cellinfo)) (c : Nat) (p : cellinfo)
    (hf : infosFind l c = some p) : (c, p) ∈ l := by
  induction l with
  | nil => simp [infosFind] at hf
  | cons a l ih =>
    obtain ⟨k, q⟩ := a
    simp only [infosFind] at hf
    by_cases hc : c = k
    · rw [if_pos hc] at hf
      cases hf
      subst hc
      exact List.mem_cons_self _ _
    · rw [if_neg hc] at hf
      exact List.mem_cons_of_mem _ (ih hf)

theorem infosFind_update_self (c : Nat) (f : cellinfo → cellinfo) (l : List (Nat × cellinfo)) :
    ∃ q, infosFind (infosUpdate c f l) c = some (f q) ∧
      (infosFind l c = none → q = cellinfo.fresh) := by
  induction l with
  | nil => exact ⟨cellinfo.fresh, by simp [infosUpdate, infosFind], fun _ => rfl⟩
  | cons a l ih =>
    obtain ⟨k, p⟩ := a
    simp only [infosUpdate]
    by_cases hc : c = k
    · rw [if_pos hc]
      refine ⟨p, by simp [infosFind, hc], ?_⟩
      intro hn
      simp [infosFind, hc] at hn
    · rw [if_neg hc]
      by_cases hlt : c < k
      · rw [if_pos hlt]
        refine ⟨cellinfo.fresh, by simp [infosFind], fun _ => rfl⟩
      · rw [if_neg hlt]
        obtain ⟨q, hq, hq2⟩ := ih
        refine ⟨q, by simp only [infosFind, if_neg hc]; exact hq, ?_⟩
        intro hn
        simp only [infosFind, if_neg hc] at hn
        exact hq2 hn

theorem infosFind_update_other (c k : Nat) (f : cellinfo → cellinfo)
    (l : List (Nat × cellinfo)) (hk : k ≠ c) :
    infosFind (infosUpdate c f l) k = infosFind l k := by
  induction l with
  | nil => simp [infosUpdate, infosFind, hk]
  | cons a l ih =>
    obtain ⟨k0, p⟩ := a
    simp only [infosUpdate]
    by_cases hc : c = k0
    · rw [if_pos hc]
      subst hc
      simp [infosFind, hk]
    · rw [if_neg hc]
      by_cases hlt : c < k0
      · rw [if_pos hlt]
        simp [infosFind, hk]
      · rw [if_neg hlt]
        simp only [infosFind]
        rw [ih]

theorem mem_infosUpdate (c : Nat) (f : cellinfo → cellinfo) (l : List (Nat × cellinfo))
    (cp : Nat × cellinfo) (hm : cp ∈ infosUpdate c f l) :
    cp ∈ l ∨ ∃ q, cp = (c, f q) ∧ (q = cellinfo.fresh ∨ (c, q) ∈ l) := by
  induction l with
  | nil =>
    simp only [infosUpdate, List.mem_singleton] at hm
    exact Or.inr ⟨cellinfo.fresh, hm, Or.inl rfl⟩
  | cons a l ih =>
    obtain ⟨k, p⟩ := a
    simp only [infosUpdate] at hm
    by_cases hc : c = k
    · rw [if_pos hc] at hm
      rcases List.mem_cons.mp hm with h1 | h1
      · exact Or.inr ⟨p, by rw [h1, hc], Or.inr (by rw [hc]; exact List.mem_cons_self _ _)⟩
      · exact Or.inl (List.mem_cons_of_mem _ h1)
    · rw [if_neg hc] at hm
      by_cases hlt : c < k
      · rw [if_pos hlt] at hm
        rcases List.mem_cons.mp hm with h1 | h1
        · exact Or.inr ⟨cellinfo.fresh, h1, Or.inl rfl⟩
        · exact Or.inl h1
      · rw [if_neg hlt] at hm
        rcases List.mem_cons.mp hm with h1 | h1
        · exact Or.inl (by rw [h1]; exact List.mem_cons_self _ _)
        · rcases ih h1 with h2 | ⟨q, hq, hq2⟩
          · exact Or.inl (List.mem_cons_of_mem _ h2)
          · refine Or.inr ⟨q, hq, ?_⟩
            rcases hq2 with hq2 | hq2
            · exact Or.inl hq2
            · exact Or.inr (List.mem_cons_of_mem _ hq2)

/-- What a call of `draw_bird` does: nothing, or (with `in` set) the entry of the cell gets
the current frame and the new distances; nothing else but `started` changes. -/
theorem draw_bird_cases (h : Host) (st st1 : State) (c : Nat) (earDist : ℚ → ℚ)
    (hrun : draw_bird h st c earDist = some st1) :
    st1.frameid = st.frameid ∧ st1.curt = st.curt ∧ st1.sndbuffer = st.sndbuffer ∧
    st1.to_play = st.to_play ∧ st1.in_ = st.in_ ∧
    ((st.in_ = false ∧ st1.infos = st.infos) ∨
     (st.in_ = true ∧ st1.infos = infosUpdate c
        (fun ci => { ci with curframe := st.frameid,
                             curdist := (earDist (-st.iad), earDist st.iad) })
        st.infos)) := by
  unfold draw_bird at hrun
  by_cases hin : st.in_ = false
  · rw [if_pos hin] at hrun
    cases hrun
    exact ⟨rfl, rfl, rfl, rfl, rfl, Or.inl ⟨hin, rfl⟩⟩
  · rw [if_neg hin] at hrun
    simp only at hrun
    split at hrun
    · simp at hrun
    · simp only [Option.some.injEq] at hrun
      subst hrun
      have hin' : st.in_ = true := by simpa using hin
      by_cases hs : st.started = false
      · rw [if_pos hs]
        exact ⟨rfl, rfl, rfl, rfl, rfl, Or.inr ⟨hin', rfl⟩⟩
      · rw [if_neg hs]
        exact ⟨rfl, rfl, rfl, rfl, rfl, Or.inr ⟨hin', rfl⟩⟩

theorem FrameInv_of_start (st : State) (hs : IsStart st) : FrameInv st := by
  obtain ⟨hf, hi, _⟩ := hs
  refine ⟨by omega, ?_⟩
  intro cp hcp
  rw [hi] at hcp
  simp at hcp

theorem step_frameInv (st st1 : State) (e : Event) (hinv : FrameInv st)
    (hrun : step st e = some st1) : FrameInv st1 := by
  obtain ⟨h10, hcells⟩ := hinv
  cases e with
  | draw h c earDist =>
    obtain ⟨hf, _, _, _, _, hcase⟩ := draw_bird_cases h st st1 c earDist hrun
    refine ⟨by omega, ?_⟩
    rcases hcase with ⟨_, hi⟩ | ⟨_, hi⟩
    · intro cp hcp
      rw [hi] at hcp
      rw [hf]
      exact hcells cp hcp
    · intro cp hcp
      rw [hi] at hcp
      rw [hf]
      rcases mem_infosUpdate _ _ _ cp hcp with hm | ⟨q, hq, hq2⟩
      · exact hcells cp hm
      · subst hq
        refine ⟨h10, le_refl _, ?_⟩
        rcases hq2 with hq2 | hq2
        · subst hq2
          exact Or.inl rfl
        · exact (hcells _ hq2).2.2
  | mix h =>
    obtain ⟨hf, hstep⟩ := reverb_queue_frames h st st1 hrun
    refine ⟨by omega, ?_⟩
    intro b hb
    obtain ⟨a, ha, _, hc, hl⟩ := InfosStep_mem_right _ _ hstep b hb
    obtain ⟨i1, i2, i3⟩ := hcells a ha
    refine ⟨by omega, by omega, ?_⟩
    rcases hl with hl | hl
    · rw [hl]; exact i3
    · exact Or.inr (by omega)

theorem step_framesGrow (st st1 : State) (e : Event) (hinv : FrameInv st)
    (hrun : step st e = some st1) : FramesGrow st st1 := by
  obtain ⟨h10, hcells⟩ := hinv
  cases e with
  | draw h c earDist =>
    obtain ⟨hf, _, _, _, _, hcase⟩ := draw_bird_cases h st st1 c earDist hrun
    refine ⟨by omega, ?_⟩
    rcases hcase with ⟨_, hi⟩ | ⟨_, hi⟩
    · intro k p hp
      exact ⟨p, by rw [hi]; exact hp, le_refl _⟩
    · intro k p hp
      rw [hi]
      by_cases hk : k = c
      · subst hk
        obtain ⟨q, hq, _⟩ := infosFind_update_self k
          (fun ci => { ci with curframe := st.frameid,
                               curdist := (earDist (-st.iad), earDist st.iad) }) st.infos
        refine ⟨_, hq, ?_⟩
        exact (hcells _ (infosFind_mem _ _ _ hp)).2.1
      · rw [infosFind_update_other _ _ _ _ hk]
        exact ⟨p, hp, le_refl _⟩
  | mix h =>
    obtain ⟨hf, hstep⟩ := reverb_queue_frames h st st1 hrun
    refine ⟨by omega, ?_⟩
    intro k p hp
    obtain ⟨p1, hp1, hc, _⟩ := (InfosStep_find _ _ hstep k).1 p hp
    exact ⟨p1, hp1, by omega⟩

theorem FramesGrow_refl (st : State) : FramesGrow st st :=
  ⟨le_refl _, fun _ p hp => ⟨p, hp, le_refl _⟩⟩

theorem FramesGrow_trans (a b c : State) (h1 : FramesGrow a b) (h2 : FramesGrow b c) :
    FramesGrow a c := by
  refine ⟨le_trans h1.1 h2.1, ?_⟩
  intro k p hp
  obtain ⟨p1, hp1, hle1⟩ := h1.2 k p hp
  obtain ⟨p2, hp2, hle2⟩ := h2.2 k p1 hp1
  exact ⟨p2, hp2, le_trans hle1 hle2⟩

/-- The frame numbers stay as `FrameInv` says along every sequence of calls, and grow. -/
theorem run_frames (evs : List Event) :
    ∀ (st st1 : State), FrameInv st → run st evs = some st1 →
      FrameInv st1 ∧ FramesGrow st st1 := by
  induction evs with
  | nil =>
    intro st st1 hinv hrun
    simp only [run, Option.some.injEq] at hrun
    subst hrun
    exact ⟨hinv, FramesGrow_refl _⟩
  | cons e es ih =>
    intro st st1 hinv hrun
    simp only [run] at hrun
    split at hrun
    · simp at hrun
    · rename_i s1 e1
      obtain ⟨i2, g2⟩ := ih s1 st1 (step_frameInv st s1 e hinv e1) hrun
      exact ⟨i2, FramesGrow_trans _ _ _ (step_framesGrow st s1 e hinv e1) g2⟩
/-! ## One cell among the tracked cells -/

/-- The condition of lines 110 and 116 under which a tracked cell is mixed. -/
theorem mixCell_of_not_heard (h : Host) (st : State) (c : Nat) (p : cellinfo)
    (buf : List (ℚ × ℚ))
    (hno : ¬ (p.curframe = st.frameid ∧
      (h.inHighQual = true ∨ h.celldistance c ≤ (if h.sphere then 3 else 2)))) :
    ∃ p1, mixCell h st c p buf = some (p1, buf) ∧ p1.lastframe = p.lastframe ∧
      p1.curframe = p.curframe ∧ p1.curdist = p.curdist := by
  unfold mixCell
  by_cases hf : p.curframe ≠ st.frameid
  · rw [if_pos hf]
    exact ⟨p, rfl, rfl, rfl, rfl⟩
  · rw [if_neg hf]
    have hf' : p.curframe = st.frameid := by simpa using hf
    have hd : h.celldistance c > (if h.sphere then 3 else 2) ∧ h.inHighQual = false := by
      constructor
      · by_contra hc
        exact hno ⟨hf', Or.inr (by omega)⟩
      · cases hq : h.inHighQual
        · rfl
        · exact absurd ⟨hf', Or.inl hq⟩ hno
    simp only
    rw [if_pos hd]
    refine ⟨gapReset p, rfl, ?_, ?_, ?_⟩ <;> (unfold gapReset; split <;> rfl)

theorem mixCells_append (h : Host) (st : State) (post : List (Nat × cellinfo)) :
    ∀ (pre : List (Nat × cellinfo)) (buf : List (ℚ × ℚ)),
      mixCells h st (pre ++ post) buf =
        match mixCells h st pre buf with
        | none => none
        | some (pre1, buf1) =>
          match mixCells h st post buf1 with
          | none => none
          | some (post1, buf2) => some (pre1 ++ post1, buf2) := by
  intro pre
  induction pre with
  | nil =>
    intro buf
    simp only [List.nil_append, mixCells]
    cases mixCells h st post buf with
    | none => rfl
    | some r => rfl
  | cons q pre ih =>
    intro buf
    obtain ⟨c1, p1⟩ := q
    simp only [List.cons_append, mixCells]
    cases mixCell h st c1 p1 buf with
    | none => rfl
    | some r =>
      obtain ⟨p2, b2⟩ := r
      simp only [List.append_eq]
      rw [ih b2]
      cases mixCells h st pre b2 with
      | none => rfl
      | some r2 =>
        obtain ⟨pre1, b3⟩ := r2
        simp only
        cases mixCells h st post b3 with
        | none => rfl
        | some r3 => rfl


/-- The cell loop over cells that do not contribute returns the buffer it was given. -/
theorem mixCells_not_heard (h : Host) (st : State) :
    ∀ (l : List (Nat × cellinfo)) (buf : List (ℚ × ℚ)),
      (∀ q ∈ l, ¬ Heard h st q.1 q.2) → ∃ l1, mixCells h st l buf = some (l1, buf) := by
  intro l
  induction l with
  | nil =>
    intro buf _
    exact ⟨[], rfl⟩
  | cons q l ih =>
    intro buf hno
    obtain ⟨c, p⟩ := q
    obtain ⟨p1, e, _⟩ := mixCell_of_not_heard h st c p buf (hno (c, p) (List.mem_cons_self _ _))
    obtain ⟨l1, e1⟩ := ih buf (fun q hq => hno q (List.mem_cons_of_mem _ hq))
    exact ⟨(c, p1) :: l1, by simp only [mixCells, e, e1]⟩

/-- The cell loop around one of its cells: the cells before it, the cell, the cells after. -/
theorem mixCells_split (h : Host) (st : State) (c : Nat) (p : cellinfo)
    (pre post : List (Nat × cellinfo)) (buf : List (ℚ × ℚ))
    (r : List (Nat × cellinfo) × List (ℚ × ℚ))
    (hrun : mixCells h st (pre ++ (c, p) :: post) buf = some r) :
    ∃ pre1 buf1 p1 buf2 post1,
      mixCells h st pre buf = some (pre1, buf1) ∧
      mixCell h st c p buf1 = some (p1, buf2) ∧
      mixCells h st post buf2 = some (post1, r.2) ∧
      r.1 = pre1 ++ (c, p1) :: post1 := by
  rw [mixCells_append] at hrun
  cases e1 : mixCells h st pre buf with
  | none => rw [e1] at hrun; cases hrun
  | some r1 =>
    obtain ⟨pre1, buf1⟩ := r1
    rw [e1] at hrun
    simp only [mixCells] at hrun
    cases e2 : mixCell h st c p buf1 with
    | none => rw [e2] at hrun; cases hrun
    | some r2 =>
      obtain ⟨p1, buf2⟩ := r2
      rw [e2] at hrun
      simp only at hrun
      cases e3 : mixCells h st post buf2 with
      | none => rw [e3] at hrun; cases hrun
      | some r3 =>
        obtain ⟨post1, buf3⟩ := r3
        rw [e3] at hrun
        simp only [Option.some.injEq] at hrun
        subst hrun
        exact ⟨pre1, buf1, p1, buf2, post1, rfl, e2, e3, rfl⟩

/-- The loop over the images for any cell: image 0 reads the cell as it is, the images after
it read the cell as lines 146-147 leave it, with `lastdist` equal to `curdist`. -/
theorem mixImages_eq (h : Host) (st : State) (dist : Int) (horig : st.orig ≠ [])
    (h0 : 0 ≤ st.prevt) (h2 : st.prevt ≤ st.curt) (n : Nat) (p : cellinfo)
    (buf : List (ℚ × ℚ)) (h1 : st.curt ≤ buf.length) :
    ∃ p1, forLoop (mixImage h st dist) (n + 1) 0 (p, buf) =
      some (p1, updRange
        (fun i v =>
          (v.1 + (mixTerm h st p 0 (attBase st.absorption dist 0) 0 i +
                  imageSum h st (settled p) dist 0 i 1 n),
           v.2 + (mixTerm h st p 0 (attBase st.absorption dist 0) 1 i +
                  imageSum h st (settled p) dist 1 i 1 n)))
        st.prevt st.curt buf) := by
  rw [forLoop_succ, mixImage_eq h st dist p 0 buf horig h0 h1 h2]
  simp only [Option.some_bind]
  obtain ⟨p1, e⟩ := mixImages_still h st dist horig h0 h2 n (0 + 1) (settled p)
    (updRange (addImage h st p 0 (attBase st.absorption dist 0)) st.prevt st.curt buf) rfl
    (by rw [updRange_length]; exact h1)
  refine ⟨p1, ?_⟩
  rw [e, updRange_comp]
  refine congrArg (fun b => some (p1, b)) ?_
  apply List.ext_getElem?
  intro j
  rw [updRange_getElem?, updRange_getElem?]
  cases buf[j]? with
  | none => simp only [Option.map_none']
  | some v =>
    simp only [Option.map_some']
    by_cases hc : st.prevt ≤ (j : Int) ∧ (j : Int) < st.curt
    · rw [if_pos hc, if_pos hc]
      simp only [addImage, add_assoc, zero_add]
    · rw [if_neg hc, if_neg hc]

/-- For a cell whose `lastdist` equals its `curdist` the terms of the images are those of the
cell itself. -/
theorem imageSum_settled (h : Host) (st : State) (p : cellinfo) (dist : Int) (ch : Nat) (i : Int)
    (s0 : Int) (n : Nat) (hstill : p.lastdist = p.curdist) :
    imageSum h st (settled p) dist ch i s0 n = imageSum h st p dist ch i s0 n := by
  simp only [imageSum]
  refine congrArg List.sum ?_
  apply List.map_congr_left
  intro k _
  exact mixTerm_congr h st (settled p) p _ _ ch i hstill.symm rfl

/-- The cell loop when one cell rewrites the buffer and no other tracked cell contributes. -/
theorem mixCells_one_heard (h : Host) (st : State) (c : Nat) (p p1 : cellinfo)
    (pre post : List (Nat × cellinfo)) (buf buf1 : List (ℚ × ℚ))
    (hothers : ∀ q ∈ pre ++ post, ¬ Heard h st q.1 q.2)
    (hcell : mixCell h st c p buf = some (p1, buf1)) :
    ∃ l1, mixCells h st (pre ++ (c, p) :: post) buf = some (l1, buf1) := by
  obtain ⟨pre1, e1⟩ := mixCells_not_heard h st pre buf
    (fun q hq => hothers q (List.mem_append_left _ hq))
  obtain ⟨post1, e3⟩ := mixCells_not_heard h st post buf1
    (fun q hq => hothers q (List.mem_append_right _ hq))
  refine ⟨pre1 ++ (c, p1) :: post1, ?_⟩
  rw [mixCells_append, e1]
  simp only [mixCells, hcell, e3]

/-- The slots of `[prevt, curt)` after a frame in which one tracked cell contributes, when
the cell loop rewrites each of them by `f` for that cell and the timeline was not longer than
`curt` before the frame: the new slots start from `(0, 0)`. -/
theorem reverb_queue_one_heard (h : Host) (st : State) (c : Nat) (p : cellinfo)
    (pre post : List (Nat × cellinfo))
    (f : Int → ℚ × ℚ → ℚ × ℚ) (hin : st.infos = pre ++ (c, p) :: post)
    (hothers : ∀ q ∈ pre ++ post, ¬ Heard h st q.1 q.2)
    (hgap : ¬ (nextCurt h - nextPrevt h st > freq)) (hc : 0 ≤ st.curt)
    (hcur : 0 ≤ nextCurt h) (hlen : (st.sndbuffer.length : Int) ≤ st.curt)
    (hcell : ∀ buf : List (ℚ × ℚ), (buf.length : Int) = nextCurt h →
      ∃ p1, mixCell h (tick h st) c p buf =
        some (p1, updRange f (nextPrevt h st) (nextCurt h) buf)) :
    ∃ st1, reverb_queue h st = some st1 ∧
      ∀ i : Nat, nextPrevt h st ≤ (i : Int) → (i : Int) < nextCurt h →
        st1.sndbuffer[i]? = some (f i (0, 0)) := by
  have hple := nextPrevt_le h st
  obtain ⟨buf0, e0⟩ : ∃ b, resize st.sndbuffer (nextCurt h) ((0 : ℚ), (0 : ℚ)) = some b :=
    ⟨_, resize_of_nonneg _ _ _ (by omega)⟩
  have l0 := resize_length _ _ _ _ e0
  obtain ⟨p1, ecell⟩ := hcell buf0 l0
  obtain ⟨l1, e1⟩ := mixCells_one_heard h (tick h st) c p p1 pre post buf0 _ hothers ecell
  rw [← hin] at e1
  obtain ⟨st1, hrun, hbuf, _⟩ := reverb_queue_of_mix h st hgap hc buf0 _ _ e0 e1
  refine ⟨st1, hrun, ?_⟩
  intro i hi1 hi2
  have hprev : nextPrevt h st = st.curt := by
    unfold nextPrevt at hi1 ⊢
    split
    · rename_i hlt
      rw [if_pos hlt] at hi1
      omega
    · rfl
  rw [hbuf, updRange_getElem?, resize_getElem? _ _ _ _ e0 i, if_pos hi2, if_neg (by omega)]
  simp only [Option.map_some']
  rw [if_pos ⟨hi1, hi2⟩]

/-- The clock and the timeline in a session: `curt` is not negative and the timeline is not
longer than `curt`, before and after every call. -/
theorem step_timeline (st st1 : State) (e : Event)
    (hinv : 0 ≤ st.curt ∧ (st.sndbuffer.length : Int) ≤ st.curt)
    (hrun : step st e = some st1) :
    0 ≤ st1.curt ∧ (st1.sndbuffer.length : Int) ≤ st1.curt := by
  cases e with
  | draw h c earDist =>
    obtain ⟨_, hc, hs, _⟩ := draw_bird_cases h st st1 c earDist hrun
    rw [hc, hs]
    exact hinv
  | mix h =>
    have hrun' : reverb_queue h st = some st1 := hrun
    by_cases hgap : nextCurt h - nextPrevt h st > freq
    · rw [reverb_queue_of_gap h st hgap] at hrun'
      cases hrun'
      have hf : freq = 44100 := rfl
      have hp : nextPrevt h st = st.curt := by
        unfold nextPrevt at hgap ⊢
        split
        · rename_i hlt
          rw [if_pos hlt] at hgap
          omega
        · rfl
      show 0 ≤ nextCurt h ∧ (st.sndbuffer.length : Int) ≤ nextCurt h
      omega
    · obtain ⟨l1, _, _, _, hc⟩ := reverb_queue_shape h st st1 hgap hrun'
      omega

theorem run_timeline (evs : List Event) :
    ∀ st st1 : State, (0 ≤ st.curt ∧ (st.sndbuffer.length : Int) ≤ st.curt) →
      run st evs = some st1 → 0 ≤ st1.curt ∧ (st1.sndbuffer.length : Int) ≤ st1.curt := by
  induction evs with
  | nil =>
    intro st st1 hinv hrun
    simp only [run, Option.some.injEq] at hrun
    subst hrun
    exact hinv
  | cons e es ih =>
    intro st st1 hinv hrun
    simp only [run] at hrun
    cases hs : step st e with
    | none => rw [hs] at hrun; cases hrun
    | some st2 =>
      rw [hs] at hrun
      exact ih st2 st1 (step_timeline st st2 e hinv hs) hrun

/-! ## The claims -/

/-- C1 (the code departs from the claim): the volume loop compares the signed value of
`sndbuffer[i][ch]` with `maxsnd`, not its magnitude.  With the track `[(100, -200)]` and one
cell heard at gain 1, the first frame (44 samples) leaves `sndbuffer[0] = (100, -200)` and
`maxsnd = 100`: the right channel has magnitude 200, above `maxsnd`, and the value that line
159 computes for it, `sndbuffer[0][1] / maxsnd * 30000`, is `-60000`, of magnitude above
30000. -/
theorem reverb_queue_negative_peak_exceeds_maxsnd :
    (reverb_queue (euclidHost 1 1) (oneCellState negTrack (1, 1))).map
        (fun s => (s.sndbuffer[0]?, s.maxsnd, s.curt,
          s.sndbuffer[0]?.map (fun v => (decide (|get2 v 1| ≤ s.maxsnd), pcm (get2 v 1) s.maxsnd)))) =
      some (some ((100 : ℚ), (-200 : ℚ)), (100 : ℚ), (44 : Int),
        some (false, (-60000 : ℚ))) := by
  decide!

/-- C2: the value of `maxsnd` after `reverb_queue` is at least its value before, and it stays
at least 1 when it starts at least 1. -/
theorem reverb_queue_maxsnd_mono (h : Host) (st st1 : State)
    (hrun : reverb_queue h st = some st1) :
    st.maxsnd ≤ st1.maxsnd ∧ (1 ≤ st.maxsnd → 1 ≤ st1.maxsnd) := by
  have key : st.maxsnd ≤ st1.maxsnd := by
    by_cases hgap : nextCurt h - nextPrevt h st > freq
    · rw [reverb_queue_of_gap h st hgap] at hrun
      cases hrun
      exact le_refl _
    · obtain ⟨buf0, infos, buf, maxsnd, tp0, tp, _, _, e2, _, _, rfl⟩ :=
        reverb_queue_steps h st st1 hgap hrun
      exact maxLoop_le buf _ _ _ _ e2
  exact ⟨key, fun h1 => le_trans h1 key⟩

/-- C2, at a frame that raises `maxsnd` from 1 to 100. -/
theorem reverb_queue_maxsnd_mono_witness :
    ∃ st1, reverb_queue (euclidHost 1 1) (oneCellState negTrack (1, 1)) = some st1 ∧
      (oneCellState negTrack (1, 1)).maxsnd ≤ st1.maxsnd ∧ 1 ≤ st1.maxsnd := by
  have hs : (reverb_queue (euclidHost 1 1) (oneCellState negTrack (1, 1))).isSome = true := by
    decide!
  obtain ⟨st1, h1⟩ := Option.isSome_iff_exists.mp hs
  have h2 := reverb_queue_maxsnd_mono _ _ st1 h1
  exact ⟨st1, h1, h2.1, h2.2 (by decide!)⟩

theorem gapReset_of_gap (p : cellinfo) (hgap : p.lastframe ≠ p.curframe - 1) :
    gapReset p = { p with lastdist := p.curdist } := by
  simp [gapReset, hgap]

theorem lerp_self (c a : ℚ) : lerp c c a = c := by
  simp [lerp]

theorem mixCell_stale (h : Host) (st : State) (c : Nat) (p : cellinfo) (x : ℚ × ℚ)
    (buf : List (ℚ × ℚ)) (hproc : p.curframe = st.frameid)
    (hgap : p.lastframe ≠ p.curframe - 1) :
    mixCell h st c { p with lastdist := x } buf = mixCell h st c p buf := by
  have e1 : gapReset { p with lastdist := x } = gapReset p := by
    rw [gapReset_of_gap p hgap, gapReset_of_gap _ (by simpa using hgap)]
  have hp : ¬ (p.curframe ≠ st.frameid) := by simpa using hproc
  unfold mixCell
  simp only [e1, if_neg hp]

theorem mixCells_stale (h : Host) (st : State) (c : Nat) (p : cellinfo) (x : ℚ × ℚ)
    (post : List (Nat × cellinfo)) (hproc : p.curframe = st.frameid)
    (hgap : p.lastframe ≠ p.curframe - 1) :
    ∀ (pre : List (Nat × cellinfo)) (buf : List (ℚ × ℚ)),
      mixCells h st (pre ++ (c, { p with lastdist := x }) :: post) buf =
        mixCells h st (pre ++ (c, p) :: post) buf := by
  intro pre
  induction pre with
  | nil =>
    intro buf
    simp only [List.nil_append, mixCells]
    rw [mixCell_stale h st c p x buf hproc hgap]
  | cons q pre ih =>
    intro buf
    obtain ⟨c1, p1⟩ := q
    simp only [List.cons_append, mixCells]
    cases mixCell h st c1 p1 buf with
    | none => rfl
    | some r =>
      obtain ⟨p2, b2⟩ := r
      simp only [List.append_eq]
      rw [ih b2]

theorem mixCells_infos_irrelevant (h : Host) (st : State) (l0 : List (Nat × cellinfo)) :
    mixCells h { st with infos := l0 } = mixCells h st := by
  funext l
  induction l with
  | nil => rfl
  | cons q l ih =>
    funext buf
    obtain ⟨c, p⟩ := q
    simp only [mixCells]
    have e : mixCell h { st with infos := l0 } c p buf = mixCell h st c p buf := rfl
    rw [e, ih]

/-- C3: for a cell that is processed in a mix step (`curframe = frameid`, frame not skipped)
and whose `lastframe` is not `curframe - 1`, line 112 sets `lastdist` to `curdist` before
anything is computed: the interpolated distance of every sample and channel is `curdist[ch]`
(plus `M_PI * s` for image `s`), both attenuation endpoints and the gain are the attenuation at
`curdist[ch]`, and the result of `reverb_queue` does not depend on the `lastdist` recorded
before the gap. -/
theorem reverb_queue_gap_reset (h : Host) (st : State) (c : Nat) (p : cellinfo) (x : ℚ × ℚ)
    (pre post : List (Nat × cellinfo))
    (hgap : p.lastframe ≠ p.curframe - 1) (hproc : p.curframe = st.frameid)
    (hrun : ¬ (nextCurt h - nextPrevt h st > freq)) (hin : st.infos = pre ++ (c, p) :: post) :
    (gapReset p).lastdist = p.curdist ∧
    (∀ (s : Int) (ch : Nat) (a : ℚ),
      lerp (get2 (gapReset p).lastdist ch) (get2 (gapReset p).curdist ch) a = get2 p.curdist ch ∧
      delayDist h (gapReset p) s ch a = get2 p.curdist ch + h.M_PI * s) ∧
    (∀ (base : ℚ) (ch : Nat) (a : ℚ),
      att h base (get2 (gapReset p).lastdist ch) = att h base (get2 p.curdist ch) ∧
      att h base (get2 (gapReset p).curdist ch) = att h base (get2 p.curdist ch) ∧
      gain h base (gapReset p) ch a = att h base (get2 p.curdist ch)) ∧
    reverb_queue h { st with infos := pre ++ (c, { p with lastdist := x }) :: post } =
      reverb_queue h st := by
  have eg := gapReset_of_gap p hgap
  refine ⟨by rw [eg], ?_, ?_, ?_⟩
  · intro s ch a
    rw [eg]
    simp [delayDist, lerp_self]
  · intro base ch a
    rw [eg]
    simp [gain, lerp_self]
  · have em : ∀ buf, mixCells h (tick h st) (pre ++ (c, { p with lastdist := x }) :: post) buf =
        mixCells h (tick h st) st.infos buf := by
      intro buf
      rw [hin]
      exact mixCells_stale h (tick h st) c p x post hproc hgap pre buf
    have et : tick h { st with infos := pre ++ (c, { p with lastdist := x }) :: post } =
        { tick h st with infos := pre ++ (c, { p with lastdist := x }) :: post } := rfl
    have hn : ¬ ((tick h st).curt - (tick h st).prevt > freq) := by simpa [tick] using hrun
    unfold reverb_queue
    simp only [et, if_neg hn, mixCells_infos_irrelevant, em]
    rfl

/-- C3, at a cell seen in frames 8 and 10 but not in frame 9, with a stale `lastdist`. -/
theorem reverb_queue_gap_reset_witness :
    reverb_queue (euclidHost 1 1)
        { oneCellState negTrack (1, 1) with
          infos := [] ++ (0, { ({ lastframe := 8, curframe := 10, lastdist := (0, 0),
                                  curdist := (1, 1) } : cellinfo) with lastdist := (7, 7) }) :: [] } =
      reverb_queue (euclidHost 1 1)
        { oneCellState negTrack (1, 1) with
          infos := [(0, { lastframe := 8, curframe := 10, lastdist := (0, 0), curdist := (1, 1) })] } :=
  (reverb_queue_gap_reset (euclidHost 1 1)
    { oneCellState negTrack (1, 1) with
      infos := [(0, { lastframe := 8, curframe := 10, lastdist := (0, 0), curdist := (1, 1) })] }
    0 { lastframe := 8, curframe := 10, lastdist := (0, 0), curdist := (1, 1) } (7, 7) [] []
    (by decide) (by decide) (by decide) rfl).2.2.2

/-- C5: when the new sample time exceeds the previous one by more than `freq` samples,
`reverb_queue` returns the state with only `prevt` and `curt` updated (`sndbuffer`,
`to_play`, `maxsnd`, `frameid` and `infos` are as before); a gap of exactly `freq` samples is
not skipped: the frame is mixed, `frameid` advances and both buffers get length `curt`. -/
theorem reverb_queue_skips_long_gap (h : Host) (st : State) :
    (nextCurt h - nextPrevt h st > freq →
      reverb_queue h st = some { st with prevt := nextPrevt h st, curt := nextCurt h }) ∧
    (nextCurt h - nextPrevt h st = freq → 0 ≤ st.curt → (st.orig ≠ [] ∨ st.infos = []) →
      ∃ st1, reverb_queue h st = some st1 ∧ st1.frameid = st.frameid + 1 ∧
        (st1.sndbuffer.length : Int) = nextCurt h ∧ (st1.to_play.length : Int) = nextCurt h) := by
  constructor
  · intro hgap
    exact reverb_queue_of_gap h st hgap
  · intro hgap hc ho
    have hn : ¬ (nextCurt h - nextPrevt h st > freq) := by omega
    have hp := nextPrevt_le_curt h st
    have hf : freq = 44100 := rfl
    have hcur : 0 ≤ nextCurt h := by
      have : nextPrevt h st = st.curt := by
        unfold nextPrevt at hgap ⊢
        split
        · rename_i hlt
          rw [if_pos hlt] at hgap
          omega
        · rfl
      omega
    obtain ⟨st1, hrun⟩ := reverb_queue_ok h st hn hcur (Or.inl hc) ho
    obtain ⟨l1, l2, l3, _, _⟩ := reverb_queue_shape h st st1 hn hrun
    exact ⟨st1, hrun, l3, l1, l2⟩

/-- C5, at a first frame two seconds after the start (skipped) and at a first frame exactly
one second after the start (mixed). -/
theorem reverb_queue_skips_long_gap_witness :
    reverb_queue (euclidHost 2000 0) (State.init negTrack) =
        some { State.init negTrack with prevt := 0, curt := 88200 } ∧
    ∃ st1, reverb_queue (euclidHost 1000 0) (State.init negTrack) = some st1 ∧
      st1.frameid = 11 ∧ (st1.sndbuffer.length : Int) = 44100 ∧
      (st1.to_play.length : Int) = 44100 :=
  ⟨(reverb_queue_skips_long_gap (euclidHost 2000 0) (State.init negTrack)).1 (by decide),
   (reverb_queue_skips_long_gap (euclidHost 1000 0) (State.init negTrack)).2 (by decide)
     (by decide) (Or.inl (by decide))⟩

/-- C4, counterexample: a first frame at 2000 milliseconds is skipped and leaves `curt = 88200`
with both buffers empty; a second call at the same 2000 milliseconds computes
`prevt = curt = 88200`, the old `curt`, and yet grows `sndbuffer` and `to_play` from length 0
to length 88200. -/
theorem reverb_queue_no_elapsed_counterexample :
    reverb_queue (euclidHost 2000 0) (State.init negTrack) = some afterSkippedFrame ∧
    nextCurt (euclidHost 2000 0) = afterSkippedFrame.curt ∧
    nextPrevt (euclidHost 2000 0) afterSkippedFrame = nextCurt (euclidHost 2000 0) ∧
    afterSkippedFrame.sndbuffer.length = 0 ∧ afterSkippedFrame.to_play.length = 0 ∧
    ∃ st1, reverb_queue (euclidHost 2000 0) afterSkippedFrame = some st1 ∧
      st1.sndbuffer.length = 88200 ∧ st1.to_play.length = 88200 := by
  refine ⟨reverb_queue_of_gap _ _ (by decide), by decide, by decide, rfl, rfl, ?_⟩
  have hn : ¬ (nextCurt (euclidHost 2000 0) - nextPrevt (euclidHost 2000 0) afterSkippedFrame
      > freq) := by decide
  obtain ⟨st1, hrun⟩ := reverb_queue_ok (euclidHost 2000 0) afterSkippedFrame hn (by decide)
    (Or.inl (by decide)) (Or.inl (by decide))
  obtain ⟨l1, l2, _⟩ := reverb_queue_shape _ _ st1 hn hrun
  have hc : nextCurt (euclidHost 2000 0) = 88200 := by decide
  rw [hc] at l1 l2
  exact ⟨st1, hrun, by omega, by omega⟩

/-- C4, amended: when the call computes `prevt = curt` equal to the old `curt` and both
`sndbuffer` and `to_play` have length `curt` before the call (as they have after every frame
that was not skipped), the call returns and leaves `sndbuffer` and `to_play` as they were. -/
theorem reverb_queue_no_elapsed (h : Host) (st : State) (hsame : nextCurt h = st.curt)
    (hl1 : (st.sndbuffer.length : Int) = st.curt) (hl2 : (st.to_play.length : Int) = st.curt) :
    nextPrevt h st = nextCurt h ∧
    ∃ st1, reverb_queue h st = some st1 ∧ st1.sndbuffer = st.sndbuffer ∧
      st1.to_play = st.to_play := by
  have hp : nextPrevt h st = nextCurt h := by
    unfold nextPrevt
    rw [if_neg (by omega)]
    exact hsame.symm
  obtain ⟨infos, buf0, tp0, e0, e3, hrun⟩ := reverb_queue_no_elapsed_steps h st hsame (by omega)
  rw [resize_same _ _ _ hl1] at e0
  rw [resize_same _ _ _ hl2] at e3
  cases e0
  cases e3
  exact ⟨hp, _, hrun, rfl, rfl⟩

/-- C4 amended, at a second call at the same millisecond as the first frame. -/
theorem reverb_queue_no_elapsed_witness :
    ∃ st1, reverb_queue (euclidHost 1 1) afterFirstFrame = some st1 ∧
      st1.sndbuffer = afterFirstFrame.sndbuffer ∧ st1.to_play = afterFirstFrame.to_play :=
  (reverb_queue_no_elapsed (euclidHost 1 1) afterFirstFrame (by decide!) (by decide!)
    (by decide!)).2

/-- C10, counterexample: after the first frame `sndbuffer` has 44 slots; a call with the clock
back at 0 milliseconds is not skipped and resizes `sndbuffer` to `curt = 0`, so the timeline
shrinks from 44 slots to none. -/
theorem reverb_queue_backward_clock_shrinks :
    afterFirstFrame.sndbuffer.length = 44 ∧
    (reverb_queue (euclidHost 0 1) afterFirstFrame).map (fun s => s.sndbuffer.length) =
      some 0 := by
  decide!

/-- C10, amended: a skipped call leaves `sndbuffer` as it is; a call that is not skipped
resizes it to exactly `curt` (at least the old length unless the clock went back below it, and
then the timeline is cut), leaves every old slot below `prevt` unchanged, and mixes into the
resized vector, in which every slot past the old length is `(0, 0)`. -/
theorem reverb_queue_timeline_resized (h : Host) (st st1 : State)
    (hrun : reverb_queue h st = some st1) :
    (nextCurt h - nextPrevt h st > freq → st1.sndbuffer = st.sndbuffer) ∧
    (¬ (nextCurt h - nextPrevt h st > freq) →
      (st1.sndbuffer.length : Int) = nextCurt h ∧
      ((st.sndbuffer.length : Int) ≤ nextCurt h → st.sndbuffer.length ≤ st1.sndbuffer.length) ∧
      (∀ j : Nat, (j : Int) < nextPrevt h st → j < st.sndbuffer.length →
        st1.sndbuffer[j]? = st.sndbuffer[j]?) ∧
      ∃ buf0, resize st.sndbuffer (nextCurt h) (0, 0) = some buf0 ∧
        mixCells h (tick h st) st.infos buf0 = some (st1.infos, st1.sndbuffer) ∧
        ∀ j : Nat, st.sndbuffer.length ≤ j → (j : Int) < nextCurt h →
          buf0[j]? = some (0, 0)) := by
  constructor
  · intro hgap
    rw [reverb_queue_of_gap h st hgap] at hrun
    cases hrun
    rfl
  · intro hn
    obtain ⟨l1, _, _, _, _⟩ := reverb_queue_shape h st st1 hn hrun
    obtain ⟨buf0, infos, buf, maxsnd, tp0, tp, e0, e1, _, _, _, rfl⟩ :=
      reverb_queue_steps h st st1 hn hrun
    have hs := mixCells_sameOutside h (tick h st) st.infos buf0 _ e1
    have hple := nextPrevt_le h st
    refine ⟨l1, fun hle => by omega, ?_, buf0, e0, e1, ?_⟩
    · intro j hj hjl
      show buf[j]? = st.sndbuffer[j]?
      have h1 : buf[j]? = buf0[j]? := hs.2 j (Or.inl hj)
      rw [h1, resize_getElem? _ _ _ _ e0 j, if_pos (by omega), if_pos hjl]
    · intro j hj1 hj2
      rw [resize_getElem? _ _ _ _ e0 j, if_pos hj2, if_neg (by omega)]

/-- C10 amended, at the second frame (2 milliseconds) after the first one (1 millisecond). -/
theorem reverb_queue_timeline_resized_witness :
    ∃ st1, reverb_queue (euclidHost 2 1) afterFirstFrame = some st1 ∧
      (st1.sndbuffer.length : Int) = 88 ∧
      afterFirstFrame.sndbuffer.length ≤ st1.sndbuffer.length := by
  have hs : (reverb_queue (euclidHost 2 1) afterFirstFrame).isSome = true := by decide!
  obtain ⟨st1, h1⟩ := Option.isSome_iff_exists.mp hs
  have h2 := (reverb_queue_timeline_resized (euclidHost 2 1) afterFirstFrame st1 h1).2
    (by decide!)
  have l44 : (afterFirstFrame.sndbuffer.length : Int) = 44 := by decide!
  have c88 : nextCurt (euclidHost 2 1) = 88 := by decide
  exact ⟨st1, h1, by rw [h2.1, c88], h2.2.1 (by rw [l44, c88]; decide)⟩

/-- C7, counterexample: in the scenario of the claim with the cell recorded at the binaural
distances `(1/20, 1/20)` (the listener's own cell, ears at the inter-aural distance), the gain
is `1 / (1/20) = 20` capped to 5, and the first frame leaves `sndbuffer[0] = (500, -500)` and
`sndbuffer[1] = (1000, -1000)`, not the source samples `(100, -100)` and `(200, -200)`. -/
theorem reverb_queue_passthrough_counterexample :
    (passthroughState (1 / 20, 1 / 20)).orig = specTrack ∧
    (passthroughState (1 / 20, 1 / 20)).absorption = 0 ∧
    (passthroughState (1 / 20, 1 / 20)).speed_of_sound = 0 ∧
    (euclidHost 1 0).sphere = false ∧
    (reverb_queue (euclidHost 1 0) (passthroughState (1 / 20, 1 / 20))).map
        (fun s => s.sndbuffer.take 2) =
      some [((500 : ℚ), (-500 : ℚ)), ((1000 : ℚ), (-1000 : ℚ))] := by
  decide!

/-- C7, amended: in the scenario of the claim (`specTrack`, `speed_of_sound = 0`, not a
sphere, exactly one contributing cell among the tracked cells, recorded in the current frame
at topological distance 0, where the base of the attenuation is 1 whatever the absorption), a
frame that is not skipped returns, and every slot `i` of `[prevt, curt)` holds the source
sample `orig[i mod 4]` times the gain `lerp(att0[ch], att1[ch], a)`, where the attenuations
are `1 / sin_auto` of the binaural distances capped at 5 (5 at a zero spreading factor, where
the quotient is infinite); it is the source sample itself when `sin_auto` is 1 at both
recorded distances. -/
theorem reverb_queue_passthrough (h : Host) (st : State) (c : Nat) (p : cellinfo)
    (pre post : List (Nat × cellinfo))
    (htrack : st.orig = specTrack) (hspeed : st.speed_of_sound = 0)
    (hgeo : h.sphere = false) (hin : st.infos = pre ++ (c, p) :: post)
    (hothers : ∀ q ∈ pre ++ post, ¬ Heard h st q.1 q.2)
    (hdist : h.celldistance c = 0) (hvis : p.curframe = st.frameid)
    (hgap : ¬ (nextCurt h - nextPrevt h st > freq)) (hc : 0 ≤ st.curt) (hcur : 0 ≤ nextCurt h)
    (hlen : (st.sndbuffer.length : Int) ≤ st.curt) :
    (∃ st1, reverb_queue h st = some st1 ∧
      ∀ i : Nat, nextPrevt h st ≤ (i : Int) → (i : Int) < nextCurt h →
        ∃ v o, st1.sndbuffer[i]? = some v ∧ specTrack[i % 4]? = some o ∧
          ∀ ch, ch < 2 →
            get2 v ch = (o.get ch : ℚ) *
              lerp (att h 1 (get2 (gapReset p).lastdist ch)) (att h 1 (get2 p.curdist ch))
                (ilerp (nextPrevt h st : ℚ) (nextCurt h : ℚ) ((i : Int) : ℚ)) ∧
            (h.sin_auto (get2 (gapReset p).lastdist ch) = 1 →
              h.sin_auto (get2 p.curdist ch) = 1 → get2 v ch = (o.get ch : ℚ))) ∧
    (∀ d : ℚ, attLd h 1 d = Ld.num (att h 1 d) ∧
      att h 1 d = if h.sin_auto d = 0 then 5 else cap5 (1 / h.sin_auto d)) := by
  have hple := nextPrevt_le h st
  have hp0 : 0 ≤ nextPrevt h st := by
    unfold nextPrevt; split <;> omega
  have horig : (tick h st).orig ≠ [] := by
    show st.orig ≠ []
    rw [htrack]; decide
  have hatt : ∀ d : ℚ, attLd h 1 d = Ld.num (att h 1 d) ∧
      att h 1 d = if h.sin_auto d = 0 then 5 else cap5 (1 / h.sin_auto d) := by
    intro d
    refine ⟨attLd_of_pos h 1 d one_pos, ?_⟩
    by_cases hs : h.sin_auto d = 0
    · rw [if_pos hs, att_of_zero h 1 d hs one_pos]
    · rw [if_neg hs, att_of_ne h 1 d hs]
  refine ⟨?_, hatt⟩
  have hcell : ∀ buf : List (ℚ × ℚ), (buf.length : Int) = nextCurt h →
      ∃ p1, mixCell h (tick h st) c p buf =
        some (p1,
          updRange (addImage h (tick h st) (gapReset p) 0 (attBase (tick h st).absorption 0 0))
            (nextPrevt h st) (nextCurt h) buf) := by
    intro buf hb
    refine ⟨settled (gapReset p), ?_⟩
    rw [mixCell_near h (tick h st) c p buf hvis hdist, hgeo]
    simp only [Bool.false_eq_true, if_false]
    rw [forLoop_succ, mixImage_eq h (tick h st) 0 (gapReset p) 0 buf horig hp0
      (by show nextCurt h ≤ _; omega) hple]
    rfl
  obtain ⟨st1, hrun, hval⟩ :=
    reverb_queue_one_heard h st c p pre post _ hin hothers hgap hc hcur hlen hcell
  refine ⟨st1, hrun, ?_⟩
  intro i hi1 hi2
  have hmod : i % 4 < specTrack.length := Nat.mod_lt i (by decide)
  obtain ⟨o, ho⟩ : ∃ o, specTrack[i % 4]? = some o :=
    ⟨_, List.getElem?_eq_getElem hmod⟩
  have ho' : (tick h st).orig[i % (tick h st).orig.length]? = some o := by
    show st.orig[i % st.orig.length]? = some o
    rw [htrack]; exact ho
  have hb : attBase (tick h st).absorption 0 0 = 1 := attBase_zero _
  have hgq : (gapReset p).curdist = p.curdist := by
    unfold gapReset; split <;> rfl
  refine ⟨_, o, hval i hi1 hi2, ho, ?_⟩
  intro ch hch
  have hterm := mixTerm_no_delay h (tick h st) (gapReset p) 0 1 ch i o hspeed ho'
  have hget : get2 (addImage h (tick h st) (gapReset p) 0 (attBase (tick h st).absorption 0 0)
      (i : Int) (0, 0)) ch = mixTerm h (tick h st) (gapReset p) 0 1 ch (i : Int) := by
    rw [hb]
    have h01 : ch = 0 ∨ ch = 1 := by omega
    rcases h01 with rfl | rfl <;> simp [addImage, get2]
  rw [hget, hterm]
  have hg : gain h 1 (gapReset p) ch
      (ilerp ((tick h st).prevt : ℚ) ((tick h st).curt : ℚ) ((i : Int) : ℚ)) =
      lerp (att h 1 (get2 (gapReset p).lastdist ch)) (att h 1 (get2 p.curdist ch))
        (ilerp (nextPrevt h st : ℚ) (nextCurt h : ℚ) ((i : Int) : ℚ)) := by
    simp only [gain, hgq]
    rfl
  rw [hg]
  refine ⟨rfl, ?_⟩
  intro h1 h2
  have n1 : h.sin_auto (get2 (gapReset p).lastdist ch) ≠ 0 := by rw [h1]; exact one_ne_zero
  have n2 : h.sin_auto (get2 p.curdist ch) ≠ 0 := by rw [h2]; exact one_ne_zero
  rw [att_of_ne h 1 _ n1, att_of_ne h 1 _ n2, h1, h2]
  simp [cap5, lerp]

/-- C7 amended, at the first frame of the scenario with the cell at the binaural distances
`(1, 1)`, where `sin_auto` is 1, and a second tracked cell that was last recorded in frame 9
and does not contribute: slot 1 holds the source sample `(200, -200)`. -/
theorem reverb_queue_passthrough_witness :
    ∃ st1, reverb_queue (euclidHost 1 0)
        { passthroughState (1, 1) with
          infos := [] ++ (0, { lastframe := 0, curframe := 10, lastdist := (0, 0),
                               curdist := (1, 1) }) ::
                    [(1, { lastframe := 8, curframe := 9, lastdist := (3, 3),
                           curdist := (2, 2) })] } = some st1 ∧
      ∃ v, st1.sndbuffer[1]? = some v ∧ get2 v 0 = 200 ∧ get2 v 1 = -200 := by
  obtain ⟨⟨st1, hrun, hval⟩, _⟩ :=
    reverb_queue_passthrough (euclidHost 1 0)
      { passthroughState (1, 1) with
        infos := [] ++ (0, { lastframe := 0, curframe := 10, lastdist := (0, 0),
                             curdist := (1, 1) }) ::
                  [(1, { lastframe := 8, curframe := 9, lastdist := (3, 3),
                         curdist := (2, 2) })] }
      0 { lastframe := 0, curframe := 10, lastdist := (0, 0), curdist := (1, 1) } []
      [(1, { lastframe := 8, curframe := 9, lastdist := (3, 3), curdist := (2, 2) })]
      rfl rfl rfl rfl
      (by
        intro q hq
        simp only [List.nil_append, List.mem_singleton] at hq
        subst hq
        intro hh
        exact absurd hh.1 (by decide))
      rfl rfl (by decide) (by decide) (by decide) (by decide)
  obtain ⟨v, o, hv, ho, hch⟩ := hval 1 (by decide) (by decide)
  have ho1 : o = ⟨200, -200⟩ := by
    have : specTrack[1 % 4]? = some (⟨200, -200⟩ : sample) := by decide
    rw [this] at ho
    exact (Option.some.inj ho).symm
  subst ho1
  refine ⟨st1, hrun, v, hv, ?_, ?_⟩
  · have := (hch 0 (by decide)).2 (by decide!) (by decide!)
    rw [this]; decide!
  · have := (hch 1 (by decide)).2 (by decide!) (by decide!)
    rw [this]; decide!

theorem cap5_of_le (x : ℚ) (hx : x ≤ 5) : cap5 x = x := by
  unfold cap5
  rw [if_neg (by linarith)]

theorem attBase_image (a : ℚ) (k : Nat) :
    attBase a 0 (k : Int) = attBase a 0 0 * (1 - a) ^ (3 * k) := by
  have e : (0 : Int) + 3 * (k : Int) = ((3 * k : Nat) : Int) := by push_cast; ring
  simp only [attBase, e, zpow_natCast]
  simp

/-- C6, counterexample.  The cap: on the sphere with absorption `1/2` and a cell at the
binaural distances `(1/100, 1/100)`, the attenuation of image 0 is `1 / sin_auto(1/100)`,
about 100, capped to 5, and that of image 1 is `(1/8) / sin_auto(1/100)`, about 12.5, capped
to 5 as well: the gain of image 1 is 5, not the gain of image 0 times `(1 - 1/2)^3`, which is
`5/8`; this is so for every spreading factor in `(0, 1/40]`.  The moving cell: in
`movingState` the cell was mixed at the distances `(1, 1)` and is now recorded at `(1/2, 1/2)`;
in the second mix step, at 1 millisecond, image 0 interpolates from the attenuation at
`lastdist`, lines 146-147 then overwrite `lastdist`, and the images 1 to 9 are mixed with the
attenuation at `curdist` alone: slot 0, the first of the step, gets 100 times the gain of image
0 for `movingCell` plus the gains of the images 1 to 9 for the cell with `lastdist = curdist`,
and the gain of image 1 is not that of image 0 times `(1 - 1/2)^3`, for every host in which
neither attenuation is capped and the two spreading factors differ. -/
theorem sphere_image_gain_counterexample :
    (gain (sphereHost 1) (attBase (1 / 2) 0 0) (gapReset stillCell) 0 0 = 5 ∧
     gain (sphereHost 1) (attBase (1 / 2) 0 1) (gapReset stillCell) 0 0 = 5 ∧
     gain (sphereHost 1) (attBase (1 / 2) 0 1) (gapReset stillCell) 0 0 ≠
       gain (sphereHost 1) (attBase (1 / 2) 0 0) (gapReset stillCell) 0 0 *
         (1 - 1 / 2 : ℚ) ^ (3 * 1)) ∧
    (∀ h : Host, 0 < h.sin_auto (1 / 100) → h.sin_auto (1 / 100) ≤ 1 / 40 →
      gain h (attBase (1 / 2) 0 0) (gapReset stillCell) 0 0 = 5 ∧
      gain h (attBase (1 / 2) 0 1) (gapReset stillCell) 0 0 = 5) ∧
    (movingState.infos = [(0, movingCell)] ∧ movingState.frameid = 11 ∧
     movingState.curt = 0 ∧ movingState.absorption = 1 / 2 ∧
     gapReset movingCell = movingCell) ∧
    (reverb_queue (sphereHost 1) movingState).map
        (fun s => (s.sndbuffer[0]?).map (fun v => v.1)) =
      some (some (100 * (gain (sphereHost 1) (attBase (1 / 2) 0 0) movingCell 0 0 +
        ((List.range 9).map (fun (k : Nat) =>
          gain (sphereHost 1) (attBase (1 / 2) 0 ((k : Int) + 1))
            (imageCell movingCell (k + 1)) 0 0)).sum))) ∧
    (gain (sphereHost 1) (attBase (1 / 2) 0 0) movingCell 0 0 = 6 / 5 ∧
     gain (sphereHost 1) (attBase (1 / 2) 0 1) (imageCell movingCell 1) 0 0 = 6 / 23 ∧
     gain (sphereHost 1) (attBase (1 / 2) 0 1) (imageCell movingCell 1) 0 0 ≠
       gain (sphereHost 1) (attBase (1 / 2) 0 0) movingCell 0 0 * (1 - 1 / 2 : ℚ) ^ (3 * 1)) ∧
    (∀ h : Host, 1 / 5 ≤ h.sin_auto 1 → 1 / 5 ≤ h.sin_auto (1 / 2) →
      h.sin_auto 1 ≠ h.sin_auto (1 / 2) →
      gain h (attBase (1 / 2) 0 1) (imageCell movingCell 1) 0 0 ≠
        gain h (attBase (1 / 2) 0 0) movingCell 0 0 * (1 - 1 / 2 : ℚ) ^ (3 * 1)) := by
  refine ⟨?c1, ?c2, ?c3, ?c4, ?c5, ?c6⟩
  case c1 => decide!
  case c3 => decide!
  case c4 => decide!
  case c5 => decide!
  case c2 =>
    intro h hpos hle
    have hb0 : attBase (1 / 2) 0 0 = 1 := by decide!
    have hb1 : attBase (1 / 2) 0 1 = 1 / 8 := by decide!
    have hd : ∀ ch, get2 (gapReset stillCell).lastdist ch = 1 / 100 ∧
        get2 (gapReset stillCell).curdist ch = 1 / 100 := by
      intro ch
      by_cases hch : ch = 0 <;> simp [gapReset, stillCell, get2, hch]
    have c0 : cap5 (1 / h.sin_auto (1 / 100)) = 5 := by
      unfold cap5
      rw [if_pos]
      rw [gt_iff_lt, lt_div_iff₀ hpos]
      linarith
    have c1 : cap5 (1 / 8 / h.sin_auto (1 / 100)) = 5 := by
      unfold cap5
      split_ifs with hgt
      · rfl
      · have h1 : 5 ≤ 1 / 8 / h.sin_auto (1 / 100) := by
          rw [le_div_iff₀ hpos]
          linarith
        linarith
    simp only [gain, (hd 0).1, (hd 0).2, att_of_ne h _ _ hpos.ne', hb0, hb1, c0, c1, lerp_self,
      and_self]
  case c6 =>
    intro h h1 h2 hne
    have hb0 : attBase (1 / 2) 0 0 = 1 := by decide!
    have hb1 : attBase (1 / 2) 0 1 = 1 / 8 := by decide!
    have p1 : 0 < h.sin_auto 1 := by linarith
    have p2 : 0 < h.sin_auto (1 / 2) := by linarith
    have e0 : get2 movingCell.lastdist 0 = 1 := rfl
    have e1 : get2 (imageCell movingCell 1).lastdist 0 = 1 / 2 := rfl
    have e2 : get2 (imageCell movingCell 1).curdist 0 = 1 / 2 := rfl
    have c0 : cap5 (1 / h.sin_auto 1) = 1 / h.sin_auto 1 := by
      apply cap5_of_le
      rw [div_le_iff₀ p1]
      linarith
    have c1 : cap5 (1 / 8 / h.sin_auto (1 / 2)) = 1 / 8 / h.sin_auto (1 / 2) := by
      apply cap5_of_le
      rw [div_le_iff₀ p2]
      linarith
    simp only [gain, e0, e1, e2, att_of_ne h _ _ p1.ne', att_of_ne h _ _ p2.ne', hb0, hb1, c0,
      c1, lerp_self, lerp, mul_zero, add_zero]
    intro heq
    apply hne
    field_simp at heq
    linarith

/-- C6, amended: on the sphere, for a contributing cell among the tracked cells, recorded in
the current frame at topological distance 0, a frame that is not skipped returns, and the loop
body of the cell adds to every slot of `[prevt, curt)` the sum of exactly 10 image terms
(`s = 0..9`), each the source sample at the delayed index times the gain of the image (image 0
for the cell as line 112 leaves it, the images after it for the cell as the loop then has
it); the base of image `k` is the base of image 0 times `(1 - absorption)^(3k)`; and for a
cell whose `lastdist` equals its `curdist` once line 112 has run, the ten terms are those of
that one cell, and the gain of image `k` is the gain of image 0 times `(1 - absorption)^(3k)`
when the attenuation of image 0 is not capped (absorption in `[0, 1]`, a spreading factor
other than 0, `base / sin_auto` at most 5).  For an absorption below 1 every attenuation is a
number. -/
theorem reverb_queue_sphere_images (h : Host) (st : State) (c : Nat) (p : cellinfo)
    (pre post : List (Nat × cellinfo))
    (hgeo : h.sphere = true) (hin : st.infos = pre ++ (c, p) :: post)
    (hdist : h.celldistance c = 0) (hvis : p.curframe = st.frameid) (horig : st.orig ≠ [])
    (hgap : ¬ (nextCurt h - nextPrevt h st > freq)) (hc : 0 ≤ st.curt)
    (hcur : 0 ≤ nextCurt h) :
    (∃ st1 buf0 pre1 buf1 p1 buf2 post1,
      reverb_queue h st = some st1 ∧
      resize st.sndbuffer (nextCurt h) (0, 0) = some buf0 ∧
      mixCells h (tick h st) pre buf0 = some (pre1, buf1) ∧
      mixCell h (tick h st) c p buf1 = some (p1, buf2) ∧
      mixCells h (tick h st) post buf2 = some (post1, st1.sndbuffer) ∧
      ∀ i : Nat, nextPrevt h st ≤ (i : Int) → (i : Int) < nextCurt h →
        ∃ v w, buf1[i]? = some v ∧ buf2[i]? = some w ∧
          ∀ ch, ch < 2 → get2 w ch = get2 v ch +
            (mixTerm h (tick h st) (gapReset p) 0 (attBase st.absorption 0 0) ch i +
              imageSum h (tick h st) (settled (gapReset p)) 0 ch i 1 9)) ∧
    (∀ k : Nat,
      attBase st.absorption 0 k = attBase st.absorption 0 0 * (1 - st.absorption) ^ (3 * k)) ∧
    ((gapReset p).lastdist = p.curdist →
      (∀ (ch : Nat) (i : Int),
        mixTerm h (tick h st) (gapReset p) 0 (attBase st.absorption 0 0) ch i +
            imageSum h (tick h st) (settled (gapReset p)) 0 ch i 1 9 =
          imageSum h (tick h st) (gapReset p) 0 ch i 0 10) ∧
      ∀ (k ch : Nat) (a : ℚ), 0 ≤ st.absorption → st.absorption ≤ 1 →
        h.sin_auto (get2 p.curdist ch) ≠ 0 →
        attBase st.absorption 0 0 / h.sin_auto (get2 p.curdist ch) ≤ 5 →
        gain h (attBase st.absorption 0 k) (imageCell (gapReset p) k) ch a =
          gain h (attBase st.absorption 0 0) (gapReset p) ch a *
            (1 - st.absorption) ^ (3 * k)) ∧
    (∀ (k : Nat) (d : ℚ), st.absorption < 1 →
      attLd h (attBase st.absorption 0 k) d = Ld.num (att h (attBase st.absorption 0 k) d)) := by
  have hple := nextPrevt_le h st
  have hp0 : 0 ≤ nextPrevt h st := by
    unfold nextPrevt; split <;> omega
  have hgq : (gapReset p).curdist = p.curdist := by
    unfold gapReset; split <;> rfl
  refine ⟨?_, fun k => attBase_image _ k, ?_,
    fun k d ha => attLd_of_pos h _ d (attBase_pos _ _ _ ha)⟩
  · obtain ⟨st1, hrun⟩ := reverb_queue_ok h st hgap hcur (Or.inl hc) (Or.inl horig)
    obtain ⟨buf0, infos, buf, maxsnd, tp0, tp, e0, e1, _, _, _, hst1⟩ :=
      reverb_queue_steps h st st1 hgap hrun
    have hbuf : st1.sndbuffer = buf := by rw [hst1]
    rw [hin] at e1
    obtain ⟨pre1, buf1, p1, buf2, post1, e_pre, e_cell, e_post, _⟩ :=
      mixCells_split h (tick h st) c p pre post buf0 _ e1
    have l0 := resize_length _ _ _ _ e0
    have l1 : buf1.length = buf0.length :=
      (mixCells_sameOutside h (tick h st) pre buf0 _ e_pre).1
    obtain ⟨q1, eimg⟩ := mixImages_eq h (tick h st) 0 horig hp0 hple 9 (gapReset p) buf1
      (by show nextCurt h ≤ _; omega)
    have enear := mixCell_near h (tick h st) c p buf1 hvis hdist
    rw [hgeo] at enear
    simp only [if_true] at enear
    have e_both := e_cell
    rw [enear, eimg] at e_both
    simp only [Option.some.injEq, Prod.mk.injEq] at e_both
    obtain ⟨_, hb2⟩ := e_both
    refine ⟨st1, buf0, pre1, buf1, p1, buf2, post1, hrun, e0, e_pre, e_cell,
      by rw [hbuf]; exact e_post, ?_⟩
    intro i hi1 hi2
    have hil : i < buf1.length := by omega
    have hi' : (tick h st).prevt ≤ (i : Int) ∧ (i : Int) < (tick h st).curt := ⟨hi1, hi2⟩
    have hw := congrArg (fun b => b[i]?) hb2.symm
    simp only [updRange_getElem?, List.getElem?_eq_getElem hil, Option.map_some',
      if_pos hi'] at hw
    refine ⟨buf1[i], _, List.getElem?_eq_getElem hil, hw, ?_⟩
    intro ch hch
    have h01 : ch = 0 ∨ ch = 1 := by omega
    rcases h01 with rfl | rfl
    · rfl
    · rfl
  · intro hstill
    have hst : (gapReset p).lastdist = (gapReset p).curdist := by rw [hstill, hgq]
    constructor
    · intro ch i
      rw [imageSum_settled h (tick h st) (gapReset p) 0 ch i 1 9 hst]
      have e := imageSum_succ h (tick h st) (gapReset p) 0 ch i 0 9
      simp only [zero_add] at e
      rw [e]
      rfl
    · intro k ch a ha0 ha1 hne hle
      have hr0 : 0 ≤ 1 - st.absorption := by linarith
      have hr1 : 1 - st.absorption ≤ 1 := by linarith
      have hpow0 : 0 ≤ (1 - st.absorption) ^ (3 * k) := pow_nonneg hr0 _
      have hpow1 : (1 - st.absorption) ^ (3 * k) ≤ 1 := pow_le_one₀ hr0 hr1
      have hb0 : attBase st.absorption 0 0 = 1 := attBase_zero _
      have hk : attBase st.absorption 0 (k : Int) / h.sin_auto (get2 p.curdist ch) =
          attBase st.absorption 0 0 / h.sin_auto (get2 p.curdist ch) *
            (1 - st.absorption) ^ (3 * k) := by
        rw [attBase_image]; ring
      have hkle : attBase st.absorption 0 (k : Int) / h.sin_auto (get2 p.curdist ch) ≤ 5 := by
        rw [hk]
        by_cases hq0 : 0 ≤ attBase st.absorption 0 0 / h.sin_auto (get2 p.curdist ch)
        · calc attBase st.absorption 0 0 / h.sin_auto (get2 p.curdist ch) *
                  (1 - st.absorption) ^ (3 * k)
              ≤ attBase st.absorption 0 0 / h.sin_auto (get2 p.curdist ch) * 1 :=
                mul_le_mul_of_nonneg_left hpow1 hq0
            _ ≤ 5 := by rw [mul_one]; exact hle
        · have hneg : attBase st.absorption 0 0 / h.sin_auto (get2 p.curdist ch) *
              (1 - st.absorption) ^ (3 * k) ≤ 0 :=
            mul_nonpos_of_nonpos_of_nonneg (by linarith) hpow0
          linarith
      have hic : (imageCell (gapReset p) k).lastdist = p.curdist ∧
          (imageCell (gapReset p) k).curdist = p.curdist := by
        unfold imageCell
        split
        · exact ⟨hstill, hgq⟩
        · exact ⟨hgq, hgq⟩
      simp only [gain, hic.1, hic.2, hstill, hgq, lerp_self, att_of_ne h _ _ hne,
        cap5_of_le _ hkle, cap5_of_le _ hle]
      exact hk

/-- C6 amended, at the first frame on the sphere with absorption `1/2` and two contributing
cells, for the second of them, at the binaural distances `(1, 1)`, where no attenuation is
capped. -/
theorem reverb_queue_sphere_images_witness :
    (∃ (st1 : State) (pre1 : List (Nat × cellinfo)) (buf0 buf1 buf2 : List (ℚ × ℚ))
        (p1 : cellinfo),
      reverb_queue (sphereHost 1) twoCellState = some st1 ∧
      resize twoCellState.sndbuffer (nextCurt (sphereHost 1)) (0, 0) = some buf0 ∧
      mixCells (sphereHost 1) (tick (sphereHost 1) twoCellState)
        [(0, { lastframe := 0, curframe := 10, lastdist := (0, 0), curdist := (1 / 2, 1 / 2) })]
        buf0 = some (pre1, buf1) ∧
      mixCell (sphereHost 1) (tick (sphereHost 1) twoCellState) 1
        { lastframe := 0, curframe := 10, lastdist := (0, 0), curdist := (1, 1) } buf1 =
          some (p1, buf2) ∧
      st1.sndbuffer = buf2 ∧
      ∃ v w, buf1[0]? = some v ∧ buf2[0]? = some w ∧
        get2 w 0 = get2 v 0 +
          (mixTerm (sphereHost 1) (tick (sphereHost 1) twoCellState)
              (gapReset { lastframe := 0, curframe := 10, lastdist := (0, 0), curdist := (1, 1) })
              0 (attBase twoCellState.absorption 0 0) 0 0 +
            imageSum (sphereHost 1) (tick (sphereHost 1) twoCellState)
              (settled (gapReset { lastframe := 0, curframe := 10, lastdist := (0, 0),
                                   curdist := (1, 1) })) 0 0 0 1 9)) ∧
    gain (sphereHost 1) (attBase (1 / 2) 0 1)
        (imageCell (gapReset { lastframe := 0, curframe := 10, lastdist := (0, 0),
                               curdist := (1, 1) }) 1) 0 0 =
      gain (sphereHost 1) (attBase (1 / 2) 0 0)
        (gapReset { lastframe := 0, curframe := 10, lastdist := (0, 0), curdist := (1, 1) }) 0 0 *
        (1 - 1 / 2 : ℚ) ^ (3 * 1) := by
  have key := reverb_queue_sphere_images (sphereHost 1) twoCellState 1
    { lastframe := 0, curframe := 10, lastdist := (0, 0), curdist := (1, 1) }
    [(0, { lastframe := 0, curframe := 10, lastdist := (0, 0), curdist := (1 / 2, 1 / 2) })] []
    rfl rfl rfl rfl (by decide) (by decide) (by decide) (by decide)
  obtain ⟨⟨st1, buf0, pre1, buf1, p1, buf2, post1, hrun, e0, e1, e2, e3, hval⟩, _, hgain, _⟩ :=
    key
  obtain ⟨v, w, hv, hw, hch⟩ := hval 0 (by decide) (by decide)
  have hlast : st1.sndbuffer = buf2 := by
    simp only [mixCells, Option.some.injEq, Prod.mk.injEq] at e3
    exact e3.2.symm
  refine ⟨⟨st1, pre1, buf0, buf1, buf2, p1, hrun, e0, e1, e2, hlast, v, w, hv, hw,
    hch 0 (by decide)⟩, ?_⟩
  exact (hgain (by decide)).2 1 0 0 (by decide!) (by decide!) (by decide!) (by decide!)

theorem cap5_mono (x y : ℚ) (hxy : x ≤ y) : cap5 x ≤ cap5 y := by
  unfold cap5
  split_ifs <;> linarith

/-- C8: for a positive spreading factor `sin_auto(d)` and every image `s ≥ 0`, the
attenuation `pow(1-absorption, dist + 3*s) / sin_auto(d)` capped at 5 does not increase when
the topological distance grows (absorption in `[0, 1)`, distance at least 0), and for a fixed
distance does not increase when the absorption grows. -/
theorem att_antitone (h : Host) (d : ℚ) (s : Int) (hpos : 0 < h.sin_auto d) (hs : 0 ≤ s) :
    (∀ (a : ℚ) (dist1 dist2 : Int), 0 ≤ a → a < 1 → 0 ≤ dist1 → dist1 ≤ dist2 →
      att h (attBase a dist2 s) d ≤ att h (attBase a dist1 s) d) ∧
    (∀ (a1 a2 : ℚ) (dist : Int), 0 ≤ a1 → a1 ≤ a2 → a2 < 1 → 0 ≤ dist →
      att h (attBase a2 dist s) d ≤ att h (attBase a1 dist s) d) := by
  constructor
  · intro a dist1 dist2 ha0 ha1 _ h12
    rw [att_of_ne h _ d hpos.ne', att_of_ne h _ d hpos.ne']
    apply cap5_mono
    apply div_le_div_of_nonneg_right _ hpos.le
    exact zpow_le_zpow_right_of_le_one₀ (by linarith) (by linarith) (by omega)
  · intro a1 a2 dist h0 h12 h1 hd
    rw [att_of_ne h _ d hpos.ne', att_of_ne h _ d hpos.ne']
    apply cap5_mono
    apply div_le_div_of_nonneg_right _ hpos.le
    obtain ⟨n, hn⟩ := Int.eq_ofNat_of_zero_le (show 0 ≤ dist + 3 * s by omega)
    simp only [attBase, hn, zpow_natCast]
    exact pow_le_pow_left₀ (by linarith) (by linarith) n

/-- C8, in Euclidean geometry at binaural distance 2 (spreading factor 2): the attenuation at
topological distance 2 is at most that at distance 1 for absorption `1/10`, and at distance 1
the attenuation for absorption `1/2` is at most that for absorption `1/10`. -/
theorem att_antitone_witness :
    att (euclidHost 1 0) (attBase (1 / 10) 2 0) 2 ≤ att (euclidHost 1 0) (attBase (1 / 10) 1 0) 2 ∧
    att (euclidHost 1 0) (attBase (1 / 2) 1 0) 2 ≤ att (euclidHost 1 0) (attBase (1 / 10) 1 0) 2 :=
  ⟨(att_antitone (euclidHost 1 0) 2 0 (by decide!) (by decide)).1 (1 / 10) 1 2
      (by decide!) (by decide!) (by decide) (by decide),
   (att_antitone (euclidHost 1 0) 2 0 (by decide!) (by decide)).2 (1 / 10) (1 / 2) 1
      (by decide!) (by decide!) (by decide!) (by decide)⟩

/-- C9 (the code departs from the claim): the guard of `myAudio` compares the number of
samples in `to_play` with `current_sample + len`, where `len` is still the length in bytes.
With four samples queued, none consumed, and a request of `len = 8` bytes, that is two
samples, the buffer holds enough samples and high-quality mode is off, yet the callback
copies nothing and leaves `current_sample` at 0. -/
theorem myAudio_guard_counts_bytes :
    (euclidHost 1 0).inHighQual = false ∧
    Int.tdiv 8 4 ≤ (fourQueued.to_play.length : Int) - fourQueued.current_sample ∧
    myAudio (euclidHost 1 0) fourQueued [⟨0, 0⟩, ⟨0, 0⟩] 8 =
      some (fourQueued, [⟨0, 0⟩, ⟨0, 0⟩]) ∧
    myAudio (euclidHost 1 0) fourQueued [⟨0, 0⟩] 4 =
      some ({ fourQueued with current_sample := 1 }, [⟨1, 1⟩]) := by
  decide!

theorem ilerp_range (lo hi i : Int) (h1 : lo ≤ i) (h2 : i < hi) :
    0 ≤ ilerp (lo : ℚ) (hi : ℚ) (i : ℚ) ∧ ilerp (lo : ℚ) (hi : ℚ) (i : ℚ) < 1 := by
  have hlo : (lo : ℚ) ≤ (i : ℚ) := by exact_mod_cast h1
  have hhi : (i : ℚ) < (hi : ℚ) := by exact_mod_cast h2
  have hpos : (0 : ℚ) < (hi : ℚ) - (lo : ℚ) := by linarith
  unfold ilerp
  constructor
  · exact div_nonneg (by linarith) hpos.le
  · rw [div_lt_one hpos]; linarith

/-- When both attenuation endpoints are numbers the gain of a sample of `[prevt, curt)` is a
number, at most 5. -/
theorem gainLd_le_five (h : Host) (st : State) (p : cellinfo) (base : ℚ) (ch : Nat) (i : Int)
    (hi1 : st.prevt ≤ i) (hi2 : i < st.curt)
    (hnum : 0 < base ∨
      (h.sin_auto (get2 p.lastdist ch) ≠ 0 ∧ h.sin_auto (get2 p.curdist ch) ≠ 0)) :
    gainLd h base p ch (ilerp (st.prevt : ℚ) (st.curt : ℚ) (i : ℚ)) =
      Ld.num (gain h base p ch (ilerp (st.prevt : ℚ) (st.curt : ℚ) (i : ℚ))) ∧
    gain h base p ch (ilerp (st.prevt : ℚ) (st.curt : ℚ) (i : ℚ)) ≤ 5 := by
  obtain ⟨ha0, ha1⟩ := ilerp_range st.prevt st.curt i hi1 hi2
  have h0 := att_le_five h base (get2 p.lastdist ch)
  have h1 := att_le_five h base (get2 p.curdist ch)
  have n0 : attLd h base (get2 p.lastdist ch) = Ld.num (att h base (get2 p.lastdist ch)) := by
    rcases hnum with hb | hs
    · exact attLd_of_pos h base _ hb
    · rw [attLd_of_ne h base _ hs.1, att_of_ne h base _ hs.1]
  have n1 : attLd h base (get2 p.curdist ch) = Ld.num (att h base (get2 p.curdist ch)) := by
    rcases hnum with hb | hs
    · exact attLd_of_pos h base _ hb
    · rw [attLd_of_ne h base _ hs.2, att_of_ne h base _ hs.2]
  refine ⟨(gainLd_num h base p ch _ _ _ n0 n1).1, ?_⟩
  simp only [gain, lerp]
  nlinarith [mul_nonneg ha0 (sub_nonneg.mpr h1),
    mul_nonneg (sub_nonneg.mpr ha1.le) (sub_nonneg.mpr h0)]

/-- C15 (the code departs from the claim): the cap of lines 133-134 misses the quotient
`0 / 0`.  With full absorption (`absorption = 1`, a value the source documents) the base of
every image `s ≥ 1` is `pow(0, 3 * s) = 0`; for a cell recorded at the binaural distance 0,
as the cell of the listener is on the sphere when `iad` is 0, the spreading factor is
`sin_auto(0) = 0`: the attenuation of image 0 is `1 / 0`, infinite and capped to 5, and the
attenuation of image 1 is `0 / 0`, NaN, for which the test `att > 5` fails, so that the gain
of every sample is NaN, not a number that is at most 5.  Whenever the base is positive (as it
is for every absorption below 1) or both spreading factors are other than 0, the gain of every
sample of `[prevt, curt)` is a number, at most 5, both attenuation endpoints are at most 5 and
the interpolation parameter lies in `[0, 1)`. -/
theorem gain_nan_at_full_absorption :
    (fullAbsorptionState.infos = [(0, centreCell)] ∧ fullAbsorptionState.absorption = 1 ∧
     (sphereHost 1).sin_auto (get2 centreCell.curdist 0) = 0 ∧
     attBase fullAbsorptionState.absorption 0 0 = 1 ∧
     attBase fullAbsorptionState.absorption 0 1 = 0) ∧
    (attLd (sphereHost 1) (attBase 1 0 0) (get2 (gapReset centreCell).curdist 0) = Ld.num 5 ∧
     attLd (sphereHost 1) (attBase 1 0 1) (get2 (gapReset centreCell).lastdist 0) = Ld.nan ∧
     attLd (sphereHost 1) (attBase 1 0 1) (get2 (gapReset centreCell).curdist 0) = Ld.nan) ∧
    (∀ a : ℚ, gainLd (sphereHost 1) (attBase 1 0 1) (imageCell (gapReset centreCell) 1) 0 a =
        Ld.nan ∧
      Ld.le5 (gainLd (sphereHost 1) (attBase 1 0 1) (imageCell (gapReset centreCell) 1) 0 a) =
        false) ∧
    (∀ (h : Host) (base : ℚ) (p : cellinfo) (ch : Nat) (a : ℚ), base = 0 →
      (h.sin_auto (get2 p.lastdist ch) = 0 ∨ h.sin_auto (get2 p.curdist ch) = 0) →
      gainLd h base p ch a = Ld.nan) ∧
    (∀ (h : Host) (st : State) (p : cellinfo) (dist s : Int) (ch : Nat) (i : Int),
      st.prevt ≤ i → i < st.curt →
      (0 < attBase st.absorption dist s ∨
        (h.sin_auto (get2 p.lastdist ch) ≠ 0 ∧ h.sin_auto (get2 p.curdist ch) ≠ 0)) →
      att h (attBase st.absorption dist s) (get2 p.lastdist ch) ≤ 5 ∧
      att h (attBase st.absorption dist s) (get2 p.curdist ch) ≤ 5 ∧
      0 ≤ ilerp (st.prevt : ℚ) (st.curt : ℚ) (i : ℚ) ∧
      ilerp (st.prevt : ℚ) (st.curt : ℚ) (i : ℚ) < 1 ∧
      gainLd h (attBase st.absorption dist s) p ch
          (ilerp (st.prevt : ℚ) (st.curt : ℚ) (i : ℚ)) =
        Ld.num (gain h (attBase st.absorption dist s) p ch
          (ilerp (st.prevt : ℚ) (st.curt : ℚ) (i : ℚ))) ∧
      gain h (attBase st.absorption dist s) p ch
          (ilerp (st.prevt : ℚ) (st.curt : ℚ) (i : ℚ)) ≤ 5) ∧
    (∀ (a : ℚ) (dist s : Int), a < 1 → 0 < attBase a dist s) := by
  have hnan : ∀ (h : Host) (base : ℚ) (p : cellinfo) (ch : Nat) (a : ℚ), base = 0 →
      (h.sin_auto (get2 p.lastdist ch) = 0 ∨ h.sin_auto (get2 p.curdist ch) = 0) →
      gainLd h base p ch a = Ld.nan := by
    intro h base p ch a hb hs
    subst hb
    unfold gainLd
    rcases hs with hs | hs
    · rw [attLd_nan h _ hs, lerpLd_nan_left]
    · rw [attLd_nan h _ hs, lerpLd_nan_right]
  have hb1 : attBase 1 0 1 = 0 := by decide!
  have hg : ∀ a : ℚ,
      gainLd (sphereHost 1) (attBase 1 0 1) (imageCell (gapReset centreCell) 1) 0 a = Ld.nan := by
    intro a
    exact hnan _ _ _ _ a hb1 (Or.inl (by decide!))
  refine ⟨?c1, ?c2, ?c3, hnan, ?c5, fun a dist s ha => attBase_pos a dist s ha⟩
  case c1 => decide!
  case c2 => decide!
  case c3 =>
    intro a
    refine ⟨hg a, ?_⟩
    rw [hg a]
    rfl
  case c5 =>
    intro h st p dist s ch i hi1 hi2 hnum
    obtain ⟨ha0, ha1⟩ := ilerp_range st.prevt st.curt i hi1 hi2
    obtain ⟨g1, g2⟩ := gainLd_le_five h st p (attBase st.absorption dist s) ch i hi1 hi2 hnum
    exact ⟨att_le_five h _ _, att_le_five h _ _, ha0, ha1, g1, g2⟩

/-- C16: a tracked cell is mixed only if its `curframe` equals `frameid` and, in addition,
high-quality mode is on or its topological distance to the listener's cell is at most 2 (3 on
the sphere).  For a cell that fails this condition the cell loop returns the buffer it was
given and leaves `lastframe` as it was, and the timeline that the frame's cell loop computes
is the one it computes without the cell. -/
theorem mixCell_only_if_heard (h : Host) (st : State) (c : Nat) (p : cellinfo)
    (hno : ¬ (p.curframe = st.frameid ∧
      (h.inHighQual = true ∨ h.celldistance c ≤ (if h.sphere then 3 else 2)))) :
    (∀ buf : List (ℚ × ℚ),
      ∃ p1, mixCell h (tick h st) c p buf = some (p1, buf) ∧ p1.lastframe = p.lastframe) ∧
    (∀ (pre post : List (Nat × cellinfo)) (buf : List (ℚ × ℚ)),
      (mixCells h (tick h st) (pre ++ (c, p) :: post) buf).map (fun r => r.2) =
        (mixCells h (tick h st) (pre ++ post) buf).map (fun r => r.2)) := by
  have hno' : ¬ (p.curframe = (tick h st).frameid ∧
      (h.inHighQual = true ∨ h.celldistance c ≤ (if h.sphere then 3 else 2))) := hno
  constructor
  · intro buf
    obtain ⟨p1, e, hl, _, _⟩ := mixCell_of_not_heard h (tick h st) c p buf hno'
    exact ⟨p1, e, hl⟩
  · intro pre post buf
    rw [mixCells_append, mixCells_append]
    cases mixCells h (tick h st) pre buf with
    | none => rfl
    | some r =>
      obtain ⟨pre1, b1⟩ := r
      obtain ⟨p1, e, _, _, _⟩ := mixCell_of_not_heard h (tick h st) c p b1 hno'
      simp only [mixCells, e]
      cases mixCells h (tick h st) post b1 with
      | none => rfl
      | some r2 => rfl

/-- C16, at a cell recorded in the current frame at topological distance 3 in Euclidean
geometry, high-quality mode off. -/
theorem mixCell_only_if_heard_witness :
    ∃ p1, mixCell (euclidHost 1 3) (tick (euclidHost 1 3) (oneCellState negTrack (1, 1))) 0
        { lastframe := 0, curframe := 10, lastdist := (0, 0), curdist := (1, 1) } [] =
      some (p1, []) ∧ p1.lastframe = 0 :=
  (mixCell_only_if_heard (euclidHost 1 3) (oneCellState negTrack (1, 1)) 0
    { lastframe := 0, curframe := 10, lastdist := (0, 0), curdist := (1, 1) }
    (by decide)).1 []

/-- C17: for a track that is not empty, of length `N`, the read index `tim` of lines 141-143 is
defined, satisfies `0 ≤ tim < N`, is congruent modulo `N` to the truncation of
`i - d * freq * speed_of_sound`, and the read `orig[tim]` is inside the track. -/
theorem readIndex_in_track (orig : List sample) (speed_of_sound : ℚ) (i : Int) (d : ℚ)
    (horig : orig ≠ []) :
    ∃ tim, readIndex orig speed_of_sound i d = some tim ∧ 0 ≤ tim ∧ tim < orig.length ∧
      (tim - truncToInt ((i : ℚ) - d * (freq : ℚ) * speed_of_sound)) % (orig.length : Int) = 0 ∧
      ∃ o, vget orig tim = some o := by
  obtain ⟨tim, htim, h0, h1⟩ := readIndex_bounds orig speed_of_sound i d horig
  obtain ⟨o, ho, _⟩ := vget_isSome orig tim h0 h1
  refine ⟨tim, htim, h0, h1, ?_, o, ho⟩
  have hlen : 0 < orig.length := List.length_pos.mpr horig
  have hne : ¬ ((orig.length : Int) = 0) := by omega
  simp only [readIndex, if_neg hne, Option.some.injEq] at htim
  subst htim
  have hdef := Int.tmod_def (truncToInt ((i : ℚ) - d * (freq : ℚ) * speed_of_sound))
    (orig.length : Int)
  split
  · rw [hdef]
    have e : ∀ (t q n : Int), (t - n * q + n - t) = n * (1 - q) := by intro t q n; ring
    rw [e]
    exact Int.mul_emod_right _ _
  · rw [hdef]
    have e : ∀ (t q n : Int), (t - n * q - t) = n * (-q) := by intro t q n; ring
    rw [e]
    exact Int.mul_emod_right _ _

/-- C17, at the track of the specification, sample 5, distance 1 and the initial speed of
sound: the truncation is `5 - 11025 = -11020`, and the read index is 0. -/
theorem readIndex_in_track_witness :
    ∃ tim, readIndex specTrack (1 / 4) 5 1 = some tim ∧ 0 ≤ tim ∧ tim < specTrack.length ∧
      (tim - truncToInt (((5 : Int) : ℚ) - 1 * (freq : ℚ) * (1 / 4))) %
        (specTrack.length : Int) = 0 ∧
      ∃ o, vget specTrack tim = some o :=
  readIndex_in_track specTrack (1 / 4) 5 1 (by decide)

theorem set_take_drop {α : Type} (A S : List α) (i : Nat) (x : α) (hA : A[i]? = some x)
    (hS : i < S.length) :
    (A.take i ++ S.drop i).set i x = A.take (i + 1) ++ S.drop (i + 1) := by
  have hAl : i < A.length := getElem?_lt A i x hA
  apply List.ext_getElem?
  intro j
  rw [List.getElem?_set, List.getElem?_append, List.getElem?_append]
  simp only [List.length_take, List.length_append, List.length_drop, List.getElem?_take,
    List.getElem?_drop]
  have m1 : min i A.length = i := by omega
  have m2 : min (i + 1) A.length = i + 1 := by omega
  rw [m1, m2]
  by_cases hj : i = j
  · subst hj
    rw [if_pos rfl, if_pos (by omega), if_pos (by omega), if_pos (by omega)]
    exact hA.symm
  · rw [if_neg hj]
    by_cases hlt : j < i
    · rw [if_pos hlt, if_pos hlt, if_pos (by omega), if_pos (by omega)]
    · rw [if_neg hlt, if_neg (by omega)]
      congr 1
      omega

/-- C20: when `myAudio` copies (high-quality mode off, `current_sample` and `len` not
negative, the guard of line 50 passed, the stream has room for `len / 4` samples), every
index it reads is below the length of `to_play`, the first `len / 4` samples of the stream
become `to_play[c], to_play[c+1], ...` in order from the old cursor `c`, and `current_sample`
advances by exactly `len / 4`. -/
theorem myAudio_copies (h : Host) (st : State) (stream : List sample) (len : Int)
    (hq : h.inHighQual = false) (hc : 0 ≤ st.current_sample) (hl : 0 ≤ len)
    (hguard : ¬ ((st.to_play.length : Int) < st.current_sample + len))
    (hroom : Int.tdiv len 4 ≤ stream.length) :
    Int.tdiv len 4 = len / 4 ∧
    (∀ k : Int, 0 ≤ k → k < len / 4 → st.current_sample + k < st.to_play.length) ∧
    myAudio h st stream len =
      some ({ st with current_sample := st.current_sample + len / 4 },
        (st.to_play.drop st.current_sample.toNat).take (len / 4).toNat ++
          stream.drop (len / 4).toNat) := by
  have hdiv : Int.tdiv len 4 = len / 4 := Int.tdiv_eq_ediv hl (by decide)
  have hn0 : 0 ≤ len / 4 := Int.ediv_nonneg hl (by decide)
  have hnl : len / 4 ≤ len := by omega
  refine ⟨hdiv, fun k _ hk => by omega, ?_⟩
  unfold myAudio
  rw [if_neg hguard, hq]
  simp only [Bool.false_eq_true, if_false]
  rw [hdiv] at hroom ⊢
  obtain ⟨b, hb, hP⟩ := forLoop_inv
    (fun (acc : State × List sample) i =>
      match vget acc.1.to_play acc.1.current_sample with
      | none => none
      | some x =>
        match vset acc.2 i x with
        | none => none
        | some out => some ({ acc.1 with current_sample := acc.1.current_sample + 1 }, out))
    (fun i acc => acc.1 = { st with current_sample := st.current_sample + i } ∧
      acc.2 = (st.to_play.drop st.current_sample.toNat).take i.toNat ++ stream.drop i.toNat)
    (len / 4).toNat 0 (st, stream)
    (by
      intro x i hi0 hi1 hx
      obtain ⟨hx1, hx2⟩ := hx
      have hidx : st.current_sample + i < st.to_play.length := by omega
      obtain ⟨v, hv, hv2⟩ := vget_isSome st.to_play (st.current_sample + i) (by omega) hidx
      have hA : (st.to_play.drop st.current_sample.toNat)[i.toNat]? = some v := by
        rw [List.getElem?_drop]
        have e : st.current_sample.toNat + i.toNat = (st.current_sample + i).toNat := by omega
        rw [e]; exact hv2
      have hlen2 : x.2.length = stream.length := by
        rw [hx2]
        simp only [List.length_append, List.length_take, List.length_drop]
        omega
      have hset := vset_of_lt x.2 i v hi0 (by omega)
      refine ⟨({ x.1 with current_sample := x.1.current_sample + 1 }, x.2.set i.toNat v), ?_, ?_, ?_⟩
      · simp only [hx1, hv, hset]
      · simp only [hx1]
        congr 1
        ring
      · simp only
        rw [hx2, set_take_drop _ stream i.toNat v hA (by omega)]
        have e : (i + 1).toNat = i.toNat + 1 := by omega
        rw [e])
    (by simp)
  rw [hb]
  obtain ⟨h1, h2⟩ := hP
  have e : (0 : Int) + ((len / 4).toNat : Int) = len / 4 := by omega
  rw [e] at h1 h2
  exact congrArg some (Prod.ext h1 h2)

/-- C20, with four samples queued, none consumed, and a request of one sample (4 bytes). -/
theorem myAudio_copies_witness :
    myAudio (euclidHost 1 0) fourQueued [⟨0, 0⟩] 4 =
      some ({ fourQueued with current_sample := 0 + 4 / 4 },
        (fourQueued.to_play.drop (0 : Int).toNat).take ((4 : Int) / 4).toNat ++
          [(⟨0, 0⟩ : sample)].drop ((4 : Int) / 4).toNat) :=
  (myAudio_copies (euclidHost 1 0) fourQueued [⟨0, 0⟩] 4 rfl (by decide) (by decide)
    (by decide) (by decide)).2.2

/-- C11: along every sequence of `draw_bird` and `reverb_queue` calls from the start of the
session, the frame counter `frameid` never decreases, the `curframe` of every tracked cell
never decreases, and no `curframe` exceeds `frameid`. -/
theorem curframe_monotone (s0 st1 st2 : State) (evs1 evs2 : List Event) (hstart : IsStart s0)
    (h1 : run s0 evs1 = some st1) (h2 : run st1 evs2 = some st2) :
    st1.frameid ≤ st2.frameid ∧
    (∀ c p, infosFind st1.infos c = some p →
      ∃ p2, infosFind st2.infos c = some p2 ∧ p.curframe ≤ p2.curframe) ∧
    (∀ c p, infosFind st2.infos c = some p → p.curframe ≤ st2.frameid) := by
  obtain ⟨inv1, _⟩ := run_frames evs1 s0 st1 (FrameInv_of_start s0 hstart) h1
  obtain ⟨inv2, grow⟩ := run_frames evs2 st1 st2 inv1 h2
  refine ⟨grow.1, grow.2, ?_⟩
  intro c p hp
  exact (inv2.2 _ (infosFind_mem _ _ _ hp)).2.1

/-- C11, at a session with a loaded track: the listener's cell is recorded and mixed in the
first frame, then recorded again and mixed in the second. -/
theorem curframe_monotone_witness :
    ∃ st1 st2,
      run (loadedState negTrack)
        [Event.draw (euclidHost 1 0) 0 ownCellEar, Event.mix (euclidHost 1 0)] = some st1 ∧
      run st1 [Event.draw (euclidHost 2 0) 0 ownCellEar, Event.mix (euclidHost 2 0)] = some st2 ∧
      st1.frameid ≤ st2.frameid ∧
      (∀ c p, infosFind st1.infos c = some p →
        ∃ p2, infosFind st2.infos c = some p2 ∧ p.curframe ≤ p2.curframe) := by
  have hs1 : (run (loadedState negTrack)
      [Event.draw (euclidHost 1 0) 0 ownCellEar, Event.mix (euclidHost 1 0)]).isSome = true := by
    decide!
  obtain ⟨st1, e1⟩ := Option.isSome_iff_exists.mp hs1
  have hs2 : ((run (loadedState negTrack)
      [Event.draw (euclidHost 1 0) 0 ownCellEar, Event.mix (euclidHost 1 0)]).bind
      (fun s => run s [Event.draw (euclidHost 2 0) 0 ownCellEar,
        Event.mix (euclidHost 2 0)])).isSome = true := by
    decide!
  rw [e1] at hs2
  obtain ⟨st2, e2⟩ := Option.isSome_iff_exists.mp hs2
  have key := curframe_monotone (loadedState negTrack) st1 st2 _ _
    ⟨rfl, rfl, rfl, rfl, rfl, rfl, rfl⟩ e1 e2
  exact ⟨st1, st2, e1, e2, key.1, key.2.1⟩

/-- C18: in every state reached from the start of the session by `draw_bird` and
`reverb_queue` calls, `frameid` is at least 10; a cell that `draw_bird` records for the first
time gets `lastframe = 0`, `lastdist = (0, 0)` and `curframe = frameid`; and for every
tracked cell that still has `lastframe = 0`, `lastframe` differs from `curframe - 1`, so
line 112 sets its `lastdist` to `curdist` when a mix step processes it, and what the mix step
computes for it does not depend on its `lastdist`. -/
theorem fresh_cell_reset (s0 st : State) (evs : List Event) (hstart : IsStart s0)
    (hrun : run s0 evs = some st) :
    10 ≤ st.frameid ∧
    (∀ (h : Host) (c : Nat) (earDist : ℚ → ℚ) (st1 : State),
      st.in_ = true → infosFind st.infos c = none → draw_bird h st c earDist = some st1 →
      ∃ p, infosFind st1.infos c = some p ∧ p.lastframe = 0 ∧ p.lastdist = (0, 0) ∧
        p.curframe = st.frameid) ∧
    (∀ c p, (c, p) ∈ st.infos → p.lastframe = 0 →
      p.lastframe ≠ p.curframe - 1 ∧ (gapReset p).lastdist = p.curdist ∧
      ∀ (h : Host) (x : ℚ × ℚ) (buf : List (ℚ × ℚ)), p.curframe = st.frameid →
        mixCell h (tick h st) c { p with lastdist := x } buf =
          mixCell h (tick h st) c p buf) := by
  obtain ⟨inv, _⟩ := run_frames evs s0 st (FrameInv_of_start s0 hstart) hrun
  refine ⟨inv.1, ?_, ?_⟩
  · intro h c earDist st1 hin hnone hdraw
    obtain ⟨_, _, _, _, _, hcase⟩ := draw_bird_cases h st st1 c earDist hdraw
    rcases hcase with ⟨hf, _⟩ | ⟨_, hi⟩
    · rw [hin] at hf
      exact absurd hf (by decide)
    · obtain ⟨q, hq, hq2⟩ := infosFind_update_self c
        (fun ci => { ci with curframe := st.frameid,
                             curdist := (earDist (-st.iad), earDist st.iad) }) st.infos
      have hqf := hq2 hnone
      subst hqf
      rw [hi]
      exact ⟨_, hq, rfl, rfl, rfl⟩
  · intro c p hmem hl0
    obtain ⟨i1, _, _⟩ := inv.2 _ hmem
    simp only at i1
    have hne : p.lastframe ≠ p.curframe - 1 := by omega
    refine ⟨hne, by rw [gapReset_of_gap p hne], ?_⟩
    intro h x buf hvis
    exact mixCell_stale h (tick h st) c p x buf hvis hne

/-- C18, at the first frame of a session with a loaded track, after the listener's cell has
been recorded for the first time. -/
theorem fresh_cell_reset_witness :
    ∃ st, run (loadedState negTrack) [Event.draw (euclidHost 1 0) 0 ownCellEar] = some st ∧
      10 ≤ st.frameid ∧
      ∀ c p, (c, p) ∈ st.infos → p.lastframe = 0 →
        p.lastframe ≠ p.curframe - 1 ∧ (gapReset p).lastdist = p.curdist := by
  have hs1 : (run (loadedState negTrack)
      [Event.draw (euclidHost 1 0) 0 ownCellEar]).isSome = true := by
    decide!
  obtain ⟨st, e1⟩ := Option.isSome_iff_exists.mp hs1
  have key := fresh_cell_reset (loadedState negTrack) st _
    ⟨rfl, rfl, rfl, rfl, rfl, rfl, rfl⟩ e1
  exact ⟨st, e1, key.1, fun c p hm hl => ⟨(key.2.2 c p hm hl).1, (key.2.2 c p hm hl).2.1⟩⟩

theorem endsWithRaw_of_long (fname : List Char) (hlen : 4 ≤ fname.length) :
    endsWithRaw fname = some (decide (fname.drop (fname.length - 4) = ['.', 'r', 'a', 'w'])) := by
  unfold endsWithRaw
  rw [if_neg (by omega)]

/-- C12 (the code departs from the claim): for the two character name `ab` the position
`isize(fname) - 4` of line 264 is negative and `substr` throws, so no loading path is selected
and the handler does not return.  For names of four characters or more the raw path is selected
exactly when the name ends with `.raw`, the decoded path otherwise, and a load failure on either
path returns 1 and leaves the state, `in` included, as it was. -/
theorem argHandler_short_name_throws :
    selectedPath ['a', 'b'] = none ∧
    argHandler noFiles (State.init []) true ['a', 'b'] = none ∧
    (∀ fname : List Char, 4 ≤ fname.length →
      (selectedPath fname = some LoadPath.raw ↔
        fname.drop (fname.length - 4) = ['.', 'r', 'a', 'w']) ∧
      (selectedPath fname = some LoadPath.decoded ↔
        fname.drop (fname.length - 4) ≠ ['.', 'r', 'a', 'w'])) ∧
    (∀ (files : Files) (st : State) (fname : List Char),
      (selectedPath fname = some LoadPath.raw → files.raw fname = none →
        argHandler files st true fname = some (1, st)) ∧
      (selectedPath fname = some LoadPath.decoded → files.decoded fname = none →
        argHandler files st true fname = some (1, st))) := by
  refine ⟨by decide, by decide, ?_, ?_⟩
  · intro fname hlen
    unfold selectedPath
    rw [endsWithRaw_of_long fname hlen]
    by_cases hs : fname.drop (fname.length - 4) = ['.', 'r', 'a', 'w']
    · simp [hs]
    · simp [hs]
  · intro files st fname
    constructor
    · intro hp hf
      simp [argHandler, hp, hf]
    · intro hp hf
      simp [argHandler, hp, hf]

/-- C19 (the code departs from the claim): from a session with a loaded track, the listener's
cell is recorded and the first mix step comes at 2000 milliseconds.  The step is skipped: `curt`
becomes 88200 while `sndbuffer` and `to_play` stay empty, so `curt` exceeds both lengths, and
`save_raw_audio`, which reads `sndbuffer[i]` for `i` from 0 to `curt - 1`, reads outside the
vector at `i = 0`. -/
theorem save_raw_audio_after_skipped_frame :
    (run (loadedState negTrack)
        [Event.draw (euclidHost 2000 0) 0 ownCellEar, Event.mix (euclidHost 2000 0)]).map
      (fun s => (s.in_, s.curt, s.sndbuffer.length, s.to_play.length,
        (save_raw_audio s).isSome)) =
    some (true, (88200 : Int), 0, 0, false) := by
  decide!

end embed
end rogueviz

namespace hr
namespace vrhr

/-- C13 (the code departs from the claim): with `GDIM == 2` the function `render` assigns 2,
then 3, and returns at line 721 without the assignment `state = 1` of line 817, whatever
`cscr` and the state before; only with `GDIM` other than 2 does it return with `state` equal
to 1.  After such a return `vr_control` calls neither `start_vr` nor `track_all`. -/
theorem render_flat_returns_in_state_three (cscr : eCompScreen) (s : VRState) :
    (render 2 cscr s).state = 3 ∧
    (render 2 cscr s).assigned = s.assigned ++ [2, 3] ∧
    (∀ env : VRHost, vr_control env (render 2 cscr s) = some (render 2 cscr s, []) ∨
      vr_control env (render 2 cscr s) =
        some (shutdown_vr (render 2 cscr s), [Call.shutdown_vr])) ∧
    (∀ g : Int, g ≠ 2 → (render g cscr s).state = 1) := by
  refine ⟨by simp [render, setState], by simp [render, setState], ?_, ?_⟩
  · intro env
    have h3 : (render 2 cscr s).state = 3 := by simp [render, setState]
    unfold vr_control
    by_cases hc : (render 2 cscr s).enabled = false ∨ env.usingGL = false
    · right
      rw [if_pos hc, if_pos (by rw [h3]; decide)]
    · left
      rw [if_neg hc]
      have hn : ¬ ((render 2 cscr s).enabled = true ∧ env.usingGL = true ∧
          (render 2 cscr s).state = 0 ∧ (render 2 cscr s).failed = false) := by
        rw [h3]; intro hh; exact absurd hh.2.2.1 (by decide)
      rw [if_neg hn]
      simp only
      rw [if_neg (by rw [h3]; decide)]
  · intro g hg
    simp only [render, if_neg hg]
    simp [setState]

theorem vr_control_failed (env : VRHost) (s : VRState) (hf : s.failed = true)
    (h0 : s.state = 0) : vr_control env s = some (s, []) := by
  unfold vr_control
  by_cases hc : s.enabled = false ∨ env.usingGL = false
  · rw [if_pos hc, if_neg (by simp [h0])]
  · rw [if_neg hc]
    have hn : ¬ (s.enabled = true ∧ env.usingGL = true ∧ s.state = 0 ∧ s.failed = false) := by
      intro hh
      rw [hf] at hh
      exact absurd hh.2.2.2 (by decide)
    rw [if_neg hn]
    simp only
    rw [if_neg (by rw [h0]; decide)]

theorem vr_controls_failed (envs : List (VRHost × Bool)) :
    ∀ s : VRState, s.failed = true → s.state = 0 →
      ∃ s1, vr_controls s envs = some (s1, []) ∧ s1.state = 0 ∧ s1.failed = true ∧
        s1.assigned = s.assigned := by
  induction envs with
  | nil =>
    intro s hf h0
    exact ⟨s, rfl, h0, hf, rfl⟩
  | cons e rest ih =>
    intro s hf h0
    obtain ⟨env, en⟩ := e
    have e1 := vr_control_failed env { s with enabled := en } hf h0
    obtain ⟨s1, e2, h1, h2, h3⟩ := ih { s with enabled := en } hf h0
    refine ⟨s1, ?_, h1, h2, h3⟩
    simp only [vr_controls, e1, e2, List.append_nil]

/-- C14: when `VR_Init` reports an error, `start_vr` sets `failed` and leaves `state` at 0;
from then on every call of `vr_control`, whatever the host answers and whatever the user
sets `enabled` to, returns with `state` still 0 and `failed` still true, assigns nothing to
`state`, and calls neither `start_vr` nor `track_all` (it makes no call at all). -/
theorem vr_control_failure_terminal (env0 : VRHost) (s0 : VRState)
    (envs : List (VRHost × Bool)) (hinit : env0.initOk = false) (hs0 : s0.state = 0) :
    ∃ s, start_vr env0 s0 = some s ∧ s.failed = true ∧ s.state = 0 ∧
      (∀ env : VRHost, vr_control env s = some (s, [])) ∧
      ∃ s1, vr_controls s envs = some (s1, []) ∧ s1.state = 0 ∧ s1.failed = true ∧
        s1.assigned = s.assigned := by
  refine ⟨{ s0 with failed := true }, by simp [start_vr, hinit], rfl, hs0, ?_, ?_⟩
  · intro env
    exact vr_control_failed env _ rfl hs0
  · exact vr_controls_failed envs _ rfl hs0

/-- C14, at a headset that fails to initialise, then three frames: VR enabled, VR disabled,
and VR enabled again with a runtime that would now initialise. -/
theorem vr_control_failure_terminal_witness :
    ∃ s, start_vr { usingGL := true, initOk := false, compositorOk := true }
        { VRState.init with enabled := true } = some s ∧ s.failed = true ∧ s.state = 0 ∧
      (∀ env : VRHost, vr_control env s = some (s, [])) ∧
      ∃ s1, vr_controls s
          [({ usingGL := true, initOk := false, compositorOk := true }, true),
           ({ usingGL := true, initOk := false, compositorOk := true }, false),
           ({ usingGL := true, initOk := true, compositorOk := true }, true)] =
          some (s1, []) ∧ s1.state = 0 ∧ s1.failed = true ∧ s1.assigned = s.assigned :=
  vr_control_failure_terminal { usingGL := true, initOk := false, compositorOk := true }
    { VRState.init with enabled := true } _ rfl rfl

end vrhr
end hr

namespace hr
namespace vrhr

theorem land_ne_zero (a b : Int) (h : Int.land a b ≠ 0) : a ≠ 0 ∧ b ≠ 0 := by
  constructor
  · rintro rfl
    apply h
    cases b <;> simp [Int.land, Nat.ldiff, Nat.bitwise_zero_left]
  · rintro rfl
    apply h
    cases a <;> simp [Int.land, Nat.ldiff, Nat.bitwise_zero_left]

theorem logicalAnd_of_bitAnd (a b : Int) (h : bitAnd a b = true) : logicalAnd a b = true := by
  unfold bitAnd at h
  unfold logicalAnd
  have := land_ne_zero a b (of_decide_eq_true h)
  simp [this.1, this.2]

theorem logicalAnd_of_ne (a b : Int) (ha : a ≠ 0) (hb : b ≠ 0) : logicalAnd a b = true := by
  simp [logicalAnd, ha, hb]

theorem bitAnd_of_land_eq_zero (a b : Int) (h : Int.land a b = 0) : bitAnd a b = false := by
  simp [bitAnd, h]

theorem bitAnd_eq_logicalAnd (a b : Int) (h : a = 0 ∨ b = 0 ∨ Int.land a b ≠ 0) :
    bitAnd a b = logicalAnd a b := by
  by_cases hb : bitAnd a b = true
  · rw [hb, logicalAnd_of_bitAnd a b hb]
  · have hl : Int.land a b = 0 := by
      by_contra hne
      exact hb (by simp [bitAnd, hne])
    have hz : a = 0 ∨ b = 0 := by
      rcases h with h | h | h
      · exact Or.inl h
      · exact Or.inr h
      · exact absurd hl h
    rw [Bool.not_eq_true] at hb
    rw [hb]
    rcases hz with rfl | rfl <;> simp [logicalAnd]

theorem setOf_cases (l c : Bool) (dad : digital_action_data) (hd : dad ∈ dads l c) :
    (setOf dad = sads[0]? ∧ dad.when = fun NORMAL cmode => !(logicalAnd cmode NORMAL)) ∨
    (setOf dad = sads[1]? ∧ dad.when = fun NORMAL cmode => logicalAnd cmode NORMAL) ∨
    (setOf dad = sads[2]? ∧ dad.when = fun _ _ => true) := by
  simp only [dads, List.mem_cons, List.mem_singleton, List.not_mem_nil, or_false] at hd
  rcases hd with rfl | rfl | rfl | rfl | rfl | rfl | rfl | rfl | rfl
  · exact Or.inl ⟨rfl, rfl⟩
  · exact Or.inl ⟨rfl, rfl⟩
  · exact Or.inl ⟨rfl, rfl⟩
  · exact Or.inr (Or.inl ⟨rfl, rfl⟩)
  · exact Or.inr (Or.inl ⟨rfl, rfl⟩)
  · exact Or.inr (Or.inl ⟨rfl, rfl⟩)
  · exact Or.inr (Or.inl ⟨rfl, rfl⟩)
  · exact Or.inr (Or.inl ⟨rfl, rfl⟩)
  · exact Or.inr (Or.inr ⟨rfl, rfl⟩)

/-- C21 (the code departs from the claim): the predicates of `dads` are written with the
logical `cmode && sm::NORMAL`, those of `sads` with the bitwise `cmode & sm::NORMAL`.  With the
mode word `sm::SIDE | sm::MAYDARK` that `show_vr_settings` assigns (flag values 256 and 16384,
`sm::NORMAL` being 1), `track_actions` activates the sets `/actions/menu` and
`/actions/general` and polls the five `/actions/game/...` actions and none of the
`/actions/menu/...` actions.  For every mode word other than 0 without the bit `sm::NORMAL`,
each menu or game action is polled exactly when its set is not active; for the mode word 0 and
for every mode word with the bit set, each action is polled exactly when its set is active. -/
theorem track_actions_polls_game_actions_in_menu :
    activeSets 1 (settingsMode 256 16384) = [("/actions/menu", 20), ("/actions/general", 10)] ∧
    (∀ (bState : String → Bool) (l c : Bool),
      polled 1 (settingsMode 256 16384) bState (dads l c) =
        ["/actions/game/in/MoveLeft", "/actions/game/in/MoveRight", "/actions/game/in/Drop",
         "/actions/game/in/Skip turn", "/actions/game/in/EnterMenu",
         "/actions/general/in/SetReference"]) ∧
    (∀ (NORMAL cmode : Int) (l c : Bool),
      NORMAL ≠ 0 → cmode ≠ 0 → Int.land cmode NORMAL = 0 →
      ∀ dad ∈ dads l c, ∀ sad, setOf dad = some sad → sad.set_name ≠ "/actions/general" →
        dad.when NORMAL cmode = !(sad.when NORMAL cmode)) ∧
    (∀ (NORMAL cmode : Int) (l c : Bool),
      cmode = 0 ∨ NORMAL = 0 ∨ Int.land cmode NORMAL ≠ 0 →
      ∀ dad ∈ dads l c, ∀ sad, setOf dad = some sad →
        dad.when NORMAL cmode = sad.when NORMAL cmode) := by
  refine ⟨by decide, ?_, ?_, ?_⟩
  · intro bState l c
    rfl
  · intro NORMAL cmode l c hN hc hl dad hd sad hs hg
    have e1 := logicalAnd_of_ne cmode NORMAL hc hN
    have e2 := bitAnd_of_land_eq_zero cmode NORMAL hl
    rcases setOf_cases l c dad hd with ⟨e, w⟩ | ⟨e, w⟩ | ⟨e, _⟩
    · rw [e] at hs
      cases hs
      rw [w]
      change (!(logicalAnd cmode NORMAL)) = !(!(bitAnd cmode NORMAL))
      rw [e1, e2]
      rfl
    · rw [e] at hs
      cases hs
      rw [w]
      change logicalAnd cmode NORMAL = !(bitAnd cmode NORMAL)
      rw [e1, e2]
      rfl
    · rw [e] at hs
      cases hs
      exact absurd rfl hg
  · intro NORMAL cmode l c h dad hd sad hs
    have e1 := bitAnd_eq_logicalAnd cmode NORMAL h
    rcases setOf_cases l c dad hd with ⟨e, w⟩ | ⟨e, w⟩ | ⟨e, w⟩
    · rw [e] at hs
      cases hs
      rw [w]
      change (!(logicalAnd cmode NORMAL)) = !(bitAnd cmode NORMAL)
      rw [e1]
    · rw [e] at hs
      cases hs
      rw [w]
      change logicalAnd cmode NORMAL = bitAnd cmode NORMAL
      rw [e1]
    · rw [e] at hs
      cases hs
      rw [w]
      rfl

end vrhr
end hr
